import Mathlib

/-!
Verification development for the QuickSceneSwitcher scene-composition tool
(`QuickSceneSwitcher.py`).  The Python source drives the 3ds Max layer
manager; here the host scene (layers, objects, materials, selection) is
modelled as explicit data, and the tool's operations are translated into
pure Lean functions over that model.  Host conventions modelled after the
3ds Max LayerManager: layer names are unique, `newLayerFromName` is only
reached after a failed `getLayerFromName` lookup, and `ILayer.setName` is a
no-op when the requested name is already taken.
-/

namespace QSS

/-- Strings are modelled as character lists (Python `str`). -/
abbrev Str : Type := List Char

/-- Python `s.startswith(p)`: `p` is a prefix of `s`. -/
def strStartsWith : Str → Str → Bool
  | _, [] => true
  | [], _ :: _ => false
  | a :: s, b :: p => decide (a = b) && strStartsWith s p

/-- Python `p in s`: `p` occurs as a contiguous substring of `s`. -/
def strContains : Str → Str → Bool
  | [], p => strStartsWith [] p
  | a :: s, p => strStartsWith (a :: s) p || strContains s p

/-- Python `s.endswith(p)`: `p` is a suffix of `s`. -/
def strEndsWith (s p : Str) : Bool :=
  strStartsWith s.reverse p.reverse

/-- Python `s[:-len(p)]` (for nonempty `p`): drop `p.length` trailing characters. -/
def strDropSuffix (s p : Str) : Str :=
  s.take (s.length - p.length)

/-- Python `text.rstrip("*")`: remove every trailing `'*'`. -/
def rstripStars (s : Str) : Str :=
  (s.reverse.dropWhile (fun c => decide (c = '*'))).reverse

/-- `set_item_dirty` (QuickSceneSwitcher.py lines 588-596), expressed as the
transformation it applies to the item's displayed text. -/
def set_item_dirty_text (text : Str) (dirty : Bool) : Str :=
  if dirty then
    if strEndsWith text ['*'] then text else text ++ ['*']
  else
    if strEndsWith text ['*'] then rstripStars text else text

/-- The literal separator `".Duplicate."` used by the material namespacing. -/
def dupMarker : Str := ".Duplicate.".data

/-- `generate_unique_suffix` (lines 777-778): `".Duplicate." + hex` where
`hex` is the 8-character `uuid4().hex[:8]` value, supplied as a parameter. -/
def generate_unique_suffix (hex8 : Str) : Str :=
  dupMarker ++ hex8

/-- Prefix of a string up to (excluding) the first occurrence of `p`;
the whole string when `p` does not occur.  This is Python
`s.split(p)[0]`. -/
def takeBeforeFirst (p : Str) : Str → Str
  | [] => []
  | a :: s => if strStartsWith (a :: s) p then [] else a :: takeBeforeFirst p s

/-- The renaming `clean_up_material_names` (lines 780-805) applies to one
material name: if `".Duplicate."` occurs, keep only the part before its
first occurrence. -/
def clean_material_name (n : Str) : Str :=
  if strContains n dupMarker then takeBeforeFirst dupMarker n else n

/-! ### The host scene model

Layers, objects and materials of the 3ds Max scene, with the layer-manager
conventions the script relies on: layers carry a unique name, `getLayer 0`
is the permanent default layer `"0"`, renaming to a taken name is a no-op,
and a new layer is only created after a failed lookup. -/

/-- One host layer: identity, name, optional parent layer (by id), visibility. -/
structure LayerRec where
  id : Nat
  name : Str
  parent : Option Nat
  visible : Bool
deriving Repr, DecidableEq

/-- One scene object (node): identity, owning layer, optional material. -/
structure ObjRec where
  id : Nat
  layerId : Nat
  matId : Option Nat
deriving Repr, DecidableEq

/-- One material instance.  Unlike layers, material names may repeat. -/
structure MatRec where
  id : Nat
  name : Str
deriving Repr, DecidableEq

/-- The host scene: layer list in creation order (index 0 = default layer),
objects, materials, current selection (object ids) and the "current layer"
mark (at most one layer is current). -/
structure Scene where
  layers : List LayerRec
  objs : List ObjRec
  mats : List MatRec
  sel : List Nat
  currentLayer : Option Nat
  nextLayerId : Nat
  nextObjId : Nat
  nextMatId : Nat
deriving Repr, DecidableEq

/-- `rt.LayerManager.getLayerFromName`. -/
def findLayerByName (s : Scene) (n : Str) : Option LayerRec :=
  s.layers.find? (fun l => decide (l.name = n))

/-- Look a layer up by identity. -/
def findLayerById (s : Scene) (i : Nat) : Option LayerRec :=
  s.layers.find? (fun l => decide (l.id = i))

/-- All layer names, in layer-manager order. -/
def layerNames (s : Scene) : List Str :=
  s.layers.map (·.name)

/-- `rt.LayerManager.newLayerFromName` (callers only reach it after a failed
lookup): append a fresh layer, initially parentless and visible. -/
def newLayerFromName (s : Scene) (n : Str) (parent : Option Nat) : Scene × Nat :=
  ({ s with
      layers := s.layers ++ [{ id := s.nextLayerId, name := n, parent := parent, visible := true }],
      nextLayerId := s.nextLayerId + 1 },
   s.nextLayerId)

/-- The ubiquitous `getLayerFromName` / `newLayerFromName` pairing. -/
def getOrCreateLayer (s : Scene) (n : Str) : Scene × Nat :=
  match findLayerByName s n with
  | some l => (s, l.id)
  | none => newLayerFromName s n none

/-- Update one layer in place. -/
def modifyLayer (s : Scene) (i : Nat) (f : LayerRec → LayerRec) : Scene :=
  { s with layers := s.layers.map (fun l => if l.id = i then f l else l) }

/-- `ILayer.setName`: a no-op when some layer already carries the name
(the host keeps layer names unique). -/
def setLayerName (s : Scene) (i : Nat) (n : Str) : Scene :=
  if s.layers.any (fun l => decide (l.name = n)) then s
  else modifyLayer s i (fun l => { l with name := n })

/-- `ILayer.setParent` (with `none` for `rt.undefined`). -/
def setLayerParent (s : Scene) (i : Nat) (p : Option Nat) : Scene :=
  modifyLayer s i (fun l => { l with parent := p })

/-- `layer.on = v`. -/
def setLayerVisible (s : Scene) (i : Nat) (v : Bool) : Scene :=
  modifyLayer s i (fun l => { l with visible := v })

/-- `layer.current = True`. -/
def setCurrentLayer (s : Scene) (i : Nat) : Scene :=
  { s with currentLayer := some i }

/-- `obj.layer.name`. -/
def objLayerName (s : Scene) (o : ObjRec) : Str :=
  match findLayerById s o.layerId with
  | some l => l.name
  | none => []

/-- `layer.addNode(obj)`: move the object onto the layer. -/
def addNodeToLayer (s : Scene) (oid : Nat) (lid : Nat) : Scene :=
  { s with objs := s.objs.map (fun o => if o.id = oid then { o with layerId := lid } else o) }

/-- `rt.clearSelection()`. -/
def clearSelection (s : Scene) : Scene :=
  { s with sel := [] }

/-- Create a fresh material instance (materials brought in by a merge). -/
def newMaterial (s : Scene) (n : Str) : Scene × Nat :=
  ({ s with
      mats := s.mats ++ [{ id := s.nextMatId, name := n }],
      nextMatId := s.nextMatId + 1 },
   s.nextMatId)

/-- Create a fresh object on the given layer. -/
def newObjRec (s : Scene) (lid : Nat) (mid : Option Nat) : Scene × Nat :=
  ({ s with
      objs := s.objs ++ [{ id := s.nextObjId, layerId := lid, matId := mid }],
      nextObjId := s.nextObjId + 1 },
   s.nextObjId)

/-- The scene as the host starts it: only the permanent default layer `"0"`
(`rt.resetMaxFile`). -/
def freshScene : Scene :=
  { layers := [{ id := 0, name := ['0'], parent := none, visible := true }],
    objs := [], mats := [], sel := [], currentLayer := none,
    nextLayerId := 1, nextObjId := 0, nextMatId := 0 }

/-! ### Source files (`.max` files handed to `mergeMaxFile`) -/

/-- A layer stored in a source file: its native name and native parent name. -/
structure FileLayer where
  fname : Str
  fparent : Option Str
deriving Repr, DecidableEq

/-- An object stored in a source file: the name of the layer it sits on
(`"0"` for the default layer) and an optional material name. -/
structure FileObj where
  flayer : Str
  fmat : Option Str
deriving Repr, DecidableEq

/-- A source scene file: base name without extension plus contents. -/
structure MaxFile where
  baseName : Str
  layers : List FileLayer
  objs : List FileObj
deriving Repr, DecidableEq

/-- First phase of `rt.mergeMaxFile`: bring over the file's layers; a layer
whose name already exists in the scene is unified with it (Max keys layers by
name), the rest are created. Returns the created layer ids. -/
def mergeCreateStep (acc : Scene × List Nat) (fl : FileLayer) : Scene × List Nat :=
  match findLayerByName acc.1 fl.fname with
  | some _ => acc
  | none =>
    let r := newLayerFromName acc.1 fl.fname none
    (r.1, acc.2 ++ [r.2])

def mergeCreateLayers (s : Scene) (f : MaxFile) : Scene × List Nat :=
  f.layers.foldl mergeCreateStep (s, [])

/-- Second phase of `rt.mergeMaxFile`: connect the created layers to their
parents, resolved by (possibly unified) name. Pre-existing layers keep their
scene parent. -/
def mergeLinkStep (created : List Nat) (s : Scene) (fl : FileLayer) : Scene :=
  match findLayerByName s fl.fname with
  | some l =>
    if l.id ∈ created then
      match fl.fparent with
      | some pn =>
        match findLayerByName s pn with
        | some p => setLayerParent s l.id (some p.id)
        | none => s
      | none => s
    else s
  | none => s

def mergeLinkParents (s : Scene) (f : MaxFile) (created : List Nat) : Scene :=
  f.layers.foldl (mergeLinkStep created) s

/-- Intermediate state of the object phase of `rt.mergeMaxFile`. -/
structure MergeSt where
  scene : Scene
  newObjs : List Nat
  matMap : List (Str × Nat)
deriving Repr, DecidableEq

/-- Object phase of `rt.mergeMaxFile`, one object: its material becomes a
fresh instance (one per distinct material name of this file), the object
lands on the scene layer carrying its file layer's name. -/
def mergeObjStep (st : MergeSt) (fo : FileObj) : MergeSt :=
  let sm : Scene × Option Nat × List (Str × Nat) :=
    match fo.fmat with
    | none => (st.scene, none, st.matMap)
    | some mn =>
      match st.matMap.find? (fun p => decide (p.1 = mn)) with
      | some p => (st.scene, some p.2, st.matMap)
      | none =>
        let r := newMaterial st.scene mn
        (r.1, some r.2, st.matMap ++ [(mn, r.2)])
  let lid : Nat :=
    match findLayerByName sm.1 fo.flayer with
    | some l => l.id
    | none => 0
  let r2 := newObjRec sm.1 lid sm.2.1
  { scene := r2.1, newObjs := st.newObjs ++ [r2.2], matMap := sm.2.2 }

/-- `rt.mergeMaxFile(path, #mergeDups, #select)`: merge the file's layers,
objects and materials, leaving exactly the freshly added objects selected. -/
def mergeMaxFile (s : Scene) (f : MaxFile) : Scene :=
  let r1 := mergeCreateLayers s f
  let s2 := mergeLinkParents r1.1 f r1.2
  let st := f.objs.foldl mergeObjStep { scene := s2, newObjs := [], matMap := [] }
  { st.scene with sel := st.newObjs }

/-! ### `import_single_scene` (lines 807-953, the `MAX_AVAILABLE` part) -/

/-- The namespacing suffix `f" ({display_name})"`. -/
def sfxOf (displayName : Str) : Str :=
  ' ' :: '(' :: (displayName ++ [')'])

/-- The synthetic default sub-layer name `f"0{suffix}"`. -/
def layer0Name (displayName : Str) : Str :=
  '0' :: sfxOf displayName

/-- Lines 840-848: the set of distinct materials referenced by the selected
(merged) objects. -/
def mergedMatIds (s : Scene) : List Nat :=
  (s.sel.filterMap (fun oid =>
    match s.objs.find? (fun o => decide (o.id = oid)) with
    | some o => o.matId
    | none => none)).dedup

/-- Line 854: `mat.name = f"{mat.name}{unique_suffix}"` for one material. -/
def renameMatStep (suffix : Str) (s : Scene) (mid : Nat) : Scene :=
  { s with mats := s.mats.map (fun m =>
      if m.id = mid then { m with name := m.name ++ suffix } else m) }

/-- Lines 834-857: generate the per-merge unique suffix once and append it to
every distinct material of the selected (merged) objects. -/
def renameMergedMaterials (s : Scene) (hex8 : Str) : Scene :=
  (mergedMatIds s).foldl (renameMatStep (generate_unique_suffix hex8)) s

/-- Lines 861-870: selected objects sitting on the default layer `"0"` are
moved onto a (created or reused) layer `"0 (<displayName>)"` under the root. -/
def handleLayerZeroObjs (s : Scene) (rootId : Nat) (dn : Str) : Scene :=
  let objs0 := s.sel.filter (fun oid =>
    match s.objs.find? (fun o => decide (o.id = oid)) with
    | some o => decide (objLayerName s o = ['0'])
    | none => false)
  if objs0.isEmpty then s
  else
    let r := getOrCreateLayer s (layer0Name dn)
    let s1 := setLayerParent r.1 r.2 (some rootId)
    objs0.foldl (fun s oid => addNodeToLayer s oid r.2) s1

/-- Lines 872-886: layers whose name was not in the pre-merge snapshot,
skipping `"0"`, the root name and the synthetic `"0 (<displayName>)"` name. -/
def computeNewIds (s : Scene) (snapshot : List Str) (dn : Str) : List Nat :=
  (s.layers.filter (fun l =>
    !decide (l.name = ['0']) && !decide (l.name = dn) &&
    !decide (l.name = layer0Name dn) &&
    !decide (l.name ∈ snapshot))).map (·.id)

/-- One pass of the rename loop (lines 888-902): append the suffix to the
layer's name, then re-parent under the root unless the parent is itself one
of the new layers. -/
def renameNewStep (newIds : List Nat) (rootId : Nat) (dn : Str) (s : Scene) (lid : Nat) : Scene :=
  match findLayerById s lid with
  | none => s
  | some l =>
    let s1 := setLayerName s lid (l.name ++ sfxOf dn)
    let isNested :=
      match l.parent with
      | some pid => decide (pid ∈ newIds)
      | none => false
    if isNested then s1 else setLayerParent s1 lid (some rootId)

/-- Lines 888-902: rename each new layer by appending the suffix; re-parent
it under the root unless its parent is itself one of the new layers. -/
def renameNewLayers (s : Scene) (newIds : List Nat) (rootId : Nat) (dn : Str) : Scene :=
  newIds.foldl (renameNewStep newIds rootId dn) s

/-- Lines 904-916: for every pre-existing layer name that now carries
selected objects, create (or reuse) `"<name> (<displayName>)"` under the
root and move those objects onto it. -/
def collisionStep (rootId : Nat) (dn : Str) (s : Scene) (ln : Str) : Scene :=
  if decide (ln = ['0']) then s
  else
    let objsIn := s.sel.filter (fun oid =>
      match s.objs.find? (fun o => decide (o.id = oid)) with
      | some o => decide (objLayerName s o = ln)
      | none => false)
    if objsIn.isEmpty then s
    else
      let r : Scene × Nat :=
        match findLayerByName s (ln ++ sfxOf dn) with
        | some ul => (s, ul.id)
        | none =>
          let r0 := newLayerFromName s (ln ++ sfxOf dn) none
          (setLayerParent r0.1 r0.2 (some rootId), r0.2)
      objsIn.foldl (fun s oid => addNodeToLayer s oid r.2) r.1

def handleCollisions (s : Scene) (snapshot : List Str) (rootId : Nat) (dn : Str) : Scene :=
  snapshot.foldl (collisionStep rootId dn) s

/-- `import_single_scene` up to (excluding) the new-layer rename loop:
root creation, current mark, snapshot, merge, material renaming, default
layer handling.  Returns (scene, root id, snapshot). -/
def import_mid (s : Scene) (f : MaxFile) (hex8 : Str) : Scene × Nat × List Str :=
  let r0 := getOrCreateLayer s f.baseName
  let s1 := setCurrentLayer r0.1 r0.2
  let snapshot := layerNames s1
  let s2 := mergeMaxFile s1 f
  let s3 := renameMergedMaterials s2 hex8
  let s4 := handleLayerZeroObjs s3 r0.2 f.baseName
  (s4, r0.2, snapshot)

/-- `import_single_scene` (scene-mutating part): the phases above, then the
rename loop, the collision loop, and the root visibility rule
(first index visible, the rest hidden; untouched on reload). -/
def import_single_scene (s : Scene) (f : MaxFile) (hex8 : Str)
    (index : Nat) (isReload : Bool) : Scene :=
  let mid := import_mid s f hex8
  let rootId := mid.2.1
  let snapshot := mid.2.2
  let newIds := computeNewIds mid.1 snapshot f.baseName
  let s5 := renameNewLayers mid.1 newIds rootId f.baseName
  let s6 := handleCollisions s5 snapshot rootId f.baseName
  if isReload then s6 else setLayerVisible s6 rootId (decide (index = 0))

/-- `clean_up_material_names` (lines 780-805): strip `".Duplicate.<hash>"`
from every scene material that carries it. -/
def clean_up_material_names (s : Scene) : Scene :=
  { s with mats := s.mats.map (fun m =>
      if strContains m.name dupMarker then
        { m with name := takeBeforeFirst dupMarker m.name }
      else m) }

/-- `_perform_scene_switch` (lines 1145-1182), scene-mutating part: clear the
selection, switch every tracked entry's root layer visibility off except the
target's, and mark the target current.  `entries` is the tracked display
names in list order. -/
def switchStep (target : Str) (s : Scene) (nm : Str) : Scene :=
  match findLayerByName s nm with
  | some l =>
    if nm = target then setCurrentLayer (setLayerVisible s l.id true) l.id
    else setLayerVisible s l.id false
  | none => s

def perform_scene_switch (s : Scene) (entries : List Str) (target : Str) : Scene :=
  let s0 := clearSelection s
  entries.foldl (switchStep target) s0

/-- `merge_all_scenes` (lines 713-775), scene-mutating part: with no files the
scene is untouched; otherwise reset the host scene, import every file in list
order, clear the selection, run the material cleanup and switch to the first
entry. -/
def merge_all_scenes (s : Scene) (files : List MaxFile) (hexes : Nat → Str) : Scene :=
  match files with
  | [] => s
  | _ :: _ =>
    let s0 := freshScene
    let s1 := files.enum.foldl
      (fun s p => import_single_scene s p.2 (hexes p.1) p.1 false) s0
    let s2 := clean_up_material_names (clearSelection s1)
    match files.head? with
    | some f0 => perform_scene_switch s2 (files.map (·.baseName)) f0.baseName
    | none => s2

/-! ### `action_save_selected` (lines 1310-1468, the `MAX_AVAILABLE` part) -/

/-- Direct children of the layer named `pname`, resolved through the live
parent pointers (lines 1349-1355). -/
def getChildrenNamed (s : Scene) (pname : Str) : List LayerRec :=
  s.layers.filter (fun l =>
    match l.parent with
    | some pid =>
      match findLayerById s pid with
      | some p => decide (p.name = pname)
      | none => false
    | none => false)

/-- `collect_descendants_recursive` (lines 1357-1363): preorder list of the
strict descendants of the layer named `pname`.  The Python recursion has no
cycle guard; the fuel argument (instantiated with the layer count) makes the
Lean translation total and agrees with it on all acyclic scenes. -/
def collectDescendants (s : Scene) : Nat → Str → List Nat
  | 0, _ => []
  | fuel + 1, pname =>
    (getChildrenNamed s pname).foldl
      (fun acc c => acc ++ c.id :: collectDescendants s fuel c.name) []

/-- Lines 1413-1417: detach a layer from the root when its (live) parent
carries the root layer's (live) name. -/
def detachIfRootParent (s : Scene) (lid : Nat) (origParent : Option Nat) (rootId : Nat) : Scene :=
  match origParent with
  | some pid =>
    let pname := match findLayerById s pid with | some p => p.name | none => []
    let rname := match findLayerById s rootId with | some r => r.name | none => []
    if pname = rname then setLayerParent s lid none else s
  | none => s

/-- The pre-save extraction loop (lines 1396-1417): walk the descendants,
record each one's current `(name, parent)`, strip the suffix from suffixed
names — except the `"0 (<displayName>)"` form, whose `continue` skips the
detach step as well — and detach layers whose parent is the root. -/
def extractStep (rootId : Nat) (dn : Str)
    (acc : Scene × List (Nat × Str × Option Nat)) (lid : Nat) :
    Scene × List (Nat × Str × Option Nat) :=
  match findLayerById acc.1 lid with
  | none => acc
  | some l =>
    let sm := acc.2 ++ [(lid, l.name, l.parent)]
    if strEndsWith l.name (sfxOf dn) then
      if strDropSuffix l.name (sfxOf dn) = ['0'] then (acc.1, sm)
      else
        let s1 := setLayerName acc.1 lid (strDropSuffix l.name (sfxOf dn))
        (detachIfRootParent s1 lid l.parent rootId, sm)
    else
      (detachIfRootParent acc.1 lid l.parent rootId, sm)

def extractLayers (s : Scene) (descs : List Nat) (rootId : Nat) (dn : Str) :
    Scene × List (Nat × Str × Option Nat) :=
  descs.foldl (extractStep rootId dn) (s, [])

/-- The post-save restore loop (lines 1434-1442): walk the recorded states in
recording order, re-attach the recorded parent, then restore the recorded
name where it differs. -/
def restoreStep (s : Scene) (e : Nat × Str × Option Nat) : Scene :=
  let s1 := match e.2.2 with
            | some pid => setLayerParent s e.1 (some pid)
            | none => s
  match findLayerById s1 e.1 with
  | some l => if l.name = e.2.1 then s1 else setLayerName s1 e.1 e.2.1
  | none => s1

def restoreLayers (s : Scene) (stateMap : List (Nat × Str × Option Nat)) : Scene :=
  stateMap.foldl restoreStep s

/-- `action_save_selected` (scene-mutating part), for the active entry with
display name `dn`: find the root, collect descendants, move objects off the
root-named and `"0 (<dn>)"` layers onto the default layer, extract, select
the nodes, save (successful exactly when the selection is nonempty), restore
the layer records in recording order, move the objects back, restore the
user selection.  Returns the final scene and the save-success flag. -/
def action_save_selected (s : Scene) (dn : Str) : Scene × Bool :=
  match findLayerByName s dn with
  | none => (s, false)
  | some root =>
    let userSel := s.sel
    let descs := collectDescendants s s.layers.length root.name
    let validNames := root.name :: descs.filterMap (fun lid => (findLayerById s lid).map (·.name))
    let nodesToSave := (s.objs.filter (fun o => decide (objLayerName s o ∈ validNames))).map (·.id)
    let movedPairs := (s.objs.filter (fun o =>
        nodesToSave.contains o.id &&
        (decide (objLayerName s o = layer0Name dn) || decide (objLayerName s o = dn)))).map
        (fun o => (o.id, o.layerId))
    let globalLayer0 := match s.layers.head? with | some l => l.id | none => 0
    let s1 := movedPairs.foldl (fun s p => addNodeToLayer s p.1 globalLayer0) s
    let ex := extractLayers s1 descs root.id dn
    let s2 := clearSelection ex.1
    let s3 := if nodesToSave.isEmpty then s2 else { s2 with sel := nodesToSave }
    let saveSuccess := !s3.sel.isEmpty
    let s4 := restoreLayers s3 ex.2
    let s5 := movedPairs.foldl (fun s p => addNodeToLayer s p.1 p.2) s4
    let s6 := clearSelection s5
    let s7 := if userSel.isEmpty then s6 else { s6 with sel := userSel }
    (s7, saveSuccess)

/-- `_perform_batch_save` (lines 1112-1126): for every green-marked entry in
list order, switch to it without prompting, then save it.  The completion
dialog reports `len(items_to_save)` as the number of saved scenes.  Returns
(final scene, number of saves that actually succeeded, reported count,
switch order). -/
def batchStep (allEntries : List Str) (acc : Scene × Nat × List Str) (dn : Str) :
    Scene × Nat × List Str :=
  let s1 := perform_scene_switch acc.1 allEntries dn
  let sv := action_save_selected s1 dn
  (sv.1, acc.2.1 + (if sv.2 then 1 else 0), acc.2.2 ++ [dn])

def perform_batch_save (s : Scene) (allEntries : List Str) (marked : List Str) :
    Scene × Nat × Nat × List Str :=
  let r := marked.foldl (batchStep allEntries) (s, 0, [])
  (r.1, r.2.1, marked.length, r.2.2)

/-! ### The change-detection timer across `merge_all_scenes` (C8) -/

/-- `merge_all_scenes` with the poll timer and host-exception behaviour made
explicit.  The function stops `dirty_timer` on entry; the empty-folder branch
restarts it inline; the import loop has no `try/finally`, so a raising
`rt.mergeMaxFile` (injected through `mergeRaises`) propagates before the
scheduled `force_clean_and_restart_timer` is ever registered.  Returns
(whether the timer is running or scheduled to restart on exit, the resulting
scene when the call completed). -/
def merge_all_scenes_exc (s : Scene) (files : List MaxFile) (hexes : Nat → Str)
    (mergeRaises : Nat → Bool) : Bool × Option Scene :=
  match files with
  | [] => (true, some s)
  | _ :: _ =>
    let final := files.enum.foldl
      (fun (acc : Except Unit Scene) p =>
        match acc with
        | .error e => .error e
        | .ok sc =>
          if mergeRaises p.1 then .error ()
          else .ok (import_single_scene sc p.2 (hexes p.1) p.1 false))
      (.ok freshScene)
    match final with
    | .error _ => (false, none)
    | .ok sc =>
      let sc1 := clean_up_material_names (clearSelection sc)
      let sc2 := match files.head? with
                 | some f0 => perform_scene_switch sc1 (files.map (·.baseName)) f0.baseName
                 | none => sc1
      (true, some sc2)

/-! ### The detection checkbox and dirty indicator (C9) -/

/-- The UI state relevant to change detection: the hidden checkbox, the host
`getSaveRequired` flag, the tracked `is_ui_dirty` flag and the active item's
displayed text. -/
structure UIState where
  disableDetectionChecked : Bool
  hostDirty : Bool
  isUiDirty : Bool
  activeText : Str
deriving Repr, DecidableEq

/-- Line 191: `self.disable_detection_cb.setChecked(True)`. -/
def init_disable_detection_checked : Bool := true

/-- Line 192: `self.disable_detection_cb.setVisible(False)`. -/
def init_disable_detection_visible : Bool := false

/-- The three buttons of the unsaved-changes dialog. -/
inductive SwitchChoice where
  | save
  | dontSave
  | cancel
deriving Repr, DecidableEq

/-- `check_unsaved_changes` (lines 1239-1288): returns (proceed?, prompt
shown?).  With the detection checkbox checked it returns `True` immediately;
otherwise a dirty host scene raises the three-way dialog, whose outcome is
the `choice` parameter (`saveResult` standing for the nested
`action_save_selected` result on the Save branch). -/
def check_unsaved_changes (st : UIState) (choice : SwitchChoice) (saveResult : Bool) :
    Bool × Bool :=
  if st.disableDetectionChecked then (true, false)
  else if st.hostDirty then
    match choice with
    | .save => (saveResult, true)
    | .dontSave => (true, true)
    | .cancel => (false, true)
  else (true, false)

/-- `check_dirty_status` (lines 1217-1237): with the checkbox checked, force
the dirty indicator off; otherwise track the host flag. -/
def check_dirty_status (st : UIState) : UIState :=
  if st.disableDetectionChecked then
    if st.isUiDirty then
      { st with activeText := set_item_dirty_text st.activeText false, isUiDirty := false }
    else st
  else
    if st.hostDirty != st.isUiDirty then
      { st with
          activeText := set_item_dirty_text st.activeText st.hostDirty,
          isUiDirty := st.hostDirty }
    else st

/-! ### Predicates and per-layer transforms used by the verification -/

/-- The default layer's name `"0"`. -/
abbrev zeroStr : Str := ['0']

/-- The two-character pattern `" ("` every namespacing suffix starts with. -/
def spaceParen : Str := [' ', '(']

/-- Structural well-formedness of a scene: layer ids are distinct and below
the id counter, and layer names are distinct (the host invariant). -/
structure SceneWF (s : Scene) : Prop where
  idsNodup : (s.layers.map (·.id)).Nodup
  idsBound : ∀ l ∈ s.layers, l.id < s.nextLayerId
  namesNodup : (s.layers.map (·.name)).Nodup

/-- A root layer in the sense of C1: parentless and not the default layer. -/
def isRootLayer (l : LayerRec) : Bool :=
  l.parent.isNone && !decide (l.name = zeroStr)

/-- The names of the root layers, in layer-manager order. -/
def rootNamesOf (s : Scene) : List Str :=
  (s.layers.filter isRootLayer).map (·.name)

/-- A base name the merge machinery handles cleanly: not the default layer's
name and free of the suffix pattern `" ("`. -/
def GoodName (d : Str) : Prop :=
  d ≠ zeroStr ∧ strContains d spaceParen = false

instance instDecGoodName (d : Str) : Decidable (GoodName d) :=
  decidable_of_iff (d ≠ zeroStr ∧ strContains d spaceParen = false) Iff.rfl

/-- The C1 loop invariant: besides structural well-formedness, the roots are
exactly the processed base names in order, the default layer is present, and
every other layer carries some processed origin's suffix and a parent. -/
structure RootsInv (s : Scene) (done : List Str) : Prop where
  zeroMem : zeroStr ∈ s.layers.map (·.name)
  rootsEq : rootNamesOf s = done
  shape : ∀ l ∈ s.layers,
    l.name = zeroStr ∨ l.name ∈ done ∨
      ((∃ d ∈ done, strEndsWith l.name (sfxOf d) = true) ∧ l.parent ≠ none)

/-- What one pass of the rename loop does to one new layer, given that the
appended name is free: append the suffix; keep the parent when it is another
new layer, else re-parent under the root. -/
def renameLayerPure (sfx : Str) (rootId : Nat) (newIds : List Nat) (l : LayerRec) : LayerRec :=
  { l with
      name := l.name ++ sfx,
      parent := match l.parent with
        | some pid => if pid ∈ newIds then some pid else some rootId
        | none => some rootId }

/-- What one pass of the pre-save extraction does to one subtree layer, given
that the stripped name is free: strip the suffix where present — except the
`"0 (<name>)"` form, which is left entirely alone — and detach from the root. -/
def extractLayerPure (sfx : Str) (rootId : Nat) (l : LayerRec) : LayerRec :=
  if strEndsWith l.name sfx then
    if strDropSuffix l.name sfx = zeroStr then l
    else
      { l with
          name := strDropSuffix l.name sfx,
          parent := if l.parent = some rootId then none else l.parent }
  else
    { l with parent := if l.parent = some rootId then none else l.parent }

/-- The `(id, name, parent)` record the extraction stores for a layer. -/
def layerRecOf (s : Scene) (lid : Nat) : Nat × Str × Option Nat :=
  match findLayerById s lid with
  | some l => (lid, l.name, l.parent)
  | none => (lid, [], none)

/-- A scene with the extraction transform applied to the layers in `ids`. -/
def applyExtractAt (sfx : Str) (rootId : Nat) (ids : List Nat) (s : Scene) : Scene :=
  { s with layers := s.layers.map (fun l =>
      if l.id ∈ ids then extractLayerPure sfx rootId l else l) }

/-- A concrete post-merge scene used as a witness input: root `"A"` plus two
freshly merged layers `"X"` and `"Y"` (nested under `"X"`). -/
def exSceneC3 : Scene :=
  { layers := [{ id := 0, name := "0".data, parent := none, visible := true },
               { id := 1, name := "A".data, parent := none, visible := true },
               { id := 2, name := "X".data, parent := none, visible := true },
               { id := 3, name := "Y".data, parent := some 2, visible := true }],
    objs := [], mats := [], sel := [], currentLayer := some 1,
    nextLayerId := 4, nextObjId := 0, nextMatId := 0 }

/-- Conditions under which the pre-save extraction loop behaves pointwise:
the descendant list is duplicate-free, does not contain the root, resolves
(including parents), and the suffix-stripped names are fresh — absent from
the scene and pairwise distinct. -/
def ExtractOK (s : Scene) (descs : List Nat) (rootId : Nat) (dn : Str) : Prop :=
  descs.Nodup ∧ rootId ∉ descs ∧ rootId ∈ s.layers.map (fun l => l.id) ∧
  (∀ i ∈ descs, i ∈ s.layers.map (fun l => l.id)) ∧
  (∀ l ∈ s.layers, l.id ∈ descs →
      l.parent.all (fun pid => decide (pid ∈ s.layers.map (fun l => l.id))) = true) ∧
  (∀ l ∈ s.layers, l.id ∈ descs → strEndsWith l.name (sfxOf dn) = true →
      strDropSuffix l.name (sfxOf dn) ≠ zeroStr →
      strDropSuffix l.name (sfxOf dn) ∉ s.layers.map (fun l => l.name)) ∧
  (∀ l ∈ s.layers, ∀ l' ∈ s.layers, l.id ∈ descs → l'.id ∈ descs → l.id ≠ l'.id →
      strEndsWith l.name (sfxOf dn) = true → strDropSuffix l.name (sfxOf dn) ≠ zeroStr →
      strEndsWith l'.name (sfxOf dn) = true → strDropSuffix l'.name (sfxOf dn) ≠ zeroStr →
      strDropSuffix l.name (sfxOf dn) ≠ strDropSuffix l'.name (sfxOf dn))

/-- A scene refuting C6's unconditional detach: the default-layer form
`"0 (A)"` sits directly under the root `"A"`. -/
def cexC6 : Scene :=
  { layers := [{ id := 0, name := "0".data, parent := none, visible := true },
               { id := 1, name := "A".data, parent := none, visible := true },
               { id := 2, name := "0 (A)".data, parent := some 1, visible := true }],
    objs := [], mats := [], sel := [], currentLayer := none,
    nextLayerId := 3, nextObjId := 0, nextMatId := 0 }

/-- A scene refuting C2's exact restoration: the stripped name of the nested
layer `"X (A) (A)"` is the original name of its parent `"X (A)"`, so the
forward-order restore of the parent hits the collision guard. -/
def cexC2 : Scene :=
  { layers := [{ id := 0, name := "0".data, parent := none, visible := true },
               { id := 1, name := "A".data, parent := none, visible := true },
               { id := 2, name := "X (A)".data, parent := some 1, visible := true },
               { id := 3, name := "X (A) (A)".data, parent := some 2, visible := true }],
    objs := [], mats := [], sel := [], currentLayer := none,
    nextLayerId := 4, nextObjId := 0, nextMatId := 0 }

/-- A concrete save input witnessing the amended C2: a suffixed subtree layer
under the root and one object sitting on the root layer (so it is parked on
the global default layer during the save and moved back afterwards). -/
def wscC2 : Scene :=
  { layers := [{ id := 0, name := "0".data, parent := none, visible := true },
               { id := 1, name := "A".data, parent := none, visible := true },
               { id := 2, name := "X (A)".data, parent := some 1, visible := true }],
    objs := [{ id := 0, layerId := 1, matId := none }],
    mats := [], sel := [], currentLayer := none,
    nextLayerId := 3, nextObjId := 1, nextMatId := 0 }

/-- A concrete extraction input witnessing the amended C6: a suffixed subtree
layer `"X (A)"` and a default-layer form `"0 (A)"`, both under the root. -/
def wscC6 : Scene :=
  { layers := [{ id := 0, name := "0".data, parent := none, visible := true },
               { id := 1, name := "A".data, parent := none, visible := true },
               { id := 2, name := "X (A)".data, parent := some 1, visible := true },
               { id := 3, name := "0 (A)".data, parent := some 1, visible := true }],
    objs := [], mats := [], sel := [], currentLayer := none,
    nextLayerId := 4, nextObjId := 0, nextMatId := 0 }

/-- A concrete origin list witnessing C1: two empty source files with distinct
base names `"A"` and `"B"`. -/
def wlC1 : List MaxFile :=
  [{ baseName := "A".data, layers := [], objs := [] },
   { baseName := "B".data, layers := [], objs := [] }]

/-- Two origin files sharing the base name `"A"`: the merge unifies their
roots, so only one root layer remains for the two files. -/
def clC1 : List MaxFile :=
  [{ baseName := "A".data, layers := [], objs := [] },
   { baseName := "A".data, layers := [], objs := [] }]

end QSS

namespace QSS

/-! ### Basic string lemmas -/

theorem strStartsWith_iff (s p : Str) :
    strStartsWith s p = true ↔ ∃ t, s = p ++ t := by
  induction p generalizing s with
  | nil => simp [strStartsWith]
  | cons b p ih =>
    cases s with
    | nil => simp [strStartsWith]
    | cons a s =>
      simp only [strStartsWith, Bool.and_eq_true, decide_eq_true_eq, ih,
        List.cons_append]
      constructor
      · rintro ⟨rfl, t, rfl⟩; exact ⟨t, rfl⟩
      · rintro ⟨t, h⟩
        cases h
        exact ⟨rfl, t, rfl⟩

theorem strStartsWith_append (p t : Str) :
    strStartsWith (p ++ t) p = true :=
  (strStartsWith_iff _ _).2 ⟨t, rfl⟩

theorem strStartsWith_refl (s : Str) : strStartsWith s s = true := by
  simpa using strStartsWith_append s []

theorem strContains_iff (s p : Str) :
    strContains s p = true ↔ ∃ u v, s = u ++ p ++ v := by
  induction s with
  | nil =>
    simp only [strContains, strStartsWith_iff]
    constructor
    · rintro ⟨t, h⟩; exact ⟨[], t, by simpa using h⟩
    · rintro ⟨u, v, h⟩
      rw [List.append_assoc] at h
      rcases List.append_eq_nil.mp h.symm with ⟨rfl, h2⟩
      exact ⟨v, by simpa using h2⟩
  | cons a s ih =>
    simp only [strContains, Bool.or_eq_true, strStartsWith_iff, ih]
    constructor
    · rintro (⟨t, h⟩ | ⟨u, v, h⟩)
      · exact ⟨[], t, by simpa using h⟩
      · exact ⟨a :: u, v, by simp [h]⟩
    · rintro ⟨u, v, h⟩
      cases u with
      | nil => exact Or.inl ⟨v, by simpa using h⟩
      | cons b u =>
        right
        simp only [List.cons_append] at h
        cases h
        exact ⟨u, v, rfl⟩

theorem strContains_of_startsWith {s p : Str} (h : strStartsWith s p = true) :
    strContains s p = true := by
  rcases (strStartsWith_iff _ _).1 h with ⟨t, rfl⟩
  exact (strContains_iff _ _).2 ⟨[], t, by simp⟩

theorem strEndsWith_iff (s p : Str) :
    strEndsWith s p = true ↔ ∃ t, s = t ++ p := by
  simp only [strEndsWith, strStartsWith_iff]
  constructor
  · rintro ⟨t, h⟩
    refine ⟨t.reverse, ?_⟩
    have := congrArg List.reverse h
    simpa using this
  · rintro ⟨t, rfl⟩
    exact ⟨t.reverse, by simp⟩

theorem strEndsWith_append (t p : Str) :
    strEndsWith (t ++ p) p = true :=
  (strEndsWith_iff _ _).2 ⟨t, rfl⟩

/-- A string that ends with a strictly longer pattern than itself is impossible:
ends-with forces the length bound. -/
theorem length_le_of_strEndsWith {s p : Str} (h : strEndsWith s p = true) :
    p.length ≤ s.length := by
  rcases (strEndsWith_iff _ _).1 h with ⟨t, rfl⟩
  simp

theorem strEndsWith_cons {c : Char} {s p : Str} (h : strEndsWith s p = true) :
    strEndsWith (c :: s) p = true := by
  rcases (strEndsWith_iff _ _).1 h with ⟨t, rfl⟩
  exact (strEndsWith_iff _ _).2 ⟨c :: t, rfl⟩

theorem strEndsWith_tail_false {c : Char} {s p : Str}
    (h : strEndsWith (c :: s) p = false) : strEndsWith s p = false := by
  by_contra hne
  have : strEndsWith s p = true := by
    cases hs : strEndsWith s p
    · exact absurd hs hne
    · rfl
  rw [strEndsWith_cons this] at h
  exact Bool.noConfusion h

theorem strContains_tail_false {c : Char} {s p : Str}
    (h : strContains (c :: s) p = false) : strContains s p = false := by
  have := congrArg (fun b => b) h
  simp only [strContains, Bool.or_eq_false_iff] at h
  exact h.2

/-! ### C10: dirty-star marking round trip -/

theorem rstripStars_of_not_star {s : Str} (h : strEndsWith s ['*'] = false) :
    rstripStars s = s := by
  unfold rstripStars
  cases hs : s.reverse with
  | nil =>
    have : s = [] := by simpa using congrArg List.reverse hs
    simp [this]
  | cons a t =>
    have ha : ¬(a = '*') := by
      intro rfla
      subst rfla
      have : s = t.reverse ++ ['*'] := by
        have := congrArg List.reverse hs
        simpa using this
      rw [this, strEndsWith_append] at h
      exact Bool.noConfusion h
    rw [List.dropWhile_cons_of_neg (by simpa using ha)]
    rw [← hs]
    simp

theorem rstripStars_append_star (s : Str) :
    rstripStars (s ++ ['*']) = rstripStars s := by
  unfold rstripStars
  simp

theorem length_rstripStars_le (s : Str) : (rstripStars s).length ≤ s.length := by
  unfold rstripStars
  simpa using (List.dropWhile_sublist (l := s.reverse) (fun c => decide (c = '*'))).length_le

/-- Helper: marking clean after marking dirty recovers the text exactly when
the text did not already end in a star. -/
theorem dirty_clean_eq_iff (t : Str) :
    set_item_dirty_text (set_item_dirty_text t true) false = t
      ↔ strEndsWith t ['*'] = false := by
  constructor
  · intro h
    by_contra hne
    have hstar : strEndsWith t ['*'] = true := by
      cases hs : strEndsWith t ['*']
      · exact absurd hs hne
      · rfl
    rcases (strEndsWith_iff _ _).1 hstar with ⟨u, rfl⟩
    simp only [set_item_dirty_text, hstar, if_true, Bool.false_eq_true, if_false] at h
    -- after cleaning, the string got strictly shorter, contradiction
    have hlen : (rstripStars (u ++ ['*'])).length = (u ++ ['*']).length := by
      rw [h]
    rw [rstripStars_append_star] at hlen
    have := length_rstripStars_le u
    simp only [List.length_append, List.length_cons, List.length_nil] at hlen
    omega
  · intro h
    have hsw : strEndsWith (t ++ ['*']) ['*'] = true := strEndsWith_append _ _
    simp only [set_item_dirty_text, h, Bool.false_eq_true, if_false, hsw, if_true]
    rw [rstripStars_append_star, rstripStars_of_not_star h]

/-- C10: `set_item_dirty(item, False)` strips all trailing `'*'` characters
from the displayed text (Python `rstrip`), so marking dirty then clean
returns the original text exactly when the original name does not itself end
with `'*'`; and on a text that does end with `'*'` the clean transition is the
full `rstrip`, removing every trailing star. -/
theorem claim_C10_star_stripping (t : Str) :
    (set_item_dirty_text (t ++ ['*', '*']) false = rstripStars t) ∧
    (set_item_dirty_text (set_item_dirty_text t true) false = t
      ↔ strEndsWith t ['*'] = false) := by
  constructor
  · have hsw : strEndsWith (t ++ ['*', '*']) ['*'] = true := by
      have : t ++ ['*', '*'] = (t ++ ['*']) ++ ['*'] := by simp
      rw [this]; exact strEndsWith_append _ _
    simp only [set_item_dirty_text, Bool.false_eq_true, if_false, hsw, if_true]
    have : t ++ ['*', '*'] = (t ++ ['*']) ++ ['*'] := by simp
    rw [this, rstripStars_append_star, rstripStars_append_star]
  · exact dirty_clean_eq_iff t

/-! ### C7: material-suffix round trip -/

/-- `".Duplicate"`: the marker without its trailing dot. -/
theorem dupMarker_take_ten : dupMarker.take 10 = ".Duplicate".data := by decide

theorem takeBeforeFirst_of_startsWith {l : Str}
    (h : strStartsWith l dupMarker = true) : takeBeforeFirst dupMarker l = [] := by
  cases l with
  | nil => exact absurd h (by decide)
  | cons a s => simp [takeBeforeFirst, h]

/-- Key step: a string that neither contains `".Duplicate."` nor ends with
`".Duplicate"` cannot, once `".Duplicate." ++ h` is appended, start with
`".Duplicate."` unless it is empty. -/
theorem not_startsWith_dupMarker (a : Char) (s h : Str)
    (h1 : strContains (a :: s) dupMarker = false)
    (h2 : strEndsWith (a :: s) ".Duplicate".data = false) :
    strStartsWith ((a :: s) ++ (dupMarker ++ h)) dupMarker = false := by
  by_contra hne
  have hsw : strStartsWith ((a :: s) ++ (dupMarker ++ h)) dupMarker = true := by
    cases hx : strStartsWith ((a :: s) ++ (dupMarker ++ h)) dupMarker
    · exact absurd hx hne
    · rfl
  rcases (strStartsWith_iff _ _).1 hsw with ⟨t, heq⟩
  rcases le_or_lt 11 (a :: s).length with hk | hk
  · -- the marker sits entirely inside `a :: s`
    have htake : (a :: s).take 11 = dupMarker := by
      have e1 : ((a :: s) ++ (dupMarker ++ h)).take 11 = (a :: s).take 11 :=
        List.take_append_of_le_length hk
      have e2 : (dupMarker ++ t).take 11 = dupMarker := by
        have : dupMarker.length = 11 := by decide
        rw [← this]; exact List.take_left _ _

      rw [heq] at e1
      rw [e1] at e2
      exact e2
    have hpre : strStartsWith (a :: s) dupMarker = true := by
      refine (strStartsWith_iff _ _).2 ⟨(a :: s).drop 11, ?_⟩
      rw [← htake]
      exact (List.take_append_drop 11 (a :: s)).symm
    rw [strContains_of_startsWith hpre] at h1
    exact Bool.noConfusion h1
  · -- `a :: s` is a proper prefix of the marker
    have hlen11 : dupMarker.length = 11 := by decide
    have hs9 : s.length ≤ 9 := by
      simp only [List.length_cons] at hk
      omega
    have hkle : s.length + 1 ≤ dupMarker.length := by omega
    have htake : (a :: s) = dupMarker.take (s.length + 1) := by
      have e1 : ((a :: s) ++ (dupMarker ++ h)).take (s.length + 1) = a :: s := by
        rw [List.take_append_of_le_length (by simp)]
        have hcl : s.length + 1 = (a :: s).length := by simp
        rw [hcl, List.take_length]
      have e2 : (dupMarker ++ t).take (s.length + 1) = dupMarker.take (s.length + 1) :=
        List.take_append_of_le_length hkle
      rw [heq] at e1
      rw [e1] at e2
      exact e2
    have hdrop : dupMarker ++ h = dupMarker.drop (s.length + 1) ++ t := by
      have e1 : ((a :: s) ++ (dupMarker ++ h)).drop (s.length + 1) = dupMarker ++ h := by
        rw [List.drop_append_of_le_length (by simp)]
        have hcl : s.length + 1 = (a :: s).length := by simp
        rw [hcl, List.drop_length]
        simp
      have e2 : (dupMarker ++ t).drop (s.length + 1) = dupMarker.drop (s.length + 1) ++ t :=
        List.drop_append_of_le_length hkle
      rw [heq] at e1
      rw [e1] at e2
      exact e2
    have hborder : dupMarker.take (11 - (s.length + 1)) = dupMarker.drop (s.length + 1) := by
      have hlen : (dupMarker.drop (s.length + 1)).length = 11 - (s.length + 1) := by
        simp [hlen11]
      have e1 : (dupMarker ++ h).take (11 - (s.length + 1))
          = dupMarker.take (11 - (s.length + 1)) :=
        List.take_append_of_le_length (by omega)
      have e2 : (dupMarker.drop (s.length + 1) ++ t).take (11 - (s.length + 1))
          = dupMarker.drop (s.length + 1) := by
        rw [← hlen, List.take_left]
      rw [hdrop] at e1
      rw [e1] at e2
      exact e2
    -- only `s.length = 9` survives the border check, and that case violates `h2`
    interval_cases hsl : s.length
    all_goals (
      first
      | exact absurd hborder (by decide)
      | (rw [show (9 : Nat) + 1 = 10 from rfl, dupMarker_take_ten] at htake
         rw [htake] at h2
         have hrefl : strEndsWith (".Duplicate".data) (".Duplicate".data) = true :=
           (strEndsWith_iff _ _).2 ⟨[], rfl⟩
         rw [hrefl] at h2
         exact Bool.noConfusion h2))

/-- Helper for the amended C7: the split-prefix computation recovers `s`. -/
theorem takeBeforeFirst_append_marker (s h : Str)
    (h1 : strContains s dupMarker = false)
    (h2 : strEndsWith s ".Duplicate".data = false) :
    takeBeforeFirst dupMarker (s ++ (dupMarker ++ h)) = s := by
  induction s with
  | nil =>
    exact takeBeforeFirst_of_startsWith (by simpa using strStartsWith_append dupMarker h)
  | cons a s ih =>
    have hns : strStartsWith ((a :: s) ++ (dupMarker ++ h)) dupMarker = false :=
      not_startsWith_dupMarker a s h h1 h2
    have h1' : strContains s dupMarker = false := strContains_tail_false h1
    have h2' : strEndsWith s ".Duplicate".data = false := strEndsWith_tail_false h2
    simp only [List.cons_append] at hns
    simp only [List.cons_append, takeBeforeFirst, List.append_eq, hns,
      Bool.false_eq_true, if_false, List.cons.injEq, true_and]
    simpa using ih h1' h2'

/-! ### C7: the claim theorems -/

/-- C7 is false as stated: `"x.Duplicate"` does not contain the literal
substring `".Duplicate."`, yet appending the generated suffix and cleaning
up yields `"x"`, not `"x.Duplicate"` — the appended dot completes an earlier
occurrence of the marker. -/
theorem claim_C7_counterexample :
    strContains "x.Duplicate".data dupMarker = false ∧
    clean_material_name ("x.Duplicate".data ++ generate_unique_suffix "a1b2c3d4".data)
      ≠ "x.Duplicate".data := by
  exact ⟨by decide, by decide⟩

/-- C7 (amended): for every material name `s` that does not contain
`".Duplicate."` and does not end with `".Duplicate"`, appending the generated
suffix and then running the cleanup yields exactly `s` again. -/
theorem claim_C7_roundtrip (s hex : Str)
    (h1 : strContains s dupMarker = false)
    (h2 : strEndsWith s ".Duplicate".data = false) :
    clean_material_name (s ++ generate_unique_suffix hex) = s := by
  have hc : strContains (s ++ generate_unique_suffix hex) dupMarker = true := by
    refine (strContains_iff _ _).2 ⟨s, hex, ?_⟩
    simp [generate_unique_suffix]
  unfold clean_material_name
  rw [hc]
  simp only [if_true]
  have hr := takeBeforeFirst_append_marker s hex h1 h2
  simpa [generate_unique_suffix] using hr

/-- Witness for the amended C7 at a concrete material name. -/
theorem claim_C7_roundtrip_witness :
    (strContains "Wood".data dupMarker = false ∧
      strEndsWith "Wood".data ".Duplicate".data = false) ∧
    clean_material_name ("Wood".data ++ generate_unique_suffix "a1b2c3d4".data)
      = "Wood".data :=
  ⟨⟨by decide, by decide⟩,
   claim_C7_roundtrip "Wood".data "a1b2c3d4".data (by decide) (by decide)⟩

/-! ### C4: per-merge material suffix -/

/-- Helper: folding the per-material rename over a duplicate-free id list
renames each listed material exactly once, with the one shared suffix. -/
theorem foldl_renameMatStep (suffix : Str) :
    ∀ (ids : List Nat) (s : Scene), ids.Nodup →
      (ids.foldl (renameMatStep suffix) s).mats
        = s.mats.map (fun m =>
            if m.id ∈ ids then { m with name := m.name ++ suffix } else m) := by
  intro ids
  induction ids with
  | nil =>
    intro s _
    simp
  | cons i ids ih =>
    intro s hN
    have hni : i ∉ ids := (List.nodup_cons.mp hN).1
    have hN' : ids.Nodup := (List.nodup_cons.mp hN).2
    rw [List.foldl_cons, ih _ hN']
    show (renameMatStep suffix s i).mats.map _ = _
    unfold renameMatStep
    simp only [List.map_map]
    refine List.map_congr_left ?_
    intro m _
    by_cases hm : m.id = i
    · simp only [Function.comp, hm, if_pos rfl]
      have : i ∈ i :: ids := List.mem_cons_self i ids
      simp [this, hni]
    · simp only [Function.comp, hm, if_neg hm]
      by_cases hmem : m.id ∈ ids
      · simp [hmem, List.mem_cons, hm]
      · simp [hmem, List.mem_cons, hm]

/-- C4 (amended): a merge generates one fresh suffix
`".Duplicate.<8-hex-chars>"` and appends that same suffix to every distinct
material referenced by the merged selection; materials not referenced keep
their names.  (Distinct materials within one merge thus share the suffix
rather than receiving distinct ones.) -/
theorem claim_C4_shared_suffix (s : Scene) (hex8 : Str) :
    (renameMergedMaterials s hex8).mats
      = s.mats.map (fun m =>
          if m.id ∈ mergedMatIds s then
            { m with name := m.name ++ generate_unique_suffix hex8 }
          else m) := by
  have hN : (mergedMatIds s).Nodup := by
    unfold mergedMatIds
    exact List.nodup_dedup _
  have h := foldl_renameMatStep (generate_unique_suffix hex8) (mergedMatIds s) s hN
  unfold renameMergedMaterials
  rw [h]

/-- C4 is false as stated: one merge bringing in the two distinct materials
`"M"` and `"N"` appends the identical suffix `".Duplicate.a1b2c3d4"` to both,
so distinct materials within one merge do not carry distinct suffixes. -/
theorem claim_C4_counterexample :
    ((import_single_scene freshScene
        { baseName := "A".data, layers := [],
          objs := [{ flayer := "0".data, fmat := some "M".data },
                   { flayer := "0".data, fmat := some "N".data }] }
        "a1b2c3d4".data 0 false).mats.map (fun m => m.name))
      = ["M.Duplicate.a1b2c3d4".data, "N.Duplicate.a1b2c3d4".data] := by
  decide

/-! ### C5: batch save -/

/-- Helper: the batch-save fold switches to the marked entries in list order
and the success count grows by at most one per entry. -/
theorem batch_foldl_spec (allEntries : List Str) :
    ∀ (marked : List Str) (acc : Scene × Nat × List Str),
      (marked.foldl (batchStep allEntries) acc).2.2 = acc.2.2 ++ marked ∧
      (marked.foldl (batchStep allEntries) acc).2.1 ≤ acc.2.1 + marked.length := by
  intro marked
  induction marked with
  | nil =>
    intro acc
    exact ⟨by simp, by simp⟩
  | cons dn marked ih =>
    intro acc
    rw [List.foldl_cons]
    constructor
    · rw [(ih (batchStep allEntries acc dn)).1]
      show (acc.2.2 ++ [dn]) ++ marked = acc.2.2 ++ dn :: marked
      simp
    · refine le_trans (ih (batchStep allEntries acc dn)).2 ?_
      have hb : (batchStep allEntries acc dn).2.1 ≤ acc.2.1 + 1 := by
        show acc.2.1 +
            (if (action_save_selected (perform_scene_switch acc.1 allEntries dn) dn).2
              then 1 else 0) ≤ acc.2.1 + 1
        split <;> omega
      simp only [List.length_cons]
      omega

/-- C5 (amended): given the green-marked entries, `_perform_batch_save`
switches to each marked entry in list order without prompting and saves it,
but the completion dialog reports the number of *marked* entries
(`len(items_to_save)`), which equals the number of successful saves only when
every save succeeded; the success count never exceeds it. -/
theorem claim_C5_reported_count (s : Scene) (allEntries marked : List Str) :
    (perform_batch_save s allEntries marked).2.2.2 = marked ∧
    (perform_batch_save s allEntries marked).2.2.1 = marked.length ∧
    (perform_batch_save s allEntries marked).2.1 ≤ marked.length := by
  unfold perform_batch_save
  refine ⟨?_, rfl, ?_⟩
  · have h := (batch_foldl_spec allEntries marked (s, 0, [])).1
    simpa using h
  · have h := (batch_foldl_spec allEntries marked (s, 0, [])).2
    simpa using h

/-- C5 is false as stated: one green-marked entry whose root layer exists but
holds no objects is "saved" unsuccessfully (`saveNodes` is never reached),
yet the dialog still reports one saved scene: the reported count is 1 while
zero saves succeeded. -/
theorem claim_C5_counterexample :
    (perform_batch_save (newLayerFromName freshScene "A".data none).1
        ["A".data] ["A".data]).2.1 = 0 ∧
    (perform_batch_save (newLayerFromName freshScene "A".data none).1
        ["A".data] ["A".data]).2.2.1 = 1 := by
  exact ⟨by decide, by decide⟩

/-! ### C8: the poll timer across merge-all -/

/-- C8 fails on the code: `merge_all_scenes` stops `dirty_timer` and has no
`try/finally`, so when the host merge call raises (first conjunct, failure
injected at file 0) the function exits exceptionally with the timer still
stopped; the non-exceptional run (second conjunct) does restart it. -/
theorem claim_C8_timer_left_stopped :
    (merge_all_scenes_exc freshScene
        [{ baseName := "A".data, layers := [], objs := [] }]
        (fun _ => "a1b2c3d4".data) (fun _ => true)).1 = false ∧
    (merge_all_scenes_exc freshScene
        [{ baseName := "A".data, layers := [], objs := [] }]
        (fun _ => "a1b2c3d4".data) (fun _ => false)).1 = true := by
  exact ⟨rfl, rfl⟩

/-! ### C9: detection disabled by default -/

/-- Helper: the head of a `dropWhile` result fails the predicate. -/
theorem dropWhile_head_false (p : Char → Bool) :
    ∀ (l : List Char) (a : Char) (t : List Char),
      l.dropWhile p = a :: t → p a = false := by
  intro l
  induction l with
  | nil => intro a t h; simp [List.dropWhile] at h
  | cons b l ih =>
    intro a t h
    by_cases hb : p b = true
    · rw [List.dropWhile_cons_of_pos hb] at h
      exact ih a t h
    · rw [List.dropWhile_cons_of_neg hb] at h
      cases h
      simpa using hb

/-- Helper: `rstrip("*")` output never ends with a star. -/
theorem rstripStars_not_ends_star (s : Str) :
    strEndsWith (rstripStars s) ['*'] = false := by
  unfold rstripStars strEndsWith
  rw [List.reverse_reverse]
  cases hd : s.reverse.dropWhile (fun c => decide (c = '*')) with
  | nil => rfl
  | cons a t =>
    have ha := dropWhile_head_false _ _ _ _ hd
    show strStartsWith (a :: t) ['*'] = false
    simp only [strStartsWith, Bool.and_eq_true, decide_eq_true_eq]
    simp only [decide_eq_false_iff_not] at ha
    simp [ha]

/-- C9: the disable-detection checkbox starts checked and hidden; whenever it
is checked, `check_unsaved_changes` returns True with no prompt, and
`check_dirty_status` forces the tracked dirty flag off and leaves the active
entry's text without a dirty star (given the maintained text/flag sync), so
in the default configuration switching never prompts and no entry is
displayed dirty. -/
theorem claim_C9_default_detection (st : UIState) (choice : SwitchChoice) (sr : Bool)
    (hchecked : st.disableDetectionChecked = true)
    (hsync : st.isUiDirty = strEndsWith st.activeText ['*']) :
    (init_disable_detection_checked = true ∧ init_disable_detection_visible = false) ∧
    check_unsaved_changes st choice sr = (true, false) ∧
    (check_dirty_status st).isUiDirty = false ∧
    strEndsWith (check_dirty_status st).activeText ['*'] = false := by
  refine ⟨⟨rfl, rfl⟩, ?_, ?_, ?_⟩
  · simp [check_unsaved_changes, hchecked]
  · cases hd : st.isUiDirty <;>
      simp [check_dirty_status, hchecked, hd]
  · cases hd : st.isUiDirty
    · have hends : strEndsWith st.activeText ['*'] = false := by
        rw [hd] at hsync
        exact hsync.symm
      simp [check_dirty_status, hchecked, hd, hends]
    · have hends : strEndsWith st.activeText ['*'] = true := by
        rw [hd] at hsync
        exact hsync.symm
      simp only [check_dirty_status, hchecked, if_true, hd]
      simp only [set_item_dirty_text, Bool.false_eq_true, if_false, hends, if_true]
      exact rstripStars_not_ends_star st.activeText

/-- Witness for C9 at a concrete UI state (checked, host dirty, clean text). -/
theorem claim_C9_default_detection_witness :
    ((UIState.mk true true false "Scene1".data).disableDetectionChecked = true ∧
      (UIState.mk true true false "Scene1".data).isUiDirty
        = strEndsWith (UIState.mk true true false "Scene1".data).activeText ['*']) ∧
    ((init_disable_detection_checked = true ∧ init_disable_detection_visible = false) ∧
      check_unsaved_changes (UIState.mk true true false "Scene1".data)
        SwitchChoice.cancel true = (true, false) ∧
      (check_dirty_status (UIState.mk true true false "Scene1".data)).isUiDirty = false ∧
      strEndsWith (check_dirty_status (UIState.mk true true false "Scene1".data)).activeText
        ['*'] = false) :=
  ⟨⟨by decide, by decide⟩,
   claim_C9_default_detection _ SwitchChoice.cancel true (by decide) (by decide)⟩

/-! ### Structural lemmas: scene well-formedness through the host operations -/

theorem foldl_preserve {σ α : Type _} (P : σ → Prop) (step : σ → α → σ) :
    ∀ (xs : List α) (s : σ), (∀ s x, x ∈ xs → P s → P (step s x)) → P s → P (xs.foldl step s) := by
  intro xs
  induction xs with
  | nil => intro s _ hs; exact hs
  | cons x xs ih =>
    intro s hstep hs
    rw [List.foldl_cons]
    exact ih _ (fun s y hy hP => hstep s y (List.mem_cons_of_mem _ hy) hP)
      (hstep s x (List.mem_cons_self _ _) hs)

/-- Well-formedness only looks at the layer list and the id counter. -/
theorem sceneWF_of_eq {s t : Scene} (h : SceneWF s)
    (hl : t.layers = s.layers) (hn : t.nextLayerId = s.nextLayerId) : SceneWF t := by
  refine ⟨?_, ?_, ?_⟩
  · rw [hl]; exact h.idsNodup
  · rw [hl, hn]; exact h.idsBound
  · rw [hl]; exact h.namesNodup

theorem modifyLayer_layers (s : Scene) (i : Nat) (f : LayerRec → LayerRec) :
    (modifyLayer s i f).layers = s.layers.map (fun l => if l.id = i then f l else l) := rfl

/-- A layer-map that fixes ids and names preserves well-formedness. -/
theorem sceneWF_map_pres (s : Scene) (g : LayerRec → LayerRec)
    (hid : ∀ l, (g l).id = l.id) (hname : ∀ l, (g l).name = l.name)
    (h : SceneWF s) : SceneWF { s with layers := s.layers.map g } := by
  have hids : (s.layers.map g).map (fun l => l.id) = s.layers.map (fun l => l.id) := by
    rw [List.map_map]
    exact List.map_congr_left (fun l _ => hid l)
  have hnames : (s.layers.map g).map (fun l => l.name) = s.layers.map (fun l => l.name) := by
    rw [List.map_map]
    exact List.map_congr_left (fun l _ => hname l)
  refine ⟨?_, ?_, ?_⟩
  · show ((s.layers.map g).map (fun l => l.id)).Nodup
    rw [hids]; exact h.idsNodup
  · intro l hl
    rcases List.mem_map.mp hl with ⟨l0, hl0, rfl⟩
    rw [hid l0]
    exact h.idsBound l0 hl0
  · show ((s.layers.map g).map (fun l => l.name)).Nodup
    rw [hnames]; exact h.namesNodup

theorem sceneWF_setLayerParent (s : Scene) (i : Nat) (p : Option Nat) (h : SceneWF s) :
    SceneWF (setLayerParent s i p) := by
  refine sceneWF_map_pres s _ ?_ ?_ h <;> intro l <;> by_cases hi : l.id = i <;> simp [hi]

theorem sceneWF_setLayerVisible (s : Scene) (i : Nat) (v : Bool) (h : SceneWF s) :
    SceneWF (setLayerVisible s i v) := by
  refine sceneWF_map_pres s _ ?_ ?_ h <;> intro l <;> by_cases hi : l.id = i <;> simp [hi]

theorem sceneWF_setCurrentLayer (s : Scene) (i : Nat) (h : SceneWF s) :
    SceneWF (setCurrentLayer s i) :=
  sceneWF_of_eq h rfl rfl

/-- If no layer has id `i`, the update map is the identity. -/
theorem map_ite_eq_of_id_not_mem (L : List LayerRec) (i : Nat) (f : LayerRec → LayerRec)
    (h : i ∉ L.map (fun l => l.id)) :
    L.map (fun l => if l.id = i then f l else l) = L := by
  induction L with
  | nil => rfl
  | cons l L ih =>
    simp only [List.map_cons, List.mem_cons] at h ⊢
    push_neg at h
    rw [if_neg (fun he => h.1 he.symm), ih h.2]

theorem mapped_name_cases (L : List LayerRec) (i : Nat) (n : Str) :
    ∀ y ∈ (L.map (fun l => if l.id = i then { l with name := n } else l)).map
        (fun l => l.name),
      y ∈ L.map (fun l => l.name) ∨ y = n := by
  intro y hy
  rw [List.map_map] at hy
  rcases List.mem_map.mp hy with ⟨l, hl, rfl⟩
  by_cases hi : l.id = i
  · right; simp [Function.comp, hi]
  · left; simp only [Function.comp, if_neg hi]; exact List.mem_map_of_mem _ hl

theorem names_nodup_rename (L : List LayerRec) (i : Nat) (n : Str)
    (hids : (L.map (fun l => l.id)).Nodup)
    (hnames : (L.map (fun l => l.name)).Nodup)
    (hn : n ∉ L.map (fun l => l.name)) :
    ((L.map (fun l => if l.id = i then { l with name := n } else l)).map
        (fun l => l.name)).Nodup := by
  induction L with
  | nil => exact List.nodup_nil
  | cons l L ih =>
    simp only [List.map_cons, List.nodup_cons, List.mem_cons] at hids hnames hn
    push_neg at hn
    by_cases hi : l.id = i
    · rw [List.map_cons, if_pos hi, List.map_cons]
      have hrest : L.map (fun l => if l.id = i then { l with name := n } else l) = L := by
        refine map_ite_eq_of_id_not_mem L i _ ?_
        rw [← hi]; exact hids.1
      rw [hrest]
      exact List.nodup_cons.mpr ⟨hn.2, hnames.2⟩
    · rw [List.map_cons, if_neg hi, List.map_cons]
      refine List.nodup_cons.mpr ⟨?_, ih hids.2 hnames.2 hn.2⟩
      intro hmem
      rcases mapped_name_cases L i n _ hmem with hc | hc
      · exact hnames.1 hc
      · exact hn.1 hc.symm

theorem sceneWF_setLayerName (s : Scene) (i : Nat) (n : Str) (h : SceneWF s) :
    SceneWF (setLayerName s i n) := by
  unfold setLayerName
  by_cases hg : s.layers.any (fun l => decide (l.name = n)) = true
  · rw [if_pos hg]; exact h
  · rw [if_neg hg]
    have hn : n ∉ s.layers.map (fun l => l.name) := by
      intro hmem
      rcases List.mem_map.mp hmem with ⟨l, hl, rfl⟩
      exact hg (List.any_eq_true.mpr ⟨l, hl, by simp⟩)
    refine ⟨?_, ?_, ?_⟩
    · rw [modifyLayer_layers, List.map_map]
      have heq : s.layers.map ((fun l => l.id) ∘ fun l =>
          if l.id = i then { l with name := n } else l) = s.layers.map (fun l => l.id) := by
        refine List.map_congr_left ?_
        intro l _
        by_cases hi : l.id = i <;> simp [Function.comp, hi]
      rw [heq]
      exact h.idsNodup
    · intro l hl
      rw [modifyLayer_layers] at hl
      rcases List.mem_map.mp hl with ⟨l0, hl0, rfl⟩
      have hb := h.idsBound l0 hl0
      by_cases hi : l0.id = i <;> simp [modifyLayer, hi] <;> omega
    · exact names_nodup_rename s.layers i n h.idsNodup h.namesNodup hn

theorem sceneWF_newLayerFromName (s : Scene) (n : Str) (p : Option Nat) (h : SceneWF s)
    (hn : n ∉ layerNames s) : SceneWF (newLayerFromName s n p).1 := by
  unfold newLayerFromName
  refine ⟨?_, ?_, ?_⟩
  · simp only [List.map_append, List.map_cons, List.map_nil]
    rw [List.nodup_append]
    refine ⟨h.idsNodup, List.nodup_singleton _, ?_⟩
    intro x hx hx'
    simp only [List.mem_singleton] at hx'
    subst hx'
    rcases List.mem_map.mp hx with ⟨l, hl, hlx⟩
    have := h.idsBound l hl
    omega
  · intro l hl
    simp only [List.mem_append, List.mem_singleton] at hl
    rcases hl with hl | rfl
    · have := h.idsBound l hl; simp; omega
    · simp
  · simp only [List.map_append, List.map_cons, List.map_nil]
    rw [List.nodup_append]
    refine ⟨h.namesNodup, List.nodup_singleton _, ?_⟩
    intro x hx hx'
    simp only [List.mem_singleton] at hx'
    subst hx'
    exact hn hx

theorem find_none_not_mem_names {s : Scene} {n : Str}
    (h : findLayerByName s n = none) : n ∉ layerNames s := by
  intro hmem
  rcases List.mem_map.mp hmem with ⟨l, hl, rfl⟩
  have := List.find?_eq_none.mp h l hl
  simp at this

theorem sceneWF_getOrCreateLayer (s : Scene) (n : Str) (h : SceneWF s) :
    SceneWF (getOrCreateLayer s n).1 := by
  unfold getOrCreateLayer
  cases hf : findLayerByName s n with
  | some l => exact h
  | none => exact sceneWF_newLayerFromName s n none h (find_none_not_mem_names hf)

theorem sceneWF_addNodeToLayer (s : Scene) (oid lid : Nat) (h : SceneWF s) :
    SceneWF (addNodeToLayer s oid lid) :=
  sceneWF_of_eq h rfl rfl

theorem sceneWF_clearSelection (s : Scene) (h : SceneWF s) : SceneWF (clearSelection s) :=
  sceneWF_of_eq h rfl rfl

theorem sceneWF_newMaterial (s : Scene) (n : Str) (h : SceneWF s) :
    SceneWF (newMaterial s n).1 :=
  sceneWF_of_eq h rfl rfl

theorem sceneWF_newObjRec (s : Scene) (lid : Nat) (mid : Option Nat) (h : SceneWF s) :
    SceneWF (newObjRec s lid mid).1 :=
  sceneWF_of_eq h rfl rfl

theorem sceneWF_freshScene : SceneWF freshScene := by
  refine ⟨?_, ?_, ?_⟩ <;> simp [freshScene]

/-! ### The rename loop of `import_single_scene` -/

theorem sceneExt {a b : Scene} (h1 : a.layers = b.layers) (h2 : a.objs = b.objs)
    (h3 : a.mats = b.mats) (h4 : a.sel = b.sel) (h5 : a.currentLayer = b.currentLayer)
    (h6 : a.nextLayerId = b.nextLayerId) (h7 : a.nextObjId = b.nextObjId)
    (h8 : a.nextMatId = b.nextMatId) : a = b := by
  cases a
  cases b
  simp_all

theorem setLayerParent_layers (s : Scene) (i : Nat) (p : Option Nat) :
    (setLayerParent s i p).layers
      = s.layers.map (fun l => if l.id = i then { l with parent := p } else l) := rfl

theorem findLayerById_map (s : Scene) (g : LayerRec → LayerRec)
    (hid : ∀ l, (g l).id = l.id) (i : Nat) :
    findLayerById { s with layers := s.layers.map g } i = (findLayerById s i).map g := by
  show (s.layers.map g).find? (fun l => decide (l.id = i))
      = (s.layers.find? (fun l => decide (l.id = i))).map g
  rw [List.find?_map]
  have hpe : ((fun l : LayerRec => decide (l.id = i)) ∘ g)
      = (fun l : LayerRec => decide (l.id = i)) := by
    funext l
    simp [Function.comp, hid l]
  rw [hpe]

theorem findLayerById_eq_some_of_mem (s : Scene) (i : Nat)
    (h : i ∈ s.layers.map (fun l => l.id)) :
    ∃ l, findLayerById s i = some l ∧ l ∈ s.layers ∧ l.id = i := by
  rcases List.mem_map.mp h with ⟨l0, hl0, hid⟩
  cases hf : findLayerById s i with
  | none =>
    have := List.find?_eq_none.mp hf l0 hl0
    simp only [decide_eq_true_eq] at this
    exact absurd hid this
  | some l =>
    refine ⟨l, rfl, List.mem_of_find?_eq_some hf, ?_⟩
    have := List.find?_some hf
    simpa using this

theorem renameNewStep_spec (s : Scene) (newIds : List Nat) (rootId : Nat) (dn : Str)
    (hWF : SceneWF s)
    (hfresh : ∀ l ∈ s.layers, l.id ∈ newIds →
        (l.name ++ sfxOf dn) ∉ s.layers.map (fun l => l.name))
    (done : List Nat) (lid : Nat)
    (hmemnew : lid ∈ newIds) (hnotdone : lid ∉ done)
    (hlidmem : lid ∈ s.layers.map (fun l => l.id)) :
    renameNewStep newIds rootId dn
        { s with layers := s.layers.map (fun l =>
            if l.id ∈ done then renameLayerPure (sfxOf dn) rootId newIds l else l) } lid
      = { s with layers := s.layers.map (fun l =>
            if l.id ∈ done ++ [lid] then renameLayerPure (sfxOf dn) rootId newIds l else l) } := by
  set g : LayerRec → LayerRec :=
    fun l => if l.id ∈ done then renameLayerPure (sfxOf dn) rootId newIds l else l with hg
  have hgid : ∀ l : LayerRec, (g l).id = l.id := by
    intro l
    by_cases h : l.id ∈ done <;> simp [hg, h, renameLayerPure]
  have hgname : ∀ u : LayerRec,
      (g u).name = (if u.id ∈ done then u.name ++ sfxOf dn else u.name) := by
    intro u
    by_cases h : u.id ∈ done <;> simp [hg, h, renameLayerPure]
  obtain ⟨l0, hfind, hmem0, hid0⟩ := findLayerById_eq_some_of_mem s lid hlidmem
  have hl0new : l0.id ∈ newIds := by rw [hid0]; exact hmemnew
  have hgl0 : g l0 = l0 := by
    rw [hg]
    simp only [hid0]
    rw [if_neg hnotdone]
  have hfindmid :
      findLayerById { s with layers := s.layers.map g } lid = some l0 := by
    rw [findLayerById_map s g hgid, hfind]
    simp [hgl0]
  have hguard : (({ s with layers := s.layers.map g } : Scene).layers.any
      (fun l => decide (l.name = l0.name ++ sfxOf dn))) = false := by
    rw [Bool.eq_false_iff]
    intro hany
    rcases List.any_eq_true.mp hany with ⟨l1, hl1, hp1⟩
    simp only [decide_eq_true_eq] at hp1
    rcases List.mem_map.mp hl1 with ⟨u, hu, rfl⟩
    rw [hgname u] at hp1
    by_cases hud : u.id ∈ done
    · rw [if_pos hud] at hp1
      have hname : u.name = l0.name := List.append_cancel_right hp1
      have : u = l0 :=
        List.inj_on_of_nodup_map hWF.namesNodup hu hmem0 hname
      subst this
      rw [hid0] at hud
      exact hnotdone hud
    · rw [if_neg hud] at hp1
      exact (hfresh l0 hmem0 hl0new) (hp1 ▸ List.mem_map_of_mem _ hu)
  have hsetname :
      setLayerName { s with layers := s.layers.map g } lid (l0.name ++ sfxOf dn)
        = { s with layers := (s.layers.map g).map (fun l =>
            if l.id = lid then { l with name := l0.name ++ sfxOf dn } else l) } := by
    unfold setLayerName
    rw [hguard]
    simp [modifyLayer]
  simp only [renameNewStep, hfindmid]
  rcases hp : l0.parent with _ | pid
  · -- parentless: not nested, re-parented under the root
    simp only [hp, Bool.false_eq_true, if_false]
    refine sceneExt ?_ ?_ ?_ ?_ ?_ ?_ ?_ ?_ <;> rw [hsetname]
    · rw [setLayerParent_layers]
      show ((s.layers.map g).map _).map _ = _
      rw [List.map_map, List.map_map]
      refine List.map_congr_left ?_
      intro l hl
      by_cases hld : l.id ∈ done
      · have hne : ¬(l.id = lid) := fun he => hnotdone (he ▸ hld)
        have hgl : g l = renameLayerPure (sfxOf dn) rootId newIds l := by
          rw [hg]; exact if_pos hld
        have hgid' : (g l).id = l.id := hgid l
        simp only [Function.comp, if_neg (show ¬((g l).id = lid) by rw [hgid']; exact hne)]
        rw [hgl, if_pos (List.mem_append_left _ hld)]
      · by_cases hll : l.id = lid
        · have hleq : l = l0 :=
            List.inj_on_of_nodup_map hWF.idsNodup hl hmem0 (by rw [hll, hid0])
          subst hleq
          have hgl : g l = l := by rw [hg]; exact if_neg hld
          simp only [Function.comp, hgl, if_pos hll,
            if_pos (show l.id = lid from hll)]
          first
          | rw [if_pos (Or.inr hll)]
          | simp [renameLayerPure, hp, hll]
        · have hgl : g l = l := by rw [hg]; exact if_neg hld
          simp only [Function.comp, hgl, if_neg hll,
            if_neg (show ¬(l.id ∈ done ++ [lid]) by simp [hld, hll])]
    all_goals rfl
  · by_cases hnest : pid ∈ newIds
    · -- nested: parent pointer untouched
      simp only [hp]
      rw [if_pos (decide_eq_true hnest)]
      refine sceneExt ?_ ?_ ?_ ?_ ?_ ?_ ?_ ?_ <;> rw [hsetname]
      · show (s.layers.map g).map _ = _
        rw [List.map_map]
        refine List.map_congr_left ?_
        intro l hl
        by_cases hld : l.id ∈ done
        · have hne : ¬(l.id = lid) := fun he => hnotdone (he ▸ hld)
          have hgl : g l = renameLayerPure (sfxOf dn) rootId newIds l := by
            rw [hg]; exact if_pos hld
          have hgid' : (g l).id = l.id := hgid l
          simp only [Function.comp, if_neg (show ¬((g l).id = lid) by rw [hgid']; exact hne)]
          rw [hgl, if_pos (List.mem_append_left _ hld)]
        · by_cases hll : l.id = lid
          · have hleq : l = l0 :=
              List.inj_on_of_nodup_map hWF.idsNodup hl hmem0 (by rw [hll, hid0])
            subst hleq
            have hgl : g l = l := by rw [hg]; exact if_neg hld
            simp only [Function.comp, hgl, if_pos (show l.id = lid from hll)]
            first
            | rw [if_pos (Or.inr hll)]
            | simp [renameLayerPure, hp, hnest, hll]
          · have hgl : g l = l := by rw [hg]; exact if_neg hld
            simp only [Function.comp, hgl, if_neg hll,
              if_neg (show ¬(l.id ∈ done ++ [lid]) by simp [hld, hll])]
    · -- existing parent that is not a new layer: re-parented under the root
      simp only [hp]
      rw [if_neg (by simp [hnest])]
      refine sceneExt ?_ ?_ ?_ ?_ ?_ ?_ ?_ ?_ <;> rw [hsetname]
      · rw [setLayerParent_layers]
        show ((s.layers.map g).map _).map _ = _
        rw [List.map_map, List.map_map]
        refine List.map_congr_left ?_
        intro l hl
        by_cases hld : l.id ∈ done
        · have hne : ¬(l.id = lid) := fun he => hnotdone (he ▸ hld)
          have hgl : g l = renameLayerPure (sfxOf dn) rootId newIds l := by
            rw [hg]; exact if_pos hld
          have hgid' : (g l).id = l.id := hgid l
          simp only [Function.comp, if_neg (show ¬((g l).id = lid) by rw [hgid']; exact hne)]
          rw [hgl, if_pos (List.mem_append_left _ hld)]
        · by_cases hll : l.id = lid
          · have hleq : l = l0 :=
              List.inj_on_of_nodup_map hWF.idsNodup hl hmem0 (by rw [hll, hid0])
            subst hleq
            have hgl : g l = l := by rw [hg]; exact if_neg hld
            simp only [Function.comp, hgl, if_pos (show l.id = lid from hll)]
            first
            | rw [if_pos (Or.inr hll)]
            | simp [renameLayerPure, hp, hnest, hll]
          · have hgl : g l = l := by rw [hg]; exact if_neg hld
            simp only [Function.comp, hgl, if_neg hll,
              if_neg (show ¬(l.id ∈ done ++ [lid]) by simp [hld, hll])]
      all_goals rfl

theorem renameNewLayers_spec (s : Scene) (newIds : List Nat) (rootId : Nat) (dn : Str)
    (hWF : SceneWF s) (hN : newIds.Nodup)
    (hsub : ∀ i ∈ newIds, i ∈ s.layers.map (fun l => l.id))
    (hfresh : ∀ l ∈ s.layers, l.id ∈ newIds →
        (l.name ++ sfxOf dn) ∉ s.layers.map (fun l => l.name)) :
    renameNewLayers s newIds rootId dn
      = { s with layers := s.layers.map (fun l =>
          if l.id ∈ newIds then renameLayerPure (sfxOf dn) rootId newIds l else l) } := by
  suffices h : ∀ (rest done : List Nat), done ++ rest = newIds →
      rest.foldl (renameNewStep newIds rootId dn)
        { s with layers := s.layers.map (fun l =>
            if l.id ∈ done then renameLayerPure (sfxOf dn) rootId newIds l else l) }
      = { s with layers := s.layers.map (fun l =>
          if l.id ∈ newIds then renameLayerPure (sfxOf dn) rootId newIds l else l) } by
    have h0 := h newIds [] rfl
    unfold renameNewLayers
    rw [← h0]
    congr 1
    refine sceneExt ?_ rfl rfl rfl rfl rfl rfl rfl
    show s.layers = s.layers.map fun l =>
      if l.id ∈ ([] : List Nat) then renameLayerPure (sfxOf dn) rootId newIds l else l
    simp
  intro rest
  induction rest with
  | nil =>
    intro done hsplit
    rw [List.foldl_nil]
    have hde : done = newIds := by simpa using hsplit
    subst hde
    rfl
  | cons lid rest ih =>
    intro done hsplit
    rw [List.foldl_cons]
    have hmemnew : lid ∈ newIds := by rw [← hsplit]; simp
    have hN2 : (done ++ lid :: rest).Nodup := by rw [hsplit]; exact hN
    have hnotdone : lid ∉ done := by
      intro hc
      exact List.disjoint_of_nodup_append hN2 hc (by simp)
    rw [renameNewStep_spec s newIds rootId dn hWF hfresh done lid hmemnew hnotdone
      (hsub lid hmemnew)]
    exact ih (done ++ [lid]) (by rw [List.append_assoc]; simpa using hsplit)

/-! ### C3: the claim theorems -/

/-- The new-layer set is ids of scene layers, so it is duplicate-free and
every member resolves. -/
theorem computeNewIds_facts (s : Scene) (snapshot : List Str) (dn : Str)
    (hWF : SceneWF s) :
    (computeNewIds s snapshot dn).Nodup ∧
      ∀ i ∈ computeNewIds s snapshot dn, i ∈ s.layers.map (fun l => l.id) := by
  constructor
  · have hsl : (computeNewIds s snapshot dn).Sublist (s.layers.map (fun l => l.id)) := by
      unfold computeNewIds
      exact (List.filter_sublist s.layers).map _
    exact hsl.nodup hWF.idsNodup
  · intro i hi
    unfold computeNewIds at hi
    rcases List.mem_map.mp hi with ⟨l, hl, rfl⟩
    exact List.mem_map_of_mem _ (List.mem_of_mem_filter hl)

/-- Membership in the new-layer set, characterised (lines 879-886): name not
in the snapshot and none of the three skipped names — `"0"`, the root's name,
and the synthetic `"0 (<displayName>)"`. -/
theorem computeNewIds_mem_iff (s : Scene) (snapshot : List Str) (dn : Str)
    (hWF : SceneWF s) :
    ∀ l ∈ s.layers, (l.id ∈ computeNewIds s snapshot dn
      ↔ (l.name ≠ zeroStr ∧ l.name ≠ dn ∧ l.name ≠ layer0Name dn ∧ l.name ∉ snapshot)) := by
  intro l hl
  unfold computeNewIds
  constructor
  · intro hmem
    rcases List.mem_map.mp hmem with ⟨u, hu, huid⟩
    have hueq : u = l :=
      List.inj_on_of_nodup_map hWF.idsNodup (List.mem_of_mem_filter hu) hl huid
    subst hueq
    have := List.of_mem_filter hu
    simp only [Bool.and_eq_true, Bool.not_eq_eq_eq_not, Bool.not_true, decide_eq_false_iff_not,
      Bool.not_eq_true, decide_eq_true_eq] at this
    · tauto
  · intro ⟨h1, h2, h3, h4⟩
    refine List.mem_map_of_mem _ (List.mem_filter.mpr ⟨hl, ?_⟩)
    simp [zeroStr] at h1 ⊢
    simp_all [zeroStr]

/-- C3 is false as stated: importing a file with one object on the default
layer creates the synthetic layer `"0 (A)"`.  That layer is absent from the
pre-merge snapshot `["0", "A"]` and is neither `"0"` nor the root, yet the
rename loop leaves it untouched: after the import it is still named
`"0 (A)"` (not `"0 (A) (A)"`). -/
theorem claim_C3_counterexample :
    ((import_mid freshScene ⟨"A".data, [], [⟨"0".data, none⟩]⟩ "a1b2c3d4".data).2.2
        = ["0".data, "A".data]) ∧
    ((import_mid freshScene ⟨"A".data, [], [⟨"0".data, none⟩]⟩ "a1b2c3d4".data).1.layers.map
        (fun l => (l.name, l.parent))
        = [("0".data, none), ("A".data, none), ("0 (A)".data, some 1)]) ∧
    ((import_single_scene freshScene ⟨"A".data, [], [⟨"0".data, none⟩]⟩
        "a1b2c3d4".data 0 false).layers.map (fun l => (l.name, l.parent))
        = [("0".data, none), ("A".data, none), ("0 (A)".data, some 1)]) := by
  exact ⟨by decide, by decide, by decide⟩

/-- C3 (amended): during `import_single_scene`, every layer whose name is
absent from the pre-merge snapshot — other than `"0"`, the just-created root
layer, and the synthetic default sub-layer `"0 (<displayName>)"` — is renamed
by appending `" (<displayName>)"`, keeps its parent pointer when its parent
is also such a new layer, and is otherwise re-parented directly under the
merge's root layer (provided the appended names are free, which the merge
invariants guarantee). -/
theorem claim_C3_rename_loop (s : Scene) (snapshot : List Str) (rootId : Nat) (dn : Str)
    (hWF : SceneWF s)
    (hfresh : ∀ l ∈ s.layers, l.id ∈ computeNewIds s snapshot dn →
        (l.name ++ sfxOf dn) ∉ s.layers.map (fun l => l.name)) :
    renameNewLayers s (computeNewIds s snapshot dn) rootId dn
      = { s with layers := s.layers.map (fun l =>
          if l.id ∈ computeNewIds s snapshot dn
          then renameLayerPure (sfxOf dn) rootId (computeNewIds s snapshot dn) l
          else l) } ∧
    (∀ l ∈ s.layers, (l.id ∈ computeNewIds s snapshot dn
      ↔ (l.name ≠ zeroStr ∧ l.name ≠ dn ∧ l.name ≠ layer0Name dn ∧ l.name ∉ snapshot))) := by
  obtain ⟨hN, hsub⟩ := computeNewIds_facts s snapshot dn hWF
  exact ⟨renameNewLayers_spec s _ rootId dn hWF hN hsub hfresh,
    computeNewIds_mem_iff s snapshot dn hWF⟩

/-- Witness for the amended C3 at a concrete post-merge scene. -/
theorem claim_C3_rename_loop_witness :
    (((exSceneC3.layers.map (fun l => l.id)).Nodup ∧
        (∀ l ∈ exSceneC3.layers, l.id < exSceneC3.nextLayerId) ∧
        (exSceneC3.layers.map (fun l => l.name)).Nodup) ∧
      (∀ l ∈ exSceneC3.layers,
        l.id ∈ computeNewIds exSceneC3 ["0".data, "A".data] "A".data →
          (l.name ++ sfxOf "A".data) ∉ exSceneC3.layers.map (fun l => l.name))) ∧
    (renameNewLayers exSceneC3
        (computeNewIds exSceneC3 ["0".data, "A".data] "A".data) 1 "A".data
      = { exSceneC3 with layers := exSceneC3.layers.map (fun l =>
          if l.id ∈ computeNewIds exSceneC3 ["0".data, "A".data] "A".data
          then renameLayerPure (sfxOf "A".data) 1
            (computeNewIds exSceneC3 ["0".data, "A".data] "A".data) l
          else l) } ∧
      (∀ l ∈ exSceneC3.layers,
        (l.id ∈ computeNewIds exSceneC3 ["0".data, "A".data] "A".data
          ↔ (l.name ≠ zeroStr ∧ l.name ≠ "A".data ∧
              l.name ≠ layer0Name "A".data ∧ l.name ∉ ["0".data, "A".data])))) :=
  ⟨⟨⟨by decide, by decide, by decide⟩, by decide⟩,
   claim_C3_rename_loop exSceneC3 ["0".data, "A".data] 1 "A".data
     ⟨by decide, by decide, by decide⟩ (by decide)⟩

/-! ### The pre-save extraction loop -/

theorem findLayerById_of_layers_map {t s : Scene} {h : LayerRec → LayerRec}
    (hlayers : t.layers = s.layers.map h) (hid : ∀ l, (h l).id = l.id) (i : Nat) :
    findLayerById t i = (findLayerById s i).map h := by
  show t.layers.find? (fun l => decide (l.id = i))
      = (s.layers.find? (fun l => decide (l.id = i))).map h
  rw [hlayers, List.find?_map]
  have hpe : ((fun l : LayerRec => decide (l.id = i)) ∘ h)
      = (fun l : LayerRec => decide (l.id = i)) := by
    funext l
    simp [Function.comp, hid l]
  rw [hpe]

theorem extractLayerPure_id (sfx : Str) (rootId : Nat) (l : LayerRec) :
    (extractLayerPure sfx rootId l).id = l.id := by
  unfold extractLayerPure
  split_ifs <;> rfl

theorem extractLayerPure_name (sfx : Str) (rootId : Nat) (l : LayerRec) :
    (extractLayerPure sfx rootId l).name
      = if strEndsWith l.name sfx = true ∧ strDropSuffix l.name sfx ≠ zeroStr
        then strDropSuffix l.name sfx else l.name := by
  unfold extractLayerPure
  split_ifs with h1 h2 <;> simp_all

/-- Evaluating the lines 1413-1417 detach test: under resolvable parents and
fresh transformed names, the parent carries the root's name exactly when it
is the root, so the detach happens exactly on root children. -/
theorem detachIfRootParent_eval (s : Scene) (hWF : SceneWF s) (rootId : Nat)
    (hrootmem : rootId ∈ s.layers.map (fun l => l.id))
    (t : Scene) (h : LayerRec → LayerRec) (hlayers : t.layers = s.layers.map h)
    (hid : ∀ l, (h l).id = l.id)
    (hnames : ∀ l ∈ s.layers, (h l).name = l.name
        ∨ (h l).name ∉ s.layers.map (fun l => l.name))
    (hrootname : ∀ l ∈ s.layers, l.id = rootId → (h l).name = l.name)
    (lid : Nat) (origP : Option Nat)
    (hresolve : ∀ pid, origP = some pid → pid ∈ s.layers.map (fun l => l.id)) :
    detachIfRootParent t lid origP rootId
      = if origP = some rootId then setLayerParent t lid none else t := by
  obtain ⟨r, hfr, hrmem, hrid⟩ := findLayerById_eq_some_of_mem s rootId hrootmem
  have hfrt : findLayerById t rootId = some (h r) := by
    rw [findLayerById_of_layers_map hlayers hid, hfr]
    rfl
  cases origP with
  | none =>
    simp [detachIfRootParent]
  | some pid =>
    obtain ⟨p, hfp, hpmem, hpid⟩ := findLayerById_eq_some_of_mem s pid (hresolve pid rfl)
    have hfpt : findLayerById t pid = some (h p) := by
      rw [findLayerById_of_layers_map hlayers hid, hfp]
      rfl
    have hred : detachIfRootParent t lid (some pid) rootId
        = (if (match findLayerById t pid with | some q => q.name | none => ([] : Str))
              = (match findLayerById t rootId with | some q => q.name | none => ([] : Str))
            then setLayerParent t lid none else t) := rfl
    rw [hred, hfpt, hfrt]
    show (if (h p).name = (h r).name then setLayerParent t lid none else t) = _
    have hrn : (h r).name = r.name := hrootname r hrmem hrid
    by_cases hpr : pid = rootId
    · have hpr' : p = r := by
        refine List.inj_on_of_nodup_map hWF.idsNodup hpmem hrmem ?_
        rw [hpid, hrid, hpr]
      subst hpr'
      rw [if_pos (by rw [hrn])]
      rw [if_pos (by rw [hpr])]
    · have hne : (h p).name ≠ (h r).name := by
        rcases hnames p hpmem with hc | hc
        · rw [hc, hrn]
          intro heq
          have : p = r := List.inj_on_of_nodup_map hWF.namesNodup hpmem hrmem heq
          subst this
          exact hpr (by rw [← hpid, hrid])
        · rw [hrn]
          intro heq
          exact hc (heq ▸ List.mem_map_of_mem _ hrmem)
      rw [if_neg hne]
      rw [if_neg (by simp [hpr])]

theorem extractStep_spec (s : Scene) (descs : List Nat) (rootId : Nat) (dn : Str)
    (hWF : SceneWF s) (hOK : ExtractOK s descs rootId dn)
    (done : List Nat) (lid : Nat) (sm : List (Nat × Str × Option Nat))
    (hdonesub : ∀ i ∈ done, i ∈ descs)
    (hmem : lid ∈ descs) (hnotdone : lid ∉ done) :
    extractStep rootId dn
      ({ s with layers := s.layers.map (fun l =>
          if l.id ∈ done then extractLayerPure (sfxOf dn) rootId l else l) }, sm) lid
      = ({ s with layers := s.layers.map (fun l =>
          if l.id ∈ done ++ [lid] then extractLayerPure (sfxOf dn) rootId l else l) },
         sm ++ [layerRecOf s lid]) := by
  obtain ⟨hND, hrnd, hrootmem, hsub, hpar, hfresh, hpair⟩ := hOK
  set g : LayerRec → LayerRec :=
    fun l => if l.id ∈ done then extractLayerPure (sfxOf dn) rootId l else l with hg
  have hgid : ∀ l : LayerRec, (g l).id = l.id := by
    intro l
    by_cases h : l.id ∈ done
    · simp [hg, h, extractLayerPure_id]
    · simp [hg, h]
  have hgnames : ∀ l ∈ s.layers, (g l).name = l.name
      ∨ (g l).name ∉ s.layers.map (fun l => l.name) := by
    intro l hl
    by_cases h : l.id ∈ done
    · rw [hg]
      simp only [h, if_true]
      rw [extractLayerPure_name]
      by_cases hel : strEndsWith l.name (sfxOf dn) = true ∧
          strDropSuffix l.name (sfxOf dn) ≠ zeroStr
      · rw [if_pos hel]
        exact Or.inr (hfresh l hl (hdonesub _ h) hel.1 hel.2)
      · rw [if_neg hel]
        exact Or.inl rfl
    · rw [hg]
      simp [h]
  have hrdone : rootId ∉ done := fun hc => hrnd (hdonesub _ hc)
  have hgroot : ∀ l ∈ s.layers, l.id = rootId → (g l).name = l.name := by
    intro l _ hlr
    rw [hg]
    simp only [hlr]
    rw [if_neg hrdone]
  obtain ⟨l0, hfind, hmem0, hid0⟩ := findLayerById_eq_some_of_mem s lid (hsub lid hmem)
  have hl0par : ∀ pid, l0.parent = some pid → pid ∈ s.layers.map (fun l => l.id) := by
    intro pid hp
    have h5 := hpar l0 hmem0 (by rw [hid0]; exact hmem)
    rw [hp] at h5
    simpa using h5
  have hgl0 : g l0 = l0 := by
    rw [hg]
    simp only [hid0]
    rw [if_neg hnotdone]
  have hfindmid : findLayerById
      { s with layers := s.layers.map g } lid = some l0 := by
    rw [findLayerById_of_layers_map rfl hgid, hfind]
    simp [hgl0]
  have hrec : layerRecOf s lid = (lid, l0.name, l0.parent) := by
    unfold layerRecOf
    rw [hfind]
  simp only [extractStep, hfindmid, hrec]
  by_cases hel : strEndsWith l0.name (sfxOf dn) = true
  · by_cases hz : strDropSuffix l0.name (sfxOf dn) = zeroStr
    · -- the "0 (<dn>)" form: recorded, but neither renamed nor detached
      rw [if_pos hel, if_pos hz]
      refine Prod.ext ?_ rfl
      show ({ s with layers := s.layers.map g } : Scene) = _
      refine sceneExt ?_ rfl rfl rfl rfl rfl rfl rfl
      show s.layers.map g = _
      refine List.map_congr_left ?_
      intro l hl
      by_cases hld : l.id ∈ done
      · rw [hg]
        simp only [hld, if_true]
        rw [if_pos (List.mem_append_left _ hld)]
      · by_cases hll : l.id = lid
        · have hleq : l = l0 :=
            List.inj_on_of_nodup_map hWF.idsNodup hl hmem0 (by rw [hll, hid0])
          subst hleq
          rw [hg]
          simp only [hld, if_false]
          rw [if_pos (List.mem_append_right _ (by simp [hll]))]
          unfold extractLayerPure
          rw [if_pos hel, if_pos hz]
        · rw [hg]
          simp only [hld, if_false]
          rw [if_neg (by simp [hld, hll])]
    · -- strip succeeds, then the detach test runs
      rw [if_pos hel, if_neg hz]
      have hguard : (({ s with layers := s.layers.map g } : Scene).layers.any
          (fun l => decide (l.name = strDropSuffix l0.name (sfxOf dn)))) = false := by
        rw [Bool.eq_false_iff]
        intro hany
        rcases List.any_eq_true.mp hany with ⟨l1, hl1, hp1⟩
        simp only [decide_eq_true_eq] at hp1
        rcases List.mem_map.mp hl1 with ⟨u, hu, rfl⟩
        by_cases hud : u.id ∈ done
        · have hgu : (g u).name
              = if strEndsWith u.name (sfxOf dn) = true ∧
                  strDropSuffix u.name (sfxOf dn) ≠ zeroStr
                then strDropSuffix u.name (sfxOf dn) else u.name := by
            rw [hg]
            simp only [hud, if_true]
            exact extractLayerPure_name _ _ _
          rw [hgu] at hp1
          by_cases huel : strEndsWith u.name (sfxOf dn) = true ∧
              strDropSuffix u.name (sfxOf dn) ≠ zeroStr
          · rw [if_pos huel] at hp1
            have hune : u.id ≠ l0.id := by
              rw [hid0]
              intro he
              exact hnotdone (he ▸ hud)
            exact hpair u hu l0 hmem0 (hdonesub _ hud) (by rw [hid0]; exact hmem)
              hune huel.1 huel.2 hel hz hp1
          · rw [if_neg huel] at hp1
            exact hfresh l0 hmem0 (by rw [hid0]; exact hmem) hel hz (hp1 ▸ List.mem_map_of_mem _ hu)
        · have hgu : (g u).name = u.name := by
            rw [hg]; simp [hud]
          rw [hgu] at hp1
          exact hfresh l0 hmem0 (by rw [hid0]; exact hmem) hel hz (hp1 ▸ List.mem_map_of_mem _ hu)
      have hsetname :
          setLayerName { s with layers := s.layers.map g } lid
              (strDropSuffix l0.name (sfxOf dn))
            = { s with layers := (s.layers.map g).map (fun l =>
                if l.id = lid then { l with name := strDropSuffix l0.name (sfxOf dn) } else l) } := by
        unfold setLayerName
        rw [hguard]
        simp [modifyLayer]
      rw [hsetname]
      set h2 : LayerRec → LayerRec :=
        (fun l => if l.id = lid
            then { l with name := strDropSuffix l0.name (sfxOf dn) } else l) ∘ g with hh2
      have hh2id : ∀ l : LayerRec, (h2 l).id = l.id := by
        intro l
        rw [hh2]
        simp only [Function.comp]
        by_cases hc : (g l).id = lid
        · rw [if_pos hc]
          exact hgid l
        · rw [if_neg hc]
          exact hgid l
      have hh2names : ∀ l ∈ s.layers, (h2 l).name = l.name
          ∨ (h2 l).name ∉ s.layers.map (fun l => l.name) := by
        intro l hl
        rw [hh2]
        simp only [Function.comp]
        by_cases hc : (g l).id = lid
        · rw [if_pos hc]
          exact Or.inr (hfresh l0 hmem0 (by rw [hid0]; exact hmem) hel hz)
        · rw [if_neg hc]
          exact hgnames l hl
      have hh2root : ∀ l ∈ s.layers, l.id = rootId → (h2 l).name = l.name := by
        intro l hl hlr
        rw [hh2]
        simp only [Function.comp]
        have hc : ¬((g l).id = lid) := by
          rw [hgid l, hlr]
          intro he
          exact hrnd (he ▸ hmem)
        rw [if_neg hc]
        exact hgroot l hl hlr
      have hlay2 : ((({ s with layers := (s.layers.map g).map (fun l =>
          if l.id = lid then { l with name := strDropSuffix l0.name (sfxOf dn) } else l) }) :
            Scene)).layers = s.layers.map h2 := by
        rw [hh2]
        show (s.layers.map g).map _ = _
        exact List.map_map _ _ _
      have hfid : ∀ x : LayerRec,
          (if x.id = lid then { x with name := strDropSuffix l0.name (sfxOf dn) } else x).id
            = x.id := by
        intro x
        by_cases hc : x.id = lid
        · rw [if_pos hc]
        · rw [if_neg hc]
      rw [detachIfRootParent_eval s hWF rootId hrootmem _ h2 hlay2 hh2id hh2names hh2root
        lid l0.parent hl0par]
      by_cases hpr : l0.parent = some rootId
      · rw [if_pos hpr]
        refine Prod.ext ?_ rfl
        show setLayerParent _ lid none = _
        refine sceneExt ?_ rfl rfl rfl rfl rfl rfl rfl
        rw [setLayerParent_layers, hlay2, List.map_map]
        refine List.map_congr_left ?_
        intro l hl
        by_cases hld : l.id ∈ done
        · have hne : ¬(l.id = lid) := fun he => hnotdone (he ▸ hld)
          rw [hh2]
          simp only [Function.comp]
          rw [if_neg (by rw [hfid, hgid l]; exact hne)]
          have hgl : g l = extractLayerPure (sfxOf dn) rootId l := by
            rw [hg]; simp [hld]
          rw [hgl]
          simp only [extractLayerPure_id]
          rw [if_neg hne, if_pos (List.mem_append_left _ hld)]
        · by_cases hll : l.id = lid
          · have hleq : l = l0 :=
              List.inj_on_of_nodup_map hWF.idsNodup hl hmem0 (by rw [hll, hid0])
            subst hleq
            rw [hh2]
            simp only [Function.comp]
            have hgl : g l = l := by rw [hg]; simp [hld]
            rw [hgl, if_pos hll]
            simp only [if_pos hll]
            rw [if_pos (List.mem_append_right _ (by simp [hll]))]
            unfold extractLayerPure
            rw [if_pos hel, if_neg hz, if_pos hpr]
          · rw [hh2]
            simp only [Function.comp]
            have hgl : g l = l := by rw [hg]; simp [hld]
            rw [hgl, if_neg hll]
            simp only [if_neg hll]
            rw [if_neg (by simp [hld, hll])]
      · rw [if_neg hpr]
        refine Prod.ext ?_ rfl
        refine sceneExt ?_ rfl rfl rfl rfl rfl rfl rfl
        rw [hlay2]
        refine List.map_congr_left ?_
        intro l hl
        by_cases hld : l.id ∈ done
        · have hne : ¬(l.id = lid) := fun he => hnotdone (he ▸ hld)
          rw [hh2]
          simp only [Function.comp]
          rw [if_neg (by rw [hgid l]; exact hne)]
          have hgl : g l = extractLayerPure (sfxOf dn) rootId l := by
            rw [hg]; simp [hld]
          rw [hgl]
          rw [if_pos (List.mem_append_left _ hld)]
        · by_cases hll : l.id = lid
          · have hleq : l = l0 :=
              List.inj_on_of_nodup_map hWF.idsNodup hl hmem0 (by rw [hll, hid0])
            subst hleq
            rw [hh2]
            simp only [Function.comp]
            have hgl : g l = l := by rw [hg]; simp [hld]
            rw [hgl, if_pos hll]
            rw [if_pos (List.mem_append_right _ (by simp [hll]))]
            unfold extractLayerPure
            rw [if_pos hel, if_neg hz, if_neg hpr]
          · rw [hh2]
            simp only [Function.comp]
            have hgl : g l = l := by rw [hg]; simp [hld]
            rw [hgl, if_neg hll]
            rw [if_neg (by simp [hld, hll])]
  · -- no suffix: only the detach test runs
    rw [if_neg hel]
    rw [detachIfRootParent_eval s hWF rootId hrootmem _ g rfl hgid hgnames hgroot
      lid l0.parent hl0par]
    by_cases hpr : l0.parent = some rootId
    · rw [if_pos hpr]
      refine Prod.ext ?_ rfl
      show setLayerParent _ lid none = _
      refine sceneExt ?_ rfl rfl rfl rfl rfl rfl rfl
      rw [setLayerParent_layers]
      show (s.layers.map g).map _ = _
      rw [List.map_map]
      refine List.map_congr_left ?_
      intro l hl
      by_cases hld : l.id ∈ done
      · have hne : ¬(l.id = lid) := fun he => hnotdone (he ▸ hld)
        simp only [Function.comp]
        have hgl : g l = extractLayerPure (sfxOf dn) rootId l := by
          rw [hg]; simp [hld]
        rw [hgl]
        simp only [extractLayerPure_id]
        rw [if_neg hne, if_pos (List.mem_append_left _ hld)]
      · by_cases hll : l.id = lid
        · have hleq : l = l0 :=
            List.inj_on_of_nodup_map hWF.idsNodup hl hmem0 (by rw [hll, hid0])
          subst hleq
          simp only [Function.comp]
          have hgl : g l = l := by rw [hg]; simp [hld]
          rw [hgl]
          simp only [if_pos hll]
          rw [if_pos (List.mem_append_right _ (by simp [hll]))]
          unfold extractLayerPure
          rw [if_neg hel, if_pos hpr]
        · simp only [Function.comp]
          have hgl : g l = l := by rw [hg]; simp [hld]
          rw [hgl]
          simp only [if_neg hll]
          rw [if_neg (by simp [hld, hll])]
    · rw [if_neg hpr]
      refine Prod.ext ?_ rfl
      refine sceneExt ?_ rfl rfl rfl rfl rfl rfl rfl
      show s.layers.map g = _
      refine List.map_congr_left ?_
      intro l hl
      by_cases hld : l.id ∈ done
      · rw [hg]
        simp only [hld, if_true]
        rw [if_pos (List.mem_append_left _ hld)]
      · by_cases hll : l.id = lid
        · have hleq : l = l0 :=
            List.inj_on_of_nodup_map hWF.idsNodup hl hmem0 (by rw [hll, hid0])
          subst hleq
          rw [hg]
          simp only [hld, if_false]
          rw [if_pos (List.mem_append_right _ (by simp [hll]))]
          unfold extractLayerPure
          rw [if_neg hel, if_neg hpr]
        · rw [hg]
          simp only [hld, if_false]
          rw [if_neg (by simp [hld, hll])]


/-- Folding the extraction step over a duplicate-free tail of the descendant
list, starting from a scene already transformed at the processed prefix. -/
theorem extract_foldl_spec (s : Scene) (descs : List Nat) (rootId : Nat) (dn : Str)
    (hWF : SceneWF s) (hOK : ExtractOK s descs rootId dn) :
    ∀ (rest done : List Nat) (sm : List (Nat × Str × Option Nat)),
      (∀ i ∈ done, i ∈ descs) → (∀ i ∈ rest, i ∈ descs) → (done ++ rest).Nodup →
      rest.foldl (extractStep rootId dn)
        ({ s with layers := s.layers.map (fun l =>
            if l.id ∈ done then extractLayerPure (sfxOf dn) rootId l else l) }, sm)
        = ({ s with layers := s.layers.map (fun l =>
            if l.id ∈ done ++ rest then extractLayerPure (sfxOf dn) rootId l else l) },
           sm ++ rest.map (layerRecOf s)) := by
  intro rest
  induction rest with
  | nil =>
    intro done sm _ _ _
    simp
  | cons lid rest ih =>
    intro done sm hdone hrest hnd
    have hlid : lid ∈ descs := hrest lid (List.mem_cons_self _ _)
    have hnotdone : lid ∉ done := by
      intro hc
      exact (List.nodup_append.mp hnd).2.2 hc (List.mem_cons_self _ _)
    rw [List.foldl_cons,
      extractStep_spec s descs rootId dn hWF hOK done lid sm hdone hlid hnotdone,
      ih (done ++ [lid]) (sm ++ [layerRecOf s lid])
        (by
          intro i hi
          rcases List.mem_append.mp hi with h | h
          · exact hdone i h
          · rw [List.mem_singleton.mp h]
            exact hlid)
        (fun i hi => hrest i (List.mem_cons_of_mem _ hi))
        (by
          rw [List.append_assoc]
          simpa using hnd)]
    simp [List.append_assoc]

/-- The whole extraction loop: the scene is transformed pointwise at the
descendants, and the state map lists the original records in visit order. -/
theorem extractLayers_spec (s : Scene) (descs : List Nat) (rootId : Nat) (dn : Str)
    (hWF : SceneWF s) (hOK : ExtractOK s descs rootId dn) :
    extractLayers s descs rootId dn
      = (applyExtractAt (sfxOf dn) rootId descs s, descs.map (layerRecOf s)) := by
  have hbase : (s, ([] : List (Nat × Str × Option Nat)))
      = ({ s with layers := s.layers.map (fun l =>
          if l.id ∈ ([] : List Nat) then extractLayerPure (sfxOf dn) rootId l else l) },
         ([] : List (Nat × Str × Option Nat))) := by
    refine Prod.ext ?_ rfl
    show s = _
    refine sceneExt ?_ rfl rfl rfl rfl rfl rfl rfl
    show s.layers = _
    simp
  show descs.foldl (extractStep rootId dn) (s, []) = _
  rw [hbase, extract_foldl_spec s descs rootId dn hWF hOK descs [] []
    (by intro i hi; simp at hi) (fun i hi => hi) (by simpa using hOK.1)]
  simp [applyExtractAt]

/-- C6 (amended): the pre-save extraction loop records every subtree layer's
current `(name, parent)` in visit order, strips the `" (<displayName>)"`
suffix from every suffixed name except the default-layer form
`"0 (<displayName>)"`, and detaches a layer from the root exactly when its
parent was the root AND it is not of the default-layer form — the `continue`
taken for that form skips the detach step as well as the rename, so the
original claim's unconditional "detached whenever its parent was the root"
fails on `"0 (<displayName>)"` layers (see the counterexample). -/
theorem claim_C6_extraction (s : Scene) (descs : List Nat) (rootId : Nat) (dn : Str)
    (hWF : SceneWF s) (hOK : ExtractOK s descs rootId dn) :
    extractLayers s descs rootId dn
      = (applyExtractAt (sfxOf dn) rootId descs s, descs.map (layerRecOf s)) :=
  extractLayers_spec s descs rootId dn hWF hOK

set_option synthInstance.maxSize 4000 in
/-- Witness: on a concrete scene the amended C6 hypotheses hold and the
extraction equals its pointwise description. -/
theorem claim_C6_extraction_witness :
    SceneWF wscC6 ∧ ExtractOK wscC6 [2, 3] 1 ['A'] ∧
    extractLayers wscC6 [2, 3] 1 ['A']
      = (applyExtractAt (sfxOf ['A']) 1 [2, 3] wscC6,
         [2, 3].map (layerRecOf wscC6)) :=
  ⟨⟨by decide, by decide, by decide⟩, by unfold ExtractOK; decide,
    claim_C6_extraction wscC6 [2, 3] 1 ['A']
      ⟨by decide, by decide, by decide⟩ (by unfold ExtractOK; decide)⟩

/-- C6 counterexample: layer 2 (`"0 (A)"`) has the root as recorded parent,
yet after extraction it is still attached to the root — the claimed
unconditional detach is false. -/
theorem claim_C6_counterexample :
    (layerRecOf cexC6 2).2.2 = some 1 ∧
    (extractLayers cexC6 [2] 1 ['A']).1.layers.map (fun l => (l.id, l.parent))
      = [(0, none), (1, none), (2, some 1)] := by decide


theorem layerRecExt {a b : LayerRec} (h1 : a.id = b.id) (h2 : a.name = b.name)
    (h3 : a.parent = b.parent) (h4 : a.visible = b.visible) : a = b := by
  cases a
  cases b
  simp_all

theorem extractLayerPure_visible (sfx : Str) (rootId : Nat) (l : LayerRec) :
    (extractLayerPure sfx rootId l).visible = l.visible := by
  unfold extractLayerPure
  split_ifs <;> rfl

theorem extractLayerPure_parent (sfx : Str) (rootId : Nat) (l : LayerRec) :
    (extractLayerPure sfx rootId l).parent
      = if strEndsWith l.name sfx = true ∧ strDropSuffix l.name sfx = zeroStr
        then l.parent
        else if l.parent = some rootId then none else l.parent := by
  unfold extractLayerPure
  split_ifs with h1 h2 <;> simp_all

/-- One restore step at the head of the pending list: the recorded parent is
reinstated unconditionally and the recorded name through the collision-guarded
rename, which succeeds because stripped names are fresh. -/
theorem restoreStep_spec (s : Scene) (descs : List Nat) (rootId : Nat) (dn : Str)
    (hWF : SceneWF s) (hOK : ExtractOK s descs rootId dn)
    (t : Scene) (lid : Nat) (rest : List Nat)
    (hmem : lid ∈ descs) (hrest : ∀ i ∈ rest, i ∈ descs) (hnr : lid ∉ rest)
    (hlayers : t.layers = s.layers.map (fun l =>
        if l.id ∈ lid :: rest then extractLayerPure (sfxOf dn) rootId l else l)) :
    restoreStep t (layerRecOf s lid)
      = { t with layers := s.layers.map (fun l =>
          if l.id ∈ rest then extractLayerPure (sfxOf dn) rootId l else l) } := by
  obtain ⟨hND, hrnd, hrootmem, hsub, hpar, hfresh, hpair⟩ := hOK
  set g : LayerRec → LayerRec :=
    fun l => if l.id ∈ lid :: rest then extractLayerPure (sfxOf dn) rootId l else l with hg
  have hgid : ∀ l : LayerRec, (g l).id = l.id := by
    intro l
    simp only [hg]
    by_cases h : l.id ∈ lid :: rest
    · rw [if_pos h, extractLayerPure_id]
    · rw [if_neg h]
  obtain ⟨l0, hfind, hmem0, hid0⟩ := findLayerById_eq_some_of_mem s lid (hsub lid hmem)
  have hmemd : l0.id ∈ descs := by rw [hid0]; exact hmem
  have hrec : layerRecOf s lid = (lid, l0.name, l0.parent) := by
    unfold layerRecOf
    rw [hfind]
  have hgl0 : g l0 = extractLayerPure (sfxOf dn) rootId l0 := by
    simp only [hg, hid0]
    rw [if_pos (List.mem_cons_self _ _)]
  have hfindt : findLayerById t lid = some (g l0) := by
    rw [findLayerById_of_layers_map hlayers hgid, hfind]
    rfl
  have hgother : ∀ u ∈ s.layers, ¬(u.id = lid) →
      g u = if u.id ∈ rest then extractLayerPure (sfxOf dn) rootId u else u := by
    intro u _ hul
    simp only [hg]
    by_cases hur : u.id ∈ rest
    · rw [if_pos (List.mem_cons_of_mem _ hur), if_pos hur]
    · rw [if_neg (by simp [hul, hur]), if_neg hur]
  have hiteid : ∀ u : LayerRec,
      (if u.id ∈ rest then extractLayerPure (sfxOf dn) rootId u else u).id = u.id := by
    intro u
    by_cases hur : u.id ∈ rest
    · rw [if_pos hur, extractLayerPure_id]
    · rw [if_neg hur]
  have hnegen : strEndsWith l0.name (sfxOf dn) = true →
      strDropSuffix l0.name (sfxOf dn) ≠ zeroStr →
      ¬((extractLayerPure (sfxOf dn) rootId l0).name = l0.name) := by
    intro hce hcz he
    rw [extractLayerPure_name, if_pos ⟨hce, hcz⟩] at he
    exact hfresh l0 hmem0 hmemd hce hcz (by rw [he]; exact List.mem_map_of_mem _ hmem0)
  have hguardgen : strEndsWith l0.name (sfxOf dn) = true →
      strDropSuffix l0.name (sfxOf dn) ≠ zeroStr →
      ∀ h : LayerRec → LayerRec, (∀ u ∈ s.layers, (h u).name = (g u).name) →
      ((s.layers.map h).any (fun l => decide (l.name = l0.name))) = false := by
    intro hce hcz h hh
    rw [Bool.eq_false_iff]
    intro hany
    rcases List.any_eq_true.mp hany with ⟨x, hx, hpx⟩
    simp only [decide_eq_true_eq] at hpx
    rcases List.mem_map.mp hx with ⟨u, hu, rfl⟩
    rw [hh u hu] at hpx
    by_cases hum : u.id ∈ lid :: rest
    · have hgu : (g u).name
          = if strEndsWith u.name (sfxOf dn) = true ∧
              strDropSuffix u.name (sfxOf dn) ≠ zeroStr
            then strDropSuffix u.name (sfxOf dn) else u.name := by
        simp only [hg]
        rw [if_pos hum]
        exact extractLayerPure_name _ _ _
      rw [hgu] at hpx
      by_cases hucond : strEndsWith u.name (sfxOf dn) = true ∧
          strDropSuffix u.name (sfxOf dn) ≠ zeroStr
      · rw [if_pos hucond] at hpx
        have humem : u.id ∈ descs := by
          rcases List.mem_cons.mp hum with h1 | h1
          · rw [h1]; exact hmem
          · exact hrest _ h1
        exact hfresh u hu humem hucond.1 hucond.2
          (by rw [hpx]; exact List.mem_map_of_mem _ hmem0)
      · rw [if_neg hucond] at hpx
        have hueq : u = l0 := List.inj_on_of_nodup_map hWF.namesNodup hu hmem0 hpx
        subst hueq
        exact hucond ⟨hce, hcz⟩
    · have hgu : (g u).name = u.name := by
        simp only [hg]
        rw [if_neg hum]
      rw [hgu] at hpx
      have hueq : u = l0 := List.inj_on_of_nodup_map hWF.namesNodup hu hmem0 hpx
      subst hueq
      exact hum (by rw [hid0]; exact List.mem_cons_self _ _)
  cases hpar0 : l0.parent with
  | none =>
    have hred : restoreStep t (lid, l0.name, (none : Option Nat))
        = (match findLayerById t lid with
           | some l => if l.name = l0.name then t else setLayerName t lid l0.name
           | none => t) := rfl
    rw [hrec, hpar0, hred, hfindt]
    show (if (g l0).name = l0.name then t else setLayerName t lid l0.name) = _
    rw [hgl0]
    by_cases hcond : strEndsWith l0.name (sfxOf dn) = true ∧
        strDropSuffix l0.name (sfxOf dn) ≠ zeroStr
    · -- the extraction stripped the name; the rename back succeeds
      rw [if_neg (hnegen hcond.1 hcond.2)]
      have hguardt : (t.layers.any (fun l => decide (l.name = l0.name))) = false := by
        rw [hlayers]
        exact hguardgen hcond.1 hcond.2 g (fun u _ => rfl)
      unfold setLayerName
      rw [hguardt]
      simp only [Bool.false_eq_true, if_false, modifyLayer]
      refine sceneExt ?_ rfl rfl rfl rfl rfl rfl rfl
      show t.layers.map _ = _
      rw [hlayers, List.map_map]
      refine List.map_congr_left ?_
      intro u hu
      simp only [Function.comp]
      by_cases hul : u.id = lid
      · have hueq : u = l0 :=
          List.inj_on_of_nodup_map hWF.idsNodup hu hmem0 (by rw [hul, hid0])
        rw [hueq, hgl0, if_pos (by rw [extractLayerPure_id]; exact hid0),
          if_neg (fun hc => hnr (hid0 ▸ hc))]
        refine layerRecExt ?_ rfl ?_ ?_
        · exact extractLayerPure_id _ _ _
        · show (extractLayerPure (sfxOf dn) rootId l0).parent = l0.parent
          rw [extractLayerPure_parent, if_neg (fun hc => hcond.2 hc.2), hpar0]
          simp
        · exact extractLayerPure_visible _ _ _
      · rw [hgother u hu hul, if_neg (by rw [hiteid]; exact hul)]
    · -- the extraction left the name alone; the restore does nothing
      have hex0 : (extractLayerPure (sfxOf dn) rootId l0).name = l0.name := by
        rw [extractLayerPure_name, if_neg hcond]
      rw [if_pos hex0]
      refine sceneExt ?_ rfl rfl rfl rfl rfl rfl rfl
      rw [hlayers]
      refine List.map_congr_left ?_
      intro u hu
      by_cases hul : u.id = lid
      · have hueq : u = l0 :=
          List.inj_on_of_nodup_map hWF.idsNodup hu hmem0 (by rw [hul, hid0])
        rw [hueq, hgl0, if_neg (fun hc => hnr (hid0 ▸ hc))]
        refine layerRecExt ?_ hex0 ?_ ?_
        · exact extractLayerPure_id _ _ _
        · rw [extractLayerPure_parent]
          by_cases h00 : strEndsWith l0.name (sfxOf dn) = true ∧
              strDropSuffix l0.name (sfxOf dn) = zeroStr
          · rw [if_pos h00]
          · rw [if_neg h00, hpar0]
            simp
        · exact extractLayerPure_visible _ _ _
      · exact hgother u hu hul
  | some pid =>
    set pfn : LayerRec → LayerRec :=
      fun l => if l.id = lid then { l with parent := some pid } else l with hpfn
    have hpfnname : ∀ l : LayerRec, (pfn l).name = l.name := by
      intro l
      simp only [hpfn]
      by_cases hc : l.id = lid
      · rw [if_pos hc]
      · rw [if_neg hc]
    have hpfnid : ∀ l : LayerRec, (pfn l).id = l.id := by
      intro l
      simp only [hpfn]
      by_cases hc : l.id = lid
      · rw [if_pos hc]
      · rw [if_neg hc]
    have hpfnother : ∀ x : LayerRec, ¬(x.id = lid) → pfn x = x := by
      intro x hx
      simp only [hpfn]
      rw [if_neg hx]
    have hpfnext : pfn (extractLayerPure (sfxOf dn) rootId l0)
        = { extractLayerPure (sfxOf dn) rootId l0 with parent := some pid } := by
      simp only [hpfn]
      rw [if_pos (by rw [extractLayerPure_id]; exact hid0)]
    have hlayers1 : (setLayerParent t lid (some pid)).layers = s.layers.map (pfn ∘ g) := by
      show t.layers.map pfn = _
      rw [hlayers]
      exact List.map_map _ _ _
    have hcompid : ∀ l : LayerRec, ((pfn ∘ g) l).id = l.id := by
      intro l
      simp only [Function.comp]
      rw [hpfnid, hgid]
    have hfind1 : findLayerById (setLayerParent t lid (some pid)) lid
        = some (pfn (g l0)) := by
      rw [findLayerById_of_layers_map hlayers1 hcompid, hfind]
      rfl
    have hred : restoreStep t (lid, l0.name, some pid)
        = (match findLayerById (setLayerParent t lid (some pid)) lid with
           | some l => if l.name = l0.name
                       then setLayerParent t lid (some pid)
                       else setLayerName (setLayerParent t lid (some pid)) lid l0.name
           | none => setLayerParent t lid (some pid)) := rfl
    rw [hrec, hpar0, hred, hfind1]
    show (if (pfn (g l0)).name = l0.name then _ else _) = _
    rw [hpfnname, hgl0]
    by_cases hcond : strEndsWith l0.name (sfxOf dn) = true ∧
        strDropSuffix l0.name (sfxOf dn) ≠ zeroStr
    · -- the extraction stripped the name; the rename back succeeds
      rw [if_neg (hnegen hcond.1 hcond.2)]
      have hguard1 : ((setLayerParent t lid (some pid)).layers.any
          (fun l => decide (l.name = l0.name))) = false := by
        rw [hlayers1]
        exact hguardgen hcond.1 hcond.2 (pfn ∘ g) (fun u _ => hpfnname _)
      unfold setLayerName
      rw [hguard1]
      simp only [Bool.false_eq_true, if_false, modifyLayer]
      refine sceneExt ?_ rfl rfl rfl rfl rfl rfl rfl
      show (setLayerParent t lid (some pid)).layers.map _ = _
      rw [hlayers1, List.map_map]
      refine List.map_congr_left ?_
      intro u hu
      simp only [Function.comp]
      by_cases hul : u.id = lid
      · have hueq : u = l0 :=
          List.inj_on_of_nodup_map hWF.idsNodup hu hmem0 (by rw [hul, hid0])
        rw [hueq, hgl0, hpfnext,
          if_pos (by rw [extractLayerPure_id]; exact hid0),
          if_neg (fun hc => hnr (hid0 ▸ hc))]
        refine layerRecExt ?_ rfl ?_ ?_
        · exact extractLayerPure_id _ _ _
        · show (some pid : Option Nat) = l0.parent
          rw [hpar0]
        · exact extractLayerPure_visible _ _ _
      · rw [hgother u hu hul, hpfnother _ (by rw [hiteid]; exact hul),
          if_neg (by rw [hiteid]; exact hul)]
    · -- the extraction left the name alone; only the parent is re-set
      have hex0 : (extractLayerPure (sfxOf dn) rootId l0).name = l0.name := by
        rw [extractLayerPure_name, if_neg hcond]
      rw [if_pos hex0]
      refine sceneExt ?_ rfl rfl rfl rfl rfl rfl rfl
      show t.layers.map pfn = _
      rw [hlayers, List.map_map]
      refine List.map_congr_left ?_
      intro u hu
      simp only [Function.comp]
      by_cases hul : u.id = lid
      · have hueq : u = l0 :=
          List.inj_on_of_nodup_map hWF.idsNodup hu hmem0 (by rw [hul, hid0])
        rw [hueq, hgl0, hpfnext, if_neg (fun hc => hnr (hid0 ▸ hc))]
        refine layerRecExt ?_ hex0 ?_ ?_
        · exact extractLayerPure_id _ _ _
        · show (some pid : Option Nat) = l0.parent
          rw [hpar0]
        · exact extractLayerPure_visible _ _ _
      · rw [hgother u hu hul, hpfnother _ (by rw [hiteid]; exact hul)]


/-- Folding the restore step over the recorded state map (in recording order)
puts every descendant's original `(name, parent)` back, so the layer list
returns to the original. -/
theorem restore_foldl_spec (s : Scene) (descs : List Nat) (rootId : Nat) (dn : Str)
    (hWF : SceneWF s) (hOK : ExtractOK s descs rootId dn) :
    ∀ (rest : List Nat) (t : Scene),
      (∀ i ∈ rest, i ∈ descs) → rest.Nodup →
      t.layers = s.layers.map (fun l =>
          if l.id ∈ rest then extractLayerPure (sfxOf dn) rootId l else l) →
      restoreLayers t (rest.map (layerRecOf s)) = { t with layers := s.layers } := by
  intro rest
  induction rest with
  | nil =>
    intro t _ _ hlayers
    show t = _
    refine sceneExt ?_ rfl rfl rfl rfl rfl rfl rfl
    show t.layers = s.layers
    rw [hlayers]
    simp
  | cons lid rest ih =>
    intro t hsubr hnd hlayers
    unfold restoreLayers
    rw [List.map_cons, List.foldl_cons,
      restoreStep_spec s descs rootId dn hWF hOK t lid rest
        (hsubr _ (List.mem_cons_self _ _))
        (fun i hi => hsubr i (List.mem_cons_of_mem _ hi))
        (List.nodup_cons.mp hnd).1 hlayers]
    have hstep := ih ({ t with layers := s.layers.map (fun l =>
        if l.id ∈ rest then extractLayerPure (sfxOf dn) rootId l else l) })
      (fun i hi => hsubr i (List.mem_cons_of_mem _ hi))
      (List.nodup_cons.mp hnd).2 rfl
    unfold restoreLayers at hstep
    exact hstep.trans (sceneExt rfl rfl rfl rfl rfl rfl rfl rfl)


theorem objRecExt {a b : ObjRec} (h1 : a.id = b.id) (h2 : a.layerId = b.layerId)
    (h3 : a.matId = b.matId) : a = b := by
  cases a
  cases b
  simp_all

/-- Moving every listed object onto one target layer, as a single map over the
object table. -/
theorem moveFold_to_spec (g0 : Nat) :
    ∀ (ps : List (Nat × Nat)) (t : Scene),
      ps.foldl (fun s p => addNodeToLayer s p.1 g0) t
        = { t with objs := t.objs.map (fun o =>
            if o.id ∈ ps.map Prod.fst then { o with layerId := g0 } else o) } := by
  intro ps
  induction ps with
  | nil =>
    intro t
    simp only [List.foldl_nil]
    refine sceneExt rfl ?_ rfl rfl rfl rfl rfl rfl
    show t.objs = _
    simp
  | cons p ps ih =>
    intro t
    rw [List.foldl_cons, ih]
    refine sceneExt rfl ?_ rfl rfl rfl rfl rfl rfl
    show (addNodeToLayer t p.1 g0).objs.map _ = _
    show (t.objs.map (fun o => if o.id = p.1 then { o with layerId := g0 } else o)).map _ = _
    rw [List.map_map]
    refine List.map_congr_left ?_
    intro o _
    simp only [Function.comp, List.map_cons, List.mem_cons]
    by_cases h1 : o.id = p.1 <;> by_cases h2 : o.id ∈ ps.map Prod.fst <;>
      simp [h1, h2]

/-- Moving the recorded objects back to their recorded layers restores the
original object table, given duplicate-free object ids and faithful records. -/
theorem moveFold_back_spec (s : Scene) (g0 : Nat) :
    ∀ (ps : List (Nat × Nat)) (t : Scene),
      ((ps.map Prod.fst).Nodup) →
      (∀ q ∈ ps, ∀ o ∈ s.objs, o.id = q.1 → o.layerId = q.2) →
      t.objs = s.objs.map (fun o =>
          if o.id ∈ ps.map Prod.fst then { o with layerId := g0 } else o) →
      ps.foldl (fun s p => addNodeToLayer s p.1 p.2) t = { t with objs := s.objs } := by
  intro ps
  induction ps with
  | nil =>
    intro t _ _ hobjs
    simp only [List.foldl_nil]
    refine sceneExt rfl ?_ rfl rfl rfl rfl rfl rfl
    show t.objs = s.objs
    rw [hobjs]
    simp
  | cons q ps ih =>
    intro t hnd hq hobjs
    rw [List.foldl_cons]
    have hnd' : (ps.map Prod.fst).Nodup := (List.nodup_cons.mp (by simpa using hnd)).2
    have hmid : addNodeToLayer t q.1 q.2 = { t with objs := s.objs.map (fun o =>
        if o.id ∈ ps.map Prod.fst then { o with layerId := g0 } else o) } := by
      refine sceneExt rfl ?_ rfl rfl rfl rfl rfl rfl
      show t.objs.map _ = _
      rw [hobjs, List.map_map]
      refine List.map_congr_left ?_
      intro o ho
      simp only [Function.comp, List.map_cons, List.mem_cons]
      by_cases h1 : o.id = q.1
      · have hl : o.layerId = q.2 := hq q (List.mem_cons_self _ _) o ho h1
        have hnp : o.id ∉ ps.map Prod.fst := by
          rw [h1]
          exact (List.nodup_cons.mp (by simpa using hnd)).1
        rw [if_pos (Or.inl h1), if_neg hnp,
          if_pos (show ({ o with layerId := g0 } : ObjRec).id = q.1 from h1)]
        refine objRecExt rfl ?_ rfl
        show q.2 = o.layerId
        rw [hl]
      · by_cases h2 : o.id ∈ ps.map Prod.fst <;> simp [h1, h2]
    rw [hmid]
    have hstep := ih ({ t with objs := s.objs.map (fun o =>
        if o.id ∈ ps.map Prod.fst then { o with layerId := g0 } else o) })
      hnd' (fun p hp => hq p (List.mem_cons_of_mem _ hp)) rfl
    exact hstep.trans (sceneExt rfl rfl rfl rfl rfl rfl rfl rfl)


/-- `extractLayers_spec`, restated over a scene whose object table was
altered first: the layer transform and the recorded state map only read the
(unchanged) layer list. -/
theorem extractLayers_spec_obj (s : Scene) (descs : List Nat) (rootId : Nat) (dn : Str)
    (hWF : SceneWF s) (hOK : ExtractOK s descs rootId dn) (X : List ObjRec) :
    extractLayers { s with objs := X } descs rootId dn
      = (applyExtractAt (sfxOf dn) rootId descs { s with objs := X },
         descs.map (layerRecOf s)) := by
  have h1 : SceneWF { s with objs := X } := ⟨hWF.1, hWF.2, hWF.3⟩
  have h2 : ExtractOK { s with objs := X } descs rootId dn := hOK
  rw [extractLayers_spec _ descs rootId dn h1 h2]
  rfl

/-- The restore loop applied to the cleared-selection extraction output. -/
theorem restoreLayers_clear (s : Scene) (descs : List Nat) (rootId : Nat) (dn : Str)
    (hWF : SceneWF s) (hOK : ExtractOK s descs rootId dn) (X : List ObjRec) :
    restoreLayers
        (clearSelection (applyExtractAt (sfxOf dn) rootId descs { s with objs := X }))
        (descs.map (layerRecOf s))
      = { clearSelection (applyExtractAt (sfxOf dn) rootId descs { s with objs := X })
            with layers := s.layers } :=
  restore_foldl_spec s descs rootId dn hWF hOK descs _ (fun i hi => hi) hOK.1 rfl

/-- The restore loop applied to the extraction output carrying the save
selection. -/
theorem restoreLayers_sel (s : Scene) (descs : List Nat) (rootId : Nat) (dn : Str)
    (hWF : SceneWF s) (hOK : ExtractOK s descs rootId dn) (X : List ObjRec)
    (nts : List Nat) :
    restoreLayers
        { clearSelection (applyExtractAt (sfxOf dn) rootId descs { s with objs := X })
            with sel := nts }
        (descs.map (layerRecOf s))
      = { ({ clearSelection (applyExtractAt (sfxOf dn) rootId descs { s with objs := X })
            with sel := nts } : Scene)
            with layers := s.layers } :=
  restore_foldl_spec s descs rootId dn hWF hOK descs _ (fun i hi => hi) hOK.1 rfl

/-- C2 (amended): `action_save_selected` on an existing root layer restores
the scene exactly — layers, objects and selection — provided the stripped
layer names are fresh (`ExtractOK`) and object ids are duplicate-free.  The
restore runs in forward recording order, not reverse, and without the
freshness proviso it is inexact (see the counterexample). -/
theorem claim_C2_roundtrip (s : Scene) (dn : Str) (root : LayerRec)
    (hfind : findLayerByName s dn = some root)
    (hWF : SceneWF s) (hobj : (s.objs.map (fun o => o.id)).Nodup)
    (hOK : ExtractOK s (collectDescendants s s.layers.length root.name) root.id dn) :
    (action_save_selected s dn).1 = s := by
  have hndAll : ∀ φ : ObjRec → Bool,
      (((s.objs.filter φ).map (fun o => (o.id, o.layerId))).map Prod.fst).Nodup := by
    intro φ
    rw [List.map_map]
    have hsub : ((s.objs.filter φ).map (Prod.fst ∘ fun o => (o.id, o.layerId))).Sublist
        (s.objs.map (fun o => o.id)) := by
      show ((s.objs.filter φ).map (fun o => o.id)).Sublist _
      exact (List.filter_sublist _).map _
    exact hsub.nodup hobj
  have hqAll : ∀ φ : ObjRec → Bool,
      ∀ q ∈ (s.objs.filter φ).map (fun o => (o.id, o.layerId)),
      ∀ o ∈ s.objs, o.id = q.1 → o.layerId = q.2 := by
    intro φ q hqm o ho hid
    rcases List.mem_map.mp hqm with ⟨o', ho', rfl⟩
    have ho'' : o' ∈ s.objs := List.mem_of_mem_filter ho'
    have heq : o = o' := List.inj_on_of_nodup_map hobj ho ho'' hid
    rw [heq]
  simp only [action_save_selected, hfind]
  rw [moveFold_to_spec,
    extractLayers_spec_obj s (collectDescendants s s.layers.length root.name)
      root.id dn hWF hOK]
  dsimp only
  split_ifs with hsel hni hni
  · rw [restoreLayers_clear s (collectDescendants s s.layers.length root.name)
        root.id dn hWF hOK,
      moveFold_back_spec s _ _ _ (hndAll _) (hqAll _) rfl]
    refine sceneExt rfl rfl rfl ?_ rfl rfl rfl rfl
    exact (List.isEmpty_iff.mp hsel).symm
  · rw [restoreLayers_sel s (collectDescendants s s.layers.length root.name)
        root.id dn hWF hOK,
      moveFold_back_spec s _ _ _ (hndAll _) (hqAll _) rfl]
    refine sceneExt rfl rfl rfl ?_ rfl rfl rfl rfl
    exact (List.isEmpty_iff.mp hsel).symm
  · rw [restoreLayers_clear s (collectDescendants s s.layers.length root.name)
        root.id dn hWF hOK,
      moveFold_back_spec s _ _ _ (hndAll _) (hqAll _) rfl]
    exact sceneExt rfl rfl rfl rfl rfl rfl rfl rfl
  · rw [restoreLayers_sel s (collectDescendants s s.layers.length root.name)
        root.id dn hWF hOK,
      moveFold_back_spec s _ _ _ (hndAll _) (hqAll _) rfl]
    exact sceneExt rfl rfl rfl rfl rfl rfl rfl rfl


set_option synthInstance.maxSize 4000 in
/-- Witness: on a concrete scene with a suffixed subtree layer and an object
parked off the root layer, the amended C2 hypotheses hold and the save is an
exact round trip. -/
theorem claim_C2_roundtrip_witness :
    findLayerByName wscC2 ['A']
        = some { id := 1, name := "A".data, parent := none, visible := true } ∧
    SceneWF wscC2 ∧ (wscC2.objs.map (fun o => o.id)).Nodup ∧
    ExtractOK wscC2 (collectDescendants wscC2 wscC2.layers.length "A".data) 1 ['A'] ∧
    (action_save_selected wscC2 ['A']).1 = wscC2 :=
  ⟨by decide, ⟨by decide, by decide, by decide⟩, by decide,
   by unfold ExtractOK; decide,
   claim_C2_roundtrip wscC2 ['A']
     { id := 1, name := "A".data, parent := none, visible := true }
     (by decide) ⟨by decide, by decide, by decide⟩ (by decide)
     (by unfold ExtractOK; decide)⟩

/-- C2 counterexample: on `cexC2` the stripped name of `"X (A) (A)"` collides
with the recorded name of `"X (A)"`, the forward-order restore of layer 2
hits the collision guard, and the scene after the save differs from the
original — layer 2 keeps the stripped name `"X"`. -/
theorem claim_C2_counterexample :
    (action_save_selected cexC2 ['A']).1.layers.map (fun l => l.name)
        = ["0".data, "A".data, "X".data, "X (A) (A)".data] ∧
    (action_save_selected cexC2 ['A']).1 ≠ cexC2 := by decide


/-! ### C1: the suffix-clash machinery -/

theorem strContains_rev_false {d : Str} (h : strContains d spaceParen = false) :
    strContains d.reverse ['(', ' '] = false := by
  cases hc : strContains d.reverse ['(', ' '] with
  | false => rfl
  | true =>
    exfalso
    rcases (strContains_iff _ _).1 hc with ⟨u, v, he⟩
    have h2 := congrArg List.reverse he
    simp only [List.reverse_reverse, List.reverse_append] at h2
    have hcd : strContains d spaceParen = true := by
      refine (strContains_iff _ _).2 ⟨v.reverse, u.reverse, ?_⟩
      rw [h2]
      show _ = v.reverse ++ [' ', '('] ++ u.reverse
      simp
    rw [hcd] at h
    exact Bool.noConfusion h

theorem headPat_cancel : ∀ (a b x y : Str),
    strContains a ['(', ' '] = false → strContains b ['(', ' '] = false →
    a ++ '(' :: ' ' :: x = b ++ '(' :: ' ' :: y → a = b ∧ x = y := by
  intro a
  induction a with
  | nil =>
    intro b x y _ hb h
    cases b with
    | nil => simpa using h
    | cons c b' =>
      simp only [List.nil_append, List.cons_append] at h
      injection h with h1 h2
      cases b' with
      | nil => simp at h2
      | cons c2 b'' =>
        injection h2 with h3 h4
        exfalso
        have hp : strContains (c :: c2 :: b'') ['(', ' '] = true :=
          strContains_of_startsWith (by simp [strStartsWith, ← h1, ← h3])
        rw [hp] at hb
        exact Bool.noConfusion hb
  | cons c a' ih =>
    intro b x y ha hb h
    cases b with
    | nil =>
      simp only [List.nil_append, List.cons_append] at h
      injection h with h1 h2
      cases a' with
      | nil => simp at h2
      | cons c2 a'' =>
        injection h2 with h3 h4
        exfalso
        have hp : strContains (c :: c2 :: a'') ['(', ' '] = true :=
          strContains_of_startsWith (by simp [strStartsWith, h1, h3])
        rw [hp] at ha
        exact Bool.noConfusion ha
    | cons c2 b' =>
      simp only [List.cons_append] at h
      injection h with h1 h2
      obtain ⟨hab, hxy⟩ := ih b' x y (strContains_tail_false ha)
        (strContains_tail_false hb) h2
      exact ⟨by rw [h1, hab], hxy⟩

theorem rev_append_sfx (w d : Str) :
    (w ++ sfxOf d).reverse = ')' :: (d.reverse ++ '(' :: ' ' :: w.reverse) := by
  simp [sfxOf, List.reverse_append]

/-- Two namespaced names coincide only when both the stem and the display
name coincide, as long as the display names are free of `" ("`. -/
theorem sfx_clash {u v d1 d2 : Str}
    (hd1 : strContains d1 spaceParen = false) (hd2 : strContains d2 spaceParen = false)
    (h : u ++ sfxOf d1 = v ++ sfxOf d2) : u = v ∧ d1 = d2 := by
  have hr := congrArg List.reverse h
  rw [rev_append_sfx, rev_append_sfx] at hr
  injection hr with _ h2
  obtain ⟨h3, h4⟩ := headPat_cancel d1.reverse d2.reverse u.reverse v.reverse
    (strContains_rev_false hd1) (strContains_rev_false hd2) h2
  exact ⟨List.reverse_injective h4, List.reverse_injective h3⟩

theorem strContains_append_sfx (u d : Str) :
    strContains (u ++ sfxOf d) spaceParen = true :=
  (strContains_iff _ _).2 ⟨u, d ++ [')'], by simp [sfxOf, spaceParen]⟩


theorem findLayerByName_eq_none_iff (s : Scene) (n : Str) :
    findLayerByName s n = none ↔ n ∉ s.layers.map (fun l => l.name) := by
  show s.layers.find? _ = none ↔ _
  rw [List.find?_eq_none]
  constructor
  · intro h hm
    rcases List.mem_map.mp hm with ⟨l, hl, rfl⟩
    have h2 := h l hl
    simp at h2
  · intro h l hl
    simp only [decide_eq_true_eq]
    intro he
    exact h (he ▸ List.mem_map_of_mem _ hl)

theorem findLayerByName_eq_some {s : Scene} {n : Str} {l : LayerRec}
    (h : findLayerByName s n = some l) : l ∈ s.layers ∧ l.name = n := by
  refine ⟨List.mem_of_find?_eq_some h, ?_⟩
  have := List.find?_some h
  simpa using this

/-- Under the loop invariant, every layer name is the default, a processed
base name, or a suffixed name of a processed origin. -/
theorem name_class {s : Scene} {done : List Str} (inv : RootsInv s done)
    {x : Str} (hx : x ∈ s.layers.map (fun l => l.name)) :
    x = zeroStr ∨ x ∈ done ∨ ∃ d ∈ done, ∃ u, x = u ++ sfxOf d := by
  rcases List.mem_map.mp hx with ⟨l, hl, rfl⟩
  rcases inv.shape l hl with h | h | ⟨⟨d, hd, he⟩, _⟩
  · exact Or.inl h
  · exact Or.inr (Or.inl h)
  · rcases (strEndsWith_iff _ _).1 he with ⟨t, ht⟩
    exact Or.inr (Or.inr ⟨d, hd, t, ht⟩)

/-- A name carrying the fresh origin's suffix cannot be in the scene yet. -/
theorem fresh_sfx_name {s : Scene} {done : List Str} (inv : RootsInv s done)
    (hdone : ∀ d ∈ done, GoodName d) {dn : Str} (hdn : GoodName dn) (hnot : dn ∉ done)
    (u : Str) : (u ++ sfxOf dn) ∉ s.layers.map (fun l => l.name) := by
  intro hm
  rcases name_class inv hm with h | h | ⟨d, hd, t, ht⟩
  · have h1 := strContains_append_sfx u dn
    rw [h] at h1
    exact absurd h1 (by decide)
  · have h1 := strContains_append_sfx u dn
    rw [(hdone _ h).2] at h1
    exact Bool.noConfusion h1
  · obtain ⟨_, hdd⟩ := sfx_clash hdn.2 (hdone d hd).2 ht
    exact hnot (by rw [hdd]; exact hd)

/-- The fresh origin's base name itself cannot be in the scene yet. -/
theorem fresh_plain_name {s : Scene} {done : List Str} (inv : RootsInv s done)
    (hdone : ∀ d ∈ done, GoodName d) {dn : Str} (hdn : GoodName dn) (hnot : dn ∉ done) :
    dn ∉ s.layers.map (fun l => l.name) := by
  intro hm
  rcases name_class inv hm with h | h | ⟨d, hd, t, ht⟩
  · exact hdn.1 h
  · exact hnot h
  · have h1 := strContains_append_sfx t d
    rw [← ht, hdn.2] at h1
    exact Bool.noConfusion h1


theorem mergeCreate_foldl (s1 : Scene) :
    ∀ (fls : List FileLayer), (∀ fl ∈ fls, strContains fl.fname spaceParen = false) →
    ∀ (added : List LayerRec) (nl : Nat),
      SceneWF { s1 with layers := s1.layers ++ added, nextLayerId := nl } →
      (∀ l ∈ added, l.parent = none ∧ strContains l.name spaceParen = false ∧
        l.name ∉ s1.layers.map (fun x => x.name)) →
      ∃ added2 nl2,
        fls.foldl mergeCreateStep
          ({ s1 with layers := s1.layers ++ added, nextLayerId := nl },
            added.map (fun l => l.id))
          = ({ s1 with layers := s1.layers ++ added2, nextLayerId := nl2 },
             added2.map (fun l => l.id)) ∧
        SceneWF { s1 with layers := s1.layers ++ added2, nextLayerId := nl2 } ∧
        (∀ l ∈ added2, l.parent = none ∧ strContains l.name spaceParen = false ∧
          l.name ∉ s1.layers.map (fun x => x.name)) := by
  intro fls
  induction fls with
  | nil =>
    intro _ added nl hwf hprops
    exact ⟨added, nl, by rw [List.foldl_nil], hwf, hprops⟩
  | cons fl fls ih =>
    intro hclean added nl hwf hprops
    rw [List.foldl_cons]
    cases hfind : findLayerByName
        { s1 with layers := s1.layers ++ added, nextLayerId := nl } fl.fname with
    | some l =>
      have hstep : mergeCreateStep
          ({ s1 with layers := s1.layers ++ added, nextLayerId := nl },
            added.map (fun l => l.id)) fl
          = ({ s1 with layers := s1.layers ++ added, nextLayerId := nl },
            added.map (fun l => l.id)) := by
        unfold mergeCreateStep
        rw [hfind]
      rw [hstep]
      exact ih (fun x hx => hclean x (List.mem_cons_of_mem _ hx)) added nl hwf hprops
    | none =>
      have hnotin : fl.fname ∉ (s1.layers ++ added).map (fun x => x.name) :=
        (findLayerByName_eq_none_iff _ _).1 hfind
      set newL : LayerRec :=
        { id := nl, name := fl.fname, parent := none, visible := true } with hnewL
      have hstep : mergeCreateStep
          ({ s1 with layers := s1.layers ++ added, nextLayerId := nl },
            added.map (fun l => l.id)) fl
          = ({ s1 with layers := s1.layers ++ (added ++ [newL]), nextLayerId := nl + 1 },
            (added ++ [newL]).map (fun l => l.id)) := by
        unfold mergeCreateStep
        rw [hfind]
        show ({ s1 with
            layers := (s1.layers ++ added) ++ [newL], nextLayerId := nl + 1 },
          added.map (fun l => l.id) ++ [nl]) = _
        refine Prod.ext ?_ ?_
        · show ({ s1 with
              layers := (s1.layers ++ added) ++ [newL], nextLayerId := nl + 1 } : Scene) = _
          refine sceneExt ?_ rfl rfl rfl rfl rfl rfl rfl
          show (s1.layers ++ added) ++ [newL] = s1.layers ++ (added ++ [newL])
          rw [List.append_assoc]
        · show added.map (fun l => l.id) ++ [nl] = _
          rw [List.map_append]
          rfl
      rw [hstep]
      have hbound : ∀ i ∈ (s1.layers ++ added).map (fun l => l.id), i < nl := by
        intro i hi
        rcases List.mem_map.mp hi with ⟨l, hl, rfl⟩
        exact hwf.idsBound l hl
      have hwf2 : SceneWF { s1 with
          layers := s1.layers ++ (added ++ [newL]), nextLayerId := nl + 1 } := by
        refine ⟨?_, ?_, ?_⟩
        · show ((s1.layers ++ (added ++ [newL])).map (fun l => l.id)).Nodup
          rw [← List.append_assoc, List.map_append]
          rw [List.nodup_append]
          refine ⟨hwf.idsNodup, by simp, ?_⟩
          intro i hi hmem
          have : i = nl := by simpa [hnewL] using hmem
          exact absurd (hbound i hi) (by rw [this]; exact lt_irrefl _)
        · intro l hl
          rw [← List.append_assoc] at hl
          rcases List.mem_append.mp hl with h | h
          · have h2 : l.id < nl := hwf.idsBound l h
            show l.id < nl + 1
            omega
          · have : l = newL := by simpa using h
            rw [this]
            show nl < nl + 1
            omega
        · show ((s1.layers ++ (added ++ [newL])).map (fun l => l.name)).Nodup
          rw [← List.append_assoc, List.map_append]
          rw [List.nodup_append]
          refine ⟨hwf.namesNodup, by simp, ?_⟩
          intro x hx hmem
          have : x = fl.fname := by simpa [hnewL] using hmem
          exact hnotin (this ▸ hx)
      have hprops2 : ∀ l ∈ added ++ [newL], l.parent = none ∧
          strContains l.name spaceParen = false ∧
          l.name ∉ s1.layers.map (fun x => x.name) := by
        intro l hl
        rcases List.mem_append.mp hl with h | h
        · exact hprops l h
        · have : l = newL := by simpa using h
          rw [this]
          refine ⟨rfl, hclean fl (List.mem_cons_self _ _), ?_⟩
          intro hm
          exact hnotin (by
            rw [List.map_append]
            exact List.mem_append_left _ hm)
      exact ih (fun x hx => hclean x (List.mem_cons_of_mem _ hx))
        (added ++ [newL]) (nl + 1) hwf2 hprops2

/-- Phase B of one import: merging creates one fresh, parentless layer per
file layer name not already present; everything else is untouched. -/
theorem mergeCreateLayers_spec (s1 : Scene) (f : MaxFile) (hwf : SceneWF s1)
    (hclean : ∀ fl ∈ f.layers, strContains fl.fname spaceParen = false) :
    ∃ (added : List LayerRec) (nl2 : Nat),
      mergeCreateLayers s1 f
        = ({ s1 with layers := s1.layers ++ added, nextLayerId := nl2 },
           added.map (fun l => l.id)) ∧
      SceneWF { s1 with layers := s1.layers ++ added, nextLayerId := nl2 } ∧
      (∀ l ∈ added, l.parent = none ∧ strContains l.name spaceParen = false ∧
        l.name ∉ s1.layers.map (fun x => x.name)) := by
  have hinit : SceneWF { s1 with layers := s1.layers ++ [], nextLayerId := s1.nextLayerId } := by
    refine ⟨?_, ?_, ?_⟩
    · show ((s1.layers ++ []).map (fun l : LayerRec => l.id)).Nodup
      rw [List.append_nil]
      exact hwf.idsNodup
    · intro l hl
      rw [List.append_nil] at hl
      exact hwf.idsBound l hl
    · show ((s1.layers ++ []).map (fun l : LayerRec => l.name)).Nodup
      rw [List.append_nil]
      exact hwf.namesNodup
  obtain ⟨added2, nl2, heq, hwf2, hprops2⟩ :=
    mergeCreate_foldl s1 f.layers hclean [] s1.nextLayerId hinit (by intro l hl; simp at hl)
  refine ⟨added2, nl2, ?_, hwf2, hprops2⟩
  show f.layers.foldl mergeCreateStep (s1, []) = _
  have hbase : (s1, ([] : List Nat))
      = ({ s1 with layers := s1.layers ++ [], nextLayerId := s1.nextLayerId },
         List.map (fun l : LayerRec => l.id) []) := by
    refine Prod.ext ?_ rfl
    show s1 = _
    refine sceneExt ?_ rfl rfl rfl rfl rfl rfl rfl
    rw [List.append_nil]
  rw [hbase]
  exact heq


theorem mergeLinkStep_spec (created : List Nat) (s : Scene) (fl : FileLayer) :
    ∃ g : LayerRec → LayerRec,
      mergeLinkStep created s fl = { s with layers := s.layers.map g } ∧
      (∀ l, (g l).id = l.id) ∧ (∀ l, (g l).name = l.name) ∧
      (∀ l, (g l).visible = l.visible) ∧
      (∀ l : LayerRec, l.id ∉ created → g l = l) := by
  have hid : ∃ g : LayerRec → LayerRec,
      s = { s with layers := s.layers.map g } ∧
      (∀ l, (g l).id = l.id) ∧ (∀ l, (g l).name = l.name) ∧
      (∀ l, (g l).visible = l.visible) ∧
      (∀ l : LayerRec, l.id ∉ created → g l = l) := by
    refine ⟨fun l => l, ?_, fun _ => rfl, fun _ => rfl, fun _ => rfl, fun _ _ => rfl⟩
    refine sceneExt ?_ rfl rfl rfl rfl rfl rfl rfl
    simp
  unfold mergeLinkStep
  cases hf : findLayerByName s fl.fname with
  | none => exact hid
  | some l =>
    dsimp only
    by_cases hc : l.id ∈ created
    · rw [if_pos hc]
      cases hp : fl.fparent with
      | none => exact hid
      | some pn =>
        dsimp only
        cases hf2 : findLayerByName s pn with
        | none => exact hid
        | some p =>
          dsimp only
          refine ⟨fun x => if x.id = l.id then { x with parent := some p.id } else x,
            rfl, ?_, ?_, ?_, ?_⟩
          · intro x
            dsimp only
            by_cases hx : x.id = l.id
            · rw [if_pos hx]
            · rw [if_neg hx]
          · intro x
            dsimp only
            by_cases hx : x.id = l.id
            · rw [if_pos hx]
            · rw [if_neg hx]
          · intro x
            dsimp only
            by_cases hx : x.id = l.id
            · rw [if_pos hx]
            · rw [if_neg hx]
          · intro x hx
            dsimp only
            rw [if_neg (fun he : x.id = l.id => hx (he ▸ hc))]
    · rw [if_neg hc]
      exact hid

theorem mergeLink_foldl (created : List Nat) :
    ∀ (fls : List FileLayer) (s : Scene),
      ∃ g : LayerRec → LayerRec,
        fls.foldl (mergeLinkStep created) s = { s with layers := s.layers.map g } ∧
        (∀ l, (g l).id = l.id) ∧ (∀ l, (g l).name = l.name) ∧
        (∀ l, (g l).visible = l.visible) ∧
        (∀ l : LayerRec, l.id ∉ created → g l = l) := by
  intro fls
  induction fls with
  | nil =>
    intro s
    refine ⟨fun l => l, ?_, fun _ => rfl, fun _ => rfl, fun _ => rfl, fun _ _ => rfl⟩
    rw [List.foldl_nil]
    refine sceneExt ?_ rfl rfl rfl rfl rfl rfl rfl
    simp
  | cons fl fls ih =>
    intro s
    rw [List.foldl_cons]
    obtain ⟨g1, h1, h1id, h1name, h1vis, h1out⟩ := mergeLinkStep_spec created s fl
    obtain ⟨g2, h2, h2id, h2name, h2vis, h2out⟩ := ih (mergeLinkStep created s fl)
    refine ⟨fun l => g2 (g1 l), ?_, ?_, ?_, ?_, ?_⟩
    · rw [h2, h1]
      refine sceneExt ?_ rfl rfl rfl rfl rfl rfl rfl
      show (s.layers.map g1).map g2 = _
      rw [List.map_map]
      rfl
    · intro l
      dsimp only
      rw [h2id, h1id]
    · intro l
      dsimp only
      rw [h2name, h1name]
    · intro l
      dsimp only
      rw [h2vis, h1vis]
    · intro l hl
      dsimp only
      rw [h1out l hl, h2out l hl]

theorem mergeLinkParents_spec (s : Scene) (f : MaxFile) (created : List Nat) :
    ∃ g : LayerRec → LayerRec,
      mergeLinkParents s f created = { s with layers := s.layers.map g } ∧
      (∀ l, (g l).id = l.id) ∧ (∀ l, (g l).name = l.name) ∧
      (∀ l, (g l).visible = l.visible) ∧
      (∀ l : LayerRec, l.id ∉ created → g l = l) :=
  mergeLink_foldl created f.layers s

theorem mergeObj_foldl :
    ∀ (fos : List FileObj) (st : MergeSt),
      ∃ objs mats no nm,
        (fos.foldl mergeObjStep st).scene
          = { st.scene with objs := objs, mats := mats, nextObjId := no, nextMatId := nm } := by
  intro fos
  induction fos with
  | nil =>
    intro st
    refine ⟨st.scene.objs, st.scene.mats, st.scene.nextObjId, st.scene.nextMatId, ?_⟩
    rw [List.foldl_nil]
  | cons fo fos ih =>
    intro st
    rw [List.foldl_cons]
    obtain ⟨objs, mats, no, nm, h⟩ := ih (mergeObjStep st fo)
    refine ⟨objs, mats, no, nm, ?_⟩
    rw [h]
    have hstep : (mergeObjStep st fo).scene.layers = st.scene.layers ∧
        (mergeObjStep st fo).scene.sel = st.scene.sel ∧
        (mergeObjStep st fo).scene.currentLayer = st.scene.currentLayer ∧
        (mergeObjStep st fo).scene.nextLayerId = st.scene.nextLayerId := by
      unfold mergeObjStep
      cases fo.fmat with
      | none => exact ⟨rfl, rfl, rfl, rfl⟩
      | some mn =>
        dsimp only
        cases st.matMap.find? (fun p => decide (p.1 = mn)) with
        | some p => exact ⟨rfl, rfl, rfl, rfl⟩
        | none => exact ⟨rfl, rfl, rfl, rfl⟩
    exact sceneExt hstep.1 rfl rfl hstep.2.1 hstep.2.2.1 hstep.2.2.2 rfl rfl

/-- `rt.mergeMaxFile` in one statement: fresh clean parentless-or-relinked
layers appended, parents of pre-existing layers untouched, everything else
only in the object/material/selection compartments. -/
theorem mergeMaxFile_spec (s1 : Scene) (f : MaxFile) (hwf : SceneWF s1)
    (hclean : ∀ fl ∈ f.layers, strContains fl.fname spaceParen = false) :
    ∃ (added : List LayerRec) (g : LayerRec → LayerRec)
      (objs : List ObjRec) (mats : List MatRec) (sel : List Nat) (nl2 no nm : Nat),
      mergeMaxFile s1 f
        = { layers := (s1.layers ++ added).map g, objs := objs, mats := mats,
            sel := sel, currentLayer := s1.currentLayer,
            nextLayerId := nl2, nextObjId := no, nextMatId := nm } ∧
      (∀ l, (g l).id = l.id) ∧ (∀ l, (g l).name = l.name) ∧
      (∀ l : LayerRec, l.id ∉ added.map (fun x => x.id) → g l = l) ∧
      SceneWF (mergeMaxFile s1 f) ∧
      (∀ l ∈ added, strContains l.name spaceParen = false ∧
        l.name ∉ s1.layers.map (fun x => x.name)) := by
  obtain ⟨added, nl2, hB, hBwf, hBprops⟩ := mergeCreateLayers_spec s1 f hwf hclean
  obtain ⟨g, hC, hCid, hCname, hCvis, hCout⟩ :=
    mergeLinkParents_spec (mergeCreateLayers s1 f).1 f (mergeCreateLayers s1 f).2
  obtain ⟨objs, mats, no, nm, hD⟩ :=
    mergeObj_foldl f.objs
      { scene := mergeLinkParents (mergeCreateLayers s1 f).1 f (mergeCreateLayers s1 f).2,
        newObjs := [], matMap := [] }
  have hfinal : mergeMaxFile s1 f
      = { (f.objs.foldl mergeObjStep
            { scene := mergeLinkParents (mergeCreateLayers s1 f).1 f (mergeCreateLayers s1 f).2,
              newObjs := [], matMap := [] }).scene
          with sel := (f.objs.foldl mergeObjStep
            { scene := mergeLinkParents (mergeCreateLayers s1 f).1 f (mergeCreateLayers s1 f).2,
              newObjs := [], matMap := [] }).newObjs } := rfl
  refine ⟨added, g, objs, mats,
    (f.objs.foldl mergeObjStep
      { scene := mergeLinkParents (mergeCreateLayers s1 f).1 f (mergeCreateLayers s1 f).2,
        newObjs := [], matMap := [] }).newObjs, nl2, no, nm, ?_, hCid, hCname, ?_, ?_, ?_⟩
  · rw [hfinal, hD, hC, hB]
  · intro l hl
    refine hCout l ?_
    rw [hB]
    exact hl
  · have hwfB1 : SceneWF (mergeCreateLayers s1 f).1 := by
      rw [hB]
      exact hBwf
    have hwfC : SceneWF (mergeLinkParents (mergeCreateLayers s1 f).1 f
        (mergeCreateLayers s1 f).2) := by
      rw [hC]
      exact sceneWF_map_pres _ g hCid hCname hwfB1
    refine sceneWF_of_eq hwfC ?_ ?_
    · rw [hfinal, hD]
    · rw [hfinal, hD]
  · intro l hl
    exact ⟨(hBprops l hl).2.1, (hBprops l hl).2.2⟩


theorem renameMat_foldl (suffix : Str) : ∀ (ids : List Nat) (s : Scene),
    ∃ mats, ids.foldl (renameMatStep suffix) s = { s with mats := mats } := by
  intro ids
  induction ids with
  | nil =>
    intro s
    exact ⟨s.mats, by rw [List.foldl_nil]⟩
  | cons i ids ih =>
    intro s
    rw [List.foldl_cons]
    obtain ⟨mats, h⟩ := ih (renameMatStep suffix s i)
    refine ⟨mats, ?_⟩
    rw [h]
    exact sceneExt rfl rfl rfl rfl rfl rfl rfl rfl

theorem renameMergedMaterials_spec (s : Scene) (hex8 : Str) :
    ∃ mats, renameMergedMaterials s hex8 = { s with mats := mats } :=
  renameMat_foldl _ (mergedMatIds s) s

theorem addNodeFold_objs (k : Nat) : ∀ (oids : List Nat) (t : Scene),
    ∃ objs, oids.foldl (fun s oid => addNodeToLayer s oid k) t = { t with objs := objs } := by
  intro oids
  induction oids with
  | nil =>
    intro t
    exact ⟨t.objs, by rw [List.foldl_nil]⟩
  | cons oid oids ih =>
    intro t
    rw [List.foldl_cons]
    obtain ⟨objs, h⟩ := ih (addNodeToLayer t oid k)
    refine ⟨objs, ?_⟩
    rw [h]
    exact sceneExt rfl rfl rfl rfl rfl rfl rfl rfl

/-- Phase F of one import: either nothing happens, or a single fresh layer
named `"0 (<displayName>)"` parented under the root is appended and some
objects move (object table only). -/
theorem handleLayerZeroObjs_spec (s : Scene) (rootId : Nat) (dn : Str)
    (hnf : findLayerByName s (layer0Name dn) = none) (hwf : SceneWF s) :
    ∃ (zext : List LayerRec) (objs : List ObjRec) (nl : Nat),
      handleLayerZeroObjs s rootId dn
        = { s with layers := s.layers ++ zext, objs := objs, nextLayerId := nl } ∧
      SceneWF (handleLayerZeroObjs s rootId dn) ∧
      (∀ l ∈ zext, l.name = layer0Name dn ∧ l.parent = some rootId) := by
  unfold handleLayerZeroObjs
  by_cases he : (s.sel.filter (fun oid =>
      match s.objs.find? (fun o => decide (o.id = oid)) with
      | some o => decide (objLayerName s o = ['0'])
      | none => false)).isEmpty = true
  · rw [if_pos he]
    refine ⟨[], s.objs, s.nextLayerId, ?_, hwf, by intro l hl; simp at hl⟩
    refine sceneExt ?_ rfl rfl rfl rfl rfl rfl rfl
    rw [List.append_nil]
  · rw [if_neg he]
    have hget : getOrCreateLayer s (layer0Name dn)
        = ({ s with
            layers := s.layers ++
              [{ id := s.nextLayerId, name := layer0Name dn, parent := none, visible := true }],
            nextLayerId := s.nextLayerId + 1 }, s.nextLayerId) := by
      unfold getOrCreateLayer
      rw [hnf]
      rfl
    rw [hget]
    have hpar : setLayerParent
        ({ s with
            layers := s.layers ++
              [{ id := s.nextLayerId, name := layer0Name dn, parent := none, visible := true }],
            nextLayerId := s.nextLayerId + 1 } : Scene) s.nextLayerId (some rootId)
        = { s with
            layers := s.layers ++
              [{ id := s.nextLayerId, name := layer0Name dn, parent := some rootId, visible := true }],
            nextLayerId := s.nextLayerId + 1 } := by
      refine sceneExt ?_ rfl rfl rfl rfl rfl rfl rfl
      rw [setLayerParent_layers]
      show (s.layers ++ [_]).map _ = _
      rw [List.map_append]
      refine congrArg₂ _ ?_ ?_
      · refine (List.map_congr_left ?_).trans (List.map_id _)
        intro l hl
        have hb := hwf.idsBound l hl
        rw [if_neg (show ¬(l.id = s.nextLayerId) by omega)]
        rfl
      · rw [List.map_cons, List.map_nil]
        rw [if_pos rfl]
    dsimp only
    rw [hpar]
    obtain ⟨objs, hobjs⟩ := addNodeFold_objs s.nextLayerId
      (s.sel.filter (fun oid =>
        match s.objs.find? (fun o => decide (o.id = oid)) with
        | some o => decide (objLayerName s o = ['0'])
        | none => false))
      ({ s with
          layers := s.layers ++
            [{ id := s.nextLayerId, name := layer0Name dn, parent := some rootId, visible := true }],
          nextLayerId := s.nextLayerId + 1 } : Scene)
    rw [hobjs]
    refine ⟨[{ id := s.nextLayerId, name := layer0Name dn, parent := some rootId, visible := true }],
      objs, s.nextLayerId + 1,
      sceneExt rfl rfl rfl rfl rfl rfl rfl rfl, ?_, ?_⟩
    · refine sceneWF_of_eq ?_ rfl rfl
      refine ⟨?_, ?_, ?_⟩
      · show ((s.layers ++ [_]).map (fun l : LayerRec => l.id)).Nodup
        rw [List.map_append, List.nodup_append]
        refine ⟨hwf.idsNodup, by simp, ?_⟩
        intro i hi hmem
        rcases List.mem_map.mp hi with ⟨l, hl, rfl⟩
        have hb := hwf.idsBound l hl
        have : l.id = s.nextLayerId := by simpa using hmem
        omega
      · intro l hl
        rcases List.mem_append.mp hl with h | h
        · have := hwf.idsBound l h
          show l.id < s.nextLayerId + 1
          omega
        · have : l = { id := s.nextLayerId, name := layer0Name dn, parent := some rootId, visible := true } := by
            simpa using h
          rw [this]
          show s.nextLayerId < s.nextLayerId + 1
          omega
      · show ((s.layers ++ [_]).map (fun l : LayerRec => l.name)).Nodup
        rw [List.map_append, List.nodup_append]
        refine ⟨hwf.namesNodup, by simp, ?_⟩
        intro x hx hmem
        have : x = layer0Name dn := by simpa using hmem
        exact (findLayerByName_eq_none_iff _ _).1 hnf (this ▸ hx)
    · intro l hl
      have : l = { id := s.nextLayerId, name := layer0Name dn, parent := some rootId, visible := true } := by
        simpa using hl
      rw [this]
      exact ⟨rfl, rfl⟩


theorem collisionStep_spec (rootId : Nat) (dn : Str) (s : Scene) (ln : Str)
    (hwf : SceneWF s) :
    ∃ (ext : List LayerRec) (objs : List ObjRec) (nl : Nat),
      collisionStep rootId dn s ln
        = { s with layers := s.layers ++ ext, objs := objs, nextLayerId := nl } ∧
      SceneWF (collisionStep rootId dn s ln) ∧
      (∀ l ∈ ext, (∃ u, l.name = u ++ sfxOf dn) ∧ l.parent = some rootId) := by
  have hid : ∀ t : Scene, t = s →
      (t = { s with layers := s.layers ++ [], objs := s.objs, nextLayerId := s.nextLayerId }) := by
    intro t ht
    rw [ht]
    refine sceneExt ?_ rfl rfl rfl rfl rfl rfl rfl
    rw [List.append_nil]
  unfold collisionStep
  by_cases h0 : decide (ln = ['0']) = true
  · rw [if_pos h0]
    exact ⟨[], s.objs, s.nextLayerId, hid s rfl, hwf, by intro l hl; simp at hl⟩
  · rw [if_neg h0]
    by_cases he : (s.sel.filter (fun oid =>
        match s.objs.find? (fun o => decide (o.id = oid)) with
        | some o => decide (objLayerName s o = ln)
        | none => false)).isEmpty = true
    · rw [if_pos he]
      exact ⟨[], s.objs, s.nextLayerId, hid s rfl, hwf, by intro l hl; simp at hl⟩
    · rw [if_neg he]
      cases hf : findLayerByName s (ln ++ sfxOf dn) with
      | some ul =>
        dsimp only
        obtain ⟨objs, hobjs⟩ := addNodeFold_objs ul.id
          (s.sel.filter (fun oid =>
            match s.objs.find? (fun o => decide (o.id = oid)) with
            | some o => decide (objLayerName s o = ln)
            | none => false)) s
        rw [hobjs]
        refine ⟨[], objs, s.nextLayerId, ?_, ?_, by intro l hl; simp at hl⟩
        · refine sceneExt ?_ rfl rfl rfl rfl rfl rfl rfl
          rw [List.append_nil]
        · exact sceneWF_of_eq hwf rfl rfl
      | none =>
        dsimp only
        have hnotin : (ln ++ sfxOf dn) ∉ layerNames s := find_none_not_mem_names hf
        have hpar : setLayerParent
            ({ s with
                layers := s.layers ++
                  [{ id := s.nextLayerId, name := ln ++ sfxOf dn, parent := none, visible := true }],
                nextLayerId := s.nextLayerId + 1 } : Scene) s.nextLayerId (some rootId)
            = { s with
                layers := s.layers ++
                  [{ id := s.nextLayerId, name := ln ++ sfxOf dn, parent := some rootId, visible := true }],
                nextLayerId := s.nextLayerId + 1 } := by
          refine sceneExt ?_ rfl rfl rfl rfl rfl rfl rfl
          rw [setLayerParent_layers]
          show (s.layers ++ [_]).map _ = _
          rw [List.map_append]
          refine congrArg₂ _ ?_ ?_
          · refine (List.map_congr_left ?_).trans (List.map_id _)
            intro l hl
            have hb := hwf.idsBound l hl
            rw [if_neg (show ¬(l.id = s.nextLayerId) by omega)]
            rfl
          · rw [List.map_cons, List.map_nil]
            rw [if_pos rfl]
        rw [show (newLayerFromName s (ln ++ sfxOf dn) none).2 = s.nextLayerId from rfl,
          show (newLayerFromName s (ln ++ sfxOf dn) none).1
            = ({ s with
                layers := s.layers ++
                  [{ id := s.nextLayerId, name := ln ++ sfxOf dn, parent := none, visible := true }],
                nextLayerId := s.nextLayerId + 1 } : Scene) from rfl,
          hpar]
        obtain ⟨objs, hobjs⟩ := addNodeFold_objs s.nextLayerId
          (s.sel.filter (fun oid =>
            match s.objs.find? (fun o => decide (o.id = oid)) with
            | some o => decide (objLayerName s o = ln)
            | none => false))
          ({ s with
              layers := s.layers ++
                [{ id := s.nextLayerId, name := ln ++ sfxOf dn, parent := some rootId, visible := true }],
              nextLayerId := s.nextLayerId + 1 } : Scene)
        rw [hobjs]
        refine ⟨[{ id := s.nextLayerId, name := ln ++ sfxOf dn, parent := some rootId, visible := true }],
          objs, s.nextLayerId + 1,
          sceneExt rfl rfl rfl rfl rfl rfl rfl rfl, ?_, ?_⟩
        · refine sceneWF_of_eq ?_ rfl rfl
          refine ⟨?_, ?_, ?_⟩
          · show ((s.layers ++ [_]).map (fun l : LayerRec => l.id)).Nodup
            rw [List.map_append, List.nodup_append]
            refine ⟨hwf.idsNodup, by simp, ?_⟩
            intro i hi hmem
            rcases List.mem_map.mp hi with ⟨l, hl, rfl⟩
            have hb := hwf.idsBound l hl
            have : l.id = s.nextLayerId := by simpa using hmem
            omega
          · intro l hl
            rcases List.mem_append.mp hl with h | h
            · have := hwf.idsBound l h
              show l.id < s.nextLayerId + 1
              omega
            · have : l = { id := s.nextLayerId, name := ln ++ sfxOf dn, parent := some rootId, visible := true } := by
                simpa using h
              rw [this]
              show s.nextLayerId < s.nextLayerId + 1
              omega
          · show ((s.layers ++ [_]).map (fun l : LayerRec => l.name)).Nodup
            rw [List.map_append, List.nodup_append]
            refine ⟨hwf.namesNodup, by simp, ?_⟩
            intro x hx hmem
            have : x = ln ++ sfxOf dn := by simpa using hmem
            exact hnotin (this ▸ hx)
        · intro l hl
          have : l = { id := s.nextLayerId, name := ln ++ sfxOf dn, parent := some rootId, visible := true } := by
            simpa using hl
          rw [this]
          exact ⟨⟨ln, rfl⟩, rfl⟩

theorem handleCollisions_foldl (rootId : Nat) (dn : Str) :
    ∀ (snap : List Str) (s : Scene), SceneWF s →
      ∃ (ext : List LayerRec) (objs : List ObjRec) (nl : Nat),
        snap.foldl (collisionStep rootId dn) s
          = { s with layers := s.layers ++ ext, objs := objs, nextLayerId := nl } ∧
        SceneWF (snap.foldl (collisionStep rootId dn) s) ∧
        (∀ l ∈ ext, (∃ u, l.name = u ++ sfxOf dn) ∧ l.parent = some rootId) := by
  intro snap
  induction snap with
  | nil =>
    intro s hwf
    refine ⟨[], s.objs, s.nextLayerId, ?_, by rw [List.foldl_nil]; exact hwf,
      by intro l hl; simp at hl⟩
    rw [List.foldl_nil]
    refine sceneExt ?_ rfl rfl rfl rfl rfl rfl rfl
    rw [List.append_nil]
  | cons ln snap ih =>
    intro s hwf
    rw [List.foldl_cons]
    obtain ⟨ext1, objs1, nl1, h1, hwf1, hprops1⟩ := collisionStep_spec rootId dn s ln hwf
    obtain ⟨ext2, objs2, nl2, h2, hwf2, hprops2⟩ := ih (collisionStep rootId dn s ln) hwf1
    refine ⟨ext1 ++ ext2, objs2, nl2, ?_, hwf2, ?_⟩
    · rw [h2, h1]
      refine sceneExt ?_ rfl rfl rfl rfl rfl rfl rfl
      show (s.layers ++ ext1) ++ ext2 = _
      rw [List.append_assoc]
    · intro l hl
      rcases List.mem_append.mp hl with h | h
      · exact hprops1 l h
      · exact hprops2 l h

/-- Phase I of one import: the collision loop only appends suffixed layers
parented under the root (besides object moves). -/
theorem handleCollisions_spec (s : Scene) (snapshot : List Str) (rootId : Nat) (dn : Str)
    (hwf : SceneWF s) :
    ∃ (ext : List LayerRec) (objs : List ObjRec) (nl : Nat),
      handleCollisions s snapshot rootId dn
        = { s with layers := s.layers ++ ext, objs := objs, nextLayerId := nl } ∧
      SceneWF (handleCollisions s snapshot rootId dn) ∧
      (∀ l ∈ ext, (∃ u, l.name = u ++ sfxOf dn) ∧ l.parent = some rootId) :=
  handleCollisions_foldl rootId dn snapshot s hwf


theorem rootNames_map_pres (L : List LayerRec) (h : LayerRec → LayerRec)
    (hname : ∀ l, (h l).name = l.name) (hpar : ∀ l, (h l).parent = l.parent) :
    ((L.map h).filter isRootLayer).map (fun l => l.name)
      = (L.filter isRootLayer).map (fun l => l.name) := by
  rw [List.filter_map, List.map_map]
  have hp : (isRootLayer ∘ h) = isRootLayer := by
    funext l
    show isRootLayer (h l) = isRootLayer l
    unfold isRootLayer
    rw [hpar l, hname l]
  rw [hp]
  exact List.map_congr_left (fun l _ => hname l)

theorem sceneWF_renameNewStep (newIds : List Nat) (rootId : Nat) (dn : Str)
    (s : Scene) (lid : Nat) (h : SceneWF s) :
    SceneWF (renameNewStep newIds rootId dn s lid) := by
  unfold renameNewStep
  cases hf : findLayerById s lid with
  | none => exact h
  | some l =>
    dsimp only
    split_ifs
    · exact sceneWF_setLayerName s lid _ h
    · exact sceneWF_setLayerParent _ lid _ (sceneWF_setLayerName s lid _ h)

theorem sceneWF_renameNewLayers (s : Scene) (newIds : List Nat) (rootId : Nat) (dn : Str)
    (h : SceneWF s) : SceneWF (renameNewLayers s newIds rootId dn) := by
  unfold renameNewLayers
  have haux : ∀ (ids : List Nat) (t : Scene), SceneWF t →
      SceneWF (ids.foldl (renameNewStep newIds rootId dn) t) := by
    intro ids
    induction ids with
    | nil =>
      intro t ht
      rw [List.foldl_nil]
      exact ht
    | cons i ids ih =>
      intro t ht
      rw [List.foldl_cons]
      exact ih _ (sceneWF_renameNewStep newIds rootId dn t i ht)
  exact haux newIds s h


/-- One `import_single_scene` call preserves the loop invariant, adding the
file's base name as exactly one new root. -/
theorem import_single_scene_spec (s0 : Scene) (f : MaxFile) (hex8 : Str) (idx : Nat)
    (done : List Str)
    (hwf : SceneWF s0) (hinv : RootsInv s0 done)
    (hdone : ∀ d ∈ done, GoodName d)
    (hdn : GoodName f.baseName) (hnotin : f.baseName ∉ done)
    (hclean : ∀ fl ∈ f.layers, strContains fl.fname spaceParen = false) :
    SceneWF (import_single_scene s0 f hex8 idx false) ∧
    RootsInv (import_single_scene s0 f hex8 idx false) (done ++ [f.baseName]) := by
  set dn := f.baseName with hdnv
  set R : LayerRec :=
    { id := s0.nextLayerId, name := dn, parent := none, visible := true } with hR
  set S1 : Scene :=
    { s0 with
      layers := s0.layers ++ [R],
      currentLayer := some s0.nextLayerId,
      nextLayerId := s0.nextLayerId + 1 } with hS1
  have hfind0 : findLayerByName s0 dn = none :=
    (findLayerByName_eq_none_iff _ _).2 (fresh_plain_name hinv hdone hdn hnotin)
  have hget0 : getOrCreateLayer s0 dn
      = (({ s0 with
            layers := s0.layers ++ [R],
            nextLayerId := s0.nextLayerId + 1 } : Scene), s0.nextLayerId) := by
    unfold getOrCreateLayer
    rw [hfind0]
    rfl
  have hwfS1 : SceneWF S1 := by
    refine sceneWF_of_eq (sceneWF_newLayerFromName s0 dn none hwf
      (find_none_not_mem_names hfind0)) rfl rfl
  obtain ⟨A, g, objsM, matsM, selM, nlM, noM, nmM, heqM, hgid, hgname, hgout, hwfM, hAprops⟩ :=
    mergeMaxFile_spec S1 f hwfS1 hclean
  have heqM2 : mergeMaxFile S1 f
      = { layers := ((s0.layers ++ [R]) ++ A).map g, objs := objsM, mats := matsM,
          sel := selM, currentLayer := some s0.nextLayerId,
          nextLayerId := nlM, nextObjId := noM, nextMatId := nmM } := by
    rw [heqM]
  have hidcomm : ∀ L : List LayerRec,
      (L.map g).map (fun l => l.id) = L.map (fun l => l.id) := by
    intro L
    rw [List.map_map]
    exact List.map_congr_left (fun l _ => hgid l)
  have hnamecomm : ∀ L : List LayerRec,
      (L.map g).map (fun l => l.name) = L.map (fun l => l.name) := by
    intro L
    rw [List.map_map]
    exact List.map_congr_left (fun l _ => hgname l)
  have hnodupIds : (((s0.layers ++ [R]) ++ A).map (fun l => l.id)).Nodup := by
    have h1 := hwfM.idsNodup
    rw [heqM2] at h1
    have h2 : ((((s0.layers ++ [R]) ++ A).map g).map (fun l => l.id)).Nodup := h1
    rw [hidcomm] at h2
    exact h2
  have hdisjA : ∀ l ∈ s0.layers ++ [R], l.id ∉ A.map (fun x => x.id) := by
    have h1 := hnodupIds
    rw [List.map_append, List.nodup_append] at h1
    intro l hl
    exact h1.2.2 (List.mem_map_of_mem _ hl)
  have hANodup : (A.map (fun x => x.id)).Nodup := by
    have h1 := hnodupIds
    rw [List.map_append, List.nodup_append] at h1
    exact h1.2.1
  have hAnot : ∀ a ∈ A, a.name ∉ s0.layers.map (fun l => l.name) ++ [dn] := by
    intro a ha hc
    refine (hAprops a ha).2 ?_
    show a.name ∈ (s0.layers ++ [R]).map (fun l => l.name)
    rw [List.map_append]
    exact hc
  have hAclean : ∀ a ∈ A, strContains a.name spaceParen = false :=
    fun a ha => (hAprops a ha).1
  obtain ⟨matsE, heqE⟩ := renameMergedMaterials_spec
    ({ layers := ((s0.layers ++ [R]) ++ A).map g, objs := objsM, mats := matsM,
       sel := selM, currentLayer := some s0.nextLayerId,
       nextLayerId := nlM, nextObjId := noM, nextMatId := nmM } : Scene) hex8
  have heqE2 : renameMergedMaterials
      ({ layers := ((s0.layers ++ [R]) ++ A).map g, objs := objsM, mats := matsM,
         sel := selM, currentLayer := some s0.nextLayerId,
         nextLayerId := nlM, nextObjId := noM, nextMatId := nmM } : Scene) hex8
      = { layers := ((s0.layers ++ [R]) ++ A).map g, objs := objsM, mats := matsE,
          sel := selM, currentLayer := some s0.nextLayerId,
          nextLayerId := nlM, nextObjId := noM, nextMatId := nmM } := by
    rw [heqE]
  have hwfSE : SceneWF
      ({ layers := ((s0.layers ++ [R]) ++ A).map g, objs := objsM, mats := matsE,
         sel := selM, currentLayer := some s0.nextLayerId,
         nextLayerId := nlM, nextObjId := noM, nextMatId := nmM } : Scene) := by
    have h1 := hwfM
    rw [heqM2] at h1
    exact sceneWF_of_eq h1 rfl rfl
  have hlay0 : layer0Name dn = ['0'] ++ sfxOf dn := rfl
  have hcontains0 : strContains (layer0Name dn) spaceParen = true := by
    rw [hlay0]
    exact strContains_append_sfx _ _
  have hnfF : findLayerByName
      ({ layers := ((s0.layers ++ [R]) ++ A).map g, objs := objsM, mats := matsE,
         sel := selM, currentLayer := some s0.nextLayerId,
         nextLayerId := nlM, nextObjId := noM, nextMatId := nmM } : Scene)
      (layer0Name dn) = none := by
    refine (findLayerByName_eq_none_iff _ _).2 ?_
    show layer0Name dn ∉ (((s0.layers ++ [R]) ++ A).map g).map (fun l => l.name)
    rw [hnamecomm, List.map_append, List.map_append]
    intro hc
    rcases List.mem_append.mp hc with hc1 | hc2
    · rcases List.mem_append.mp hc1 with hc3 | hc4
      · exact fresh_sfx_name hinv hdone hdn hnotin ['0'] (hlay0 ▸ hc3)
      · have : layer0Name dn = dn := by simpa [hR] using hc4
        rw [← this] at hdn
        rw [hdn.2] at hcontains0
        exact Bool.noConfusion hcontains0
    · rcases List.mem_map.mp hc2 with ⟨a, ha, hav⟩
      rw [← hav, hAclean a ha] at hcontains0
      exact Bool.noConfusion hcontains0
  obtain ⟨Z, objsF, nlF, heqF, hwfF, hZprops⟩ := handleLayerZeroObjs_spec
    ({ layers := ((s0.layers ++ [R]) ++ A).map g, objs := objsM, mats := matsE,
       sel := selM, currentLayer := some s0.nextLayerId,
       nextLayerId := nlM, nextObjId := noM, nextMatId := nmM } : Scene)
    s0.nextLayerId dn hnfF hwfSE
  have hgfix : (s0.layers ++ [R]).map g = s0.layers ++ [R] := by
    refine (List.map_congr_left ?_).trans (List.map_id _)
    intro l hl
    rw [hgout l (hdisjA l hl)]
    rfl
  set S4 : Scene :=
    { layers := (s0.layers ++ [R]) ++ A.map g ++ Z, objs := objsF, mats := matsE,
      sel := selM, currentLayer := some s0.nextLayerId,
      nextLayerId := nlF, nextObjId := noM, nextMatId := nmM } with hS4
  have heqF2 : handleLayerZeroObjs
      ({ layers := ((s0.layers ++ [R]) ++ A).map g, objs := objsM, mats := matsE,
         sel := selM, currentLayer := some s0.nextLayerId,
         nextLayerId := nlM, nextObjId := noM, nextMatId := nmM } : Scene)
      s0.nextLayerId dn = S4 := by
    rw [heqF]
    refine sceneExt ?_ rfl rfl rfl rfl rfl rfl rfl
    show ((s0.layers ++ [R]) ++ A).map g ++ Z = _
    rw [List.map_append, hgfix]
  have hwfS4 : SceneWF S4 := by
    have h1 := hwfF
    rw [heqF2] at h1
    exact h1
  have hmid : import_mid s0 f hex8
      = (S4, s0.nextLayerId, s0.layers.map (fun l => l.name) ++ [dn]) := by
    unfold import_mid
    rw [hget0]
    show (handleLayerZeroObjs (renameMergedMaterials (mergeMaxFile S1 f) hex8)
        s0.nextLayerId dn, s0.nextLayerId, layerNames S1) = _
    rw [heqM2, heqE2, heqF2]
    refine congrArg₂ _ rfl (congrArg₂ _ rfl ?_)
    show (s0.layers ++ [R]).map (fun l => l.name) = _
    rw [List.map_append]
    rfl
  have hnew : computeNewIds S4 (s0.layers.map (fun l => l.name) ++ [dn]) dn
      = A.map (fun x => x.id) := by
    unfold computeNewIds
    show (((s0.layers ++ [R]) ++ A.map g ++ Z).filter _).map _ = _
    rw [List.filter_append, List.filter_append]
    have h1 : (s0.layers ++ [R]).filter (fun l =>
        !decide (l.name = ['0']) && !decide (l.name = dn) &&
        !decide (l.name = layer0Name dn) &&
        !decide (l.name ∈ s0.layers.map (fun l => l.name) ++ [dn])) = [] := by
      rw [List.filter_eq_nil_iff]
      intro l hl
      rcases List.mem_append.mp hl with h | h
      · have hm : l.name ∈ s0.layers.map (fun l => l.name) ++ [dn] :=
          List.mem_append_left _ (List.mem_map_of_mem _ h)
        simp [hm]
      · have : l = R := by simpa using h
        rw [this]
        simp [hR]
    have h2 : (A.map g).filter (fun l =>
        !decide (l.name = ['0']) && !decide (l.name = dn) &&
        !decide (l.name = layer0Name dn) &&
        !decide (l.name ∈ s0.layers.map (fun l => l.name) ++ [dn])) = A.map g := by
      rw [List.filter_eq_self]
      intro x hx
      rcases List.mem_map.mp hx with ⟨a, ha, rfl⟩
      have hnm := hAnot a ha
      have hn0 : ¬((g a).name = ['0']) := by
        rw [hgname a]
        intro hc
        exact hnm (List.mem_append_left _ (hc ▸ hinv.zeroMem))
      have hnd : ¬((g a).name = dn) := by
        rw [hgname a]
        intro hc
        exact hnm (List.mem_append_right _ (by simp [hc]))
      have hnl0 : ¬((g a).name = layer0Name dn) := by
        rw [hgname a]
        intro hc
        rw [← hc, hAclean a ha] at hcontains0
        exact Bool.noConfusion hcontains0
      have hns : ¬((g a).name ∈ s0.layers.map (fun l => l.name) ++ [dn]) := by
        rw [hgname a]
        exact hnm
      simp [hn0, hnd, hnl0, hns]
    have h3 : Z.filter (fun l =>
        !decide (l.name = ['0']) && !decide (l.name = dn) &&
        !decide (l.name = layer0Name dn) &&
        !decide (l.name ∈ s0.layers.map (fun l => l.name) ++ [dn])) = [] := by
      rw [List.filter_eq_nil_iff]
      intro l hl
      simp [(hZprops l hl).1]
    rw [h1, h2, h3, List.nil_append, List.append_nil]
    exact hidcomm A
  have hZdisj : ∀ l ∈ Z, l.id ∉ A.map (fun x => x.id) := by
    have h1 := hwfS4.idsNodup
    have h2 : (((s0.layers ++ [R]) ++ A.map g ++ Z).map (fun l => l.id)).Nodup := h1
    rw [List.map_append, List.map_append, hidcomm] at h2
    rw [List.nodup_append] at h2
    intro l hl hc
    exact h2.2.2 (List.mem_append_right _ hc) (List.mem_map_of_mem _ hl)
  have hsub : ∀ i ∈ A.map (fun x => x.id), i ∈ S4.layers.map (fun l => l.id) := by
    intro i hi
    show i ∈ ((s0.layers ++ [R]) ++ A.map g ++ Z).map (fun l => l.id)
    rw [List.map_append, List.map_append, hidcomm]
    exact List.mem_append_left _ (List.mem_append_right _ hi)
  have hfresh : ∀ l ∈ S4.layers, l.id ∈ A.map (fun x => x.id) →
      (l.name ++ sfxOf dn) ∉ S4.layers.map (fun l => l.name) := by
    intro l hl hid0
    have hl' : l ∈ A.map g := by
      rcases List.mem_append.mp hl with h1 | h1
      · rcases List.mem_append.mp h1 with h2 | h2
        · exact absurd hid0 (hdisjA l h2)
        · exact h2
      · exact absurd hid0 (hZdisj l h1)
    rcases List.mem_map.mp hl' with ⟨a, ha, rfl⟩
    rw [hgname a]
    show a.name ++ sfxOf dn ∉ ((s0.layers ++ [R]) ++ A.map g ++ Z).map (fun l => l.name)
    rw [List.map_append, List.map_append, hnamecomm, List.map_append]
    intro hc
    have hcontains : strContains (a.name ++ sfxOf dn) spaceParen = true :=
      strContains_append_sfx _ _
    rcases List.mem_append.mp hc with hc1 | hcZ
    · rcases List.mem_append.mp hc1 with hc2 | hcA
      · rcases List.mem_append.mp hc2 with hc0 | hcR
        · exact fresh_sfx_name hinv hdone hdn hnotin a.name hc0
        · have hcd : a.name ++ sfxOf dn = dn := by simpa [hR] using hcR
          rw [hcd, hdn.2] at hcontains
          exact Bool.noConfusion hcontains
      · rcases List.mem_map.mp hcA with ⟨a2, ha2, hav⟩
        rw [← hav, hAclean a2 ha2] at hcontains
        exact Bool.noConfusion hcontains
    · rcases List.mem_map.mp hcZ with ⟨z, hz, hzv⟩
      have hzn := (hZprops z hz).1
      rw [hzn, hlay0] at hzv
      have ha0 : a.name = ['0'] := List.append_cancel_right hzv.symm
      refine hAnot a ha (List.mem_append_left _ ?_)
      rw [ha0]
      exact hinv.zeroMem
  have heqH := renameNewLayers_spec S4 (A.map (fun x => x.id)) s0.nextLayerId dn
    hwfS4 hANodup hsub hfresh
  set rni : LayerRec → LayerRec := fun l =>
    if l.id ∈ A.map (fun x => x.id)
    then renameLayerPure (sfxOf dn) s0.nextLayerId (A.map (fun x => x.id)) l
    else l with hrni
  have hrniout : ∀ l : LayerRec, l.id ∉ A.map (fun x => x.id) → rni l = l := by
    intro l hl
    simp only [hrni]
    rw [if_neg hl]
  have hS5layers : S4.layers.map rni = (s0.layers ++ [R]) ++ (A.map g).map rni ++ Z := by
    show ((s0.layers ++ [R]) ++ A.map g ++ Z).map rni = _
    rw [List.map_append, List.map_append]
    refine congrArg₂ _ (congrArg₂ _ ?_ rfl) ?_
    · refine (List.map_congr_left ?_).trans (List.map_id _)
      intro l hl
      rw [hrniout l (hdisjA l hl)]
      rfl
    · refine (List.map_congr_left ?_).trans (List.map_id _)
      intro l hl
      rw [hrniout l (hZdisj l hl)]
      rfl
  have heqH2 : renameNewLayers S4 (A.map (fun x => x.id)) s0.nextLayerId dn
      = ({ S4 with layers := (s0.layers ++ [R]) ++ (A.map g).map rni ++ Z } : Scene) := by
    rw [heqH]
    refine sceneExt ?_ rfl rfl rfl rfl rfl rfl rfl
    exact hS5layers
  have hwfS5 : SceneWF ({ S4 with
      layers := (s0.layers ++ [R]) ++ (A.map g).map rni ++ Z } : Scene) := by
    have h1 := sceneWF_renameNewLayers S4 (A.map (fun x => x.id)) s0.nextLayerId dn hwfS4
    rw [heqH2] at h1
    exact h1
  obtain ⟨C, objsC, nlC, heqI, hwfI, hCprops⟩ := handleCollisions_spec
    ({ S4 with layers := (s0.layers ++ [R]) ++ (A.map g).map rni ++ Z } : Scene)
    (s0.layers.map (fun l => l.name) ++ [dn]) s0.nextLayerId dn hwfS5
  have hfin : import_single_scene s0 f hex8 idx false
      = setLayerVisible
          (handleCollisions
            ({ S4 with layers := (s0.layers ++ [R]) ++ (A.map g).map rni ++ Z } : Scene)
            (s0.layers.map (fun l => l.name) ++ [dn]) s0.nextLayerId dn)
          s0.nextLayerId (decide (idx = 0)) := by
    unfold import_single_scene
    rw [hmid]
    dsimp only
    rw [hnew, heqH2]
    simp only [Bool.false_eq_true, if_false]
  have hwfFin : SceneWF (import_single_scene s0 f hex8 idx false) := by
    rw [hfin]
    exact sceneWF_setLayerVisible _ _ _ hwfI
  set visfn : LayerRec → LayerRec := fun l =>
    if l.id = s0.nextLayerId then { l with visible := decide (idx = 0) } else l with hvisfn
  have hvisname : ∀ l : LayerRec, (visfn l).name = l.name := by
    intro l
    simp only [hvisfn]
    by_cases hx : l.id = s0.nextLayerId
    · rw [if_pos hx]
    · rw [if_neg hx]
  have hvispar : ∀ l : LayerRec, (visfn l).parent = l.parent := by
    intro l
    simp only [hvisfn]
    by_cases hx : l.id = s0.nextLayerId
    · rw [if_pos hx]
    · rw [if_neg hx]
  have hfinlayers : (import_single_scene s0 f hex8 idx false).layers
      = ((((s0.layers ++ [R]) ++ (A.map g).map rni ++ Z) ++ C).map visfn) := by
    rw [hfin, heqI]
    rfl
  have hRroot : isRootLayer R = true := by
    simp [isRootLayer, hR, hdn.1]
  have hyroot : ∀ y ∈ (A.map g).map rni, isRootLayer y = false := by
    intro y hy
    rcases List.mem_map.mp hy with ⟨x, hx, rfl⟩
    rcases List.mem_map.mp hx with ⟨a, ha, rfl⟩
    have hmem : (g a).id ∈ A.map (fun x => x.id) := by
      rw [hgid]
      exact List.mem_map_of_mem _ ha
    simp only [hrni]
    rw [if_pos hmem]
    unfold renameLayerPure isRootLayer
    cases (g a).parent with
    | none => rfl
    | some pid =>
      dsimp only
      by_cases hp : pid ∈ A.map (fun x => x.id)
      · rw [if_pos hp]
        rfl
      · rw [if_neg hp]
        rfl
  have hzroot : ∀ z ∈ Z, isRootLayer z = false := by
    intro z hz
    simp [isRootLayer, (hZprops z hz).2]
  have hcroot : ∀ c ∈ C, isRootLayer c = false := by
    intro c hc
    simp [isRootLayer, (hCprops c hc).2]
  refine ⟨hwfFin, ?_, ?_, ?_⟩
  · -- zeroMem
    rcases List.mem_map.mp hinv.zeroMem with ⟨l0, hl0, hl0n⟩
    show zeroStr ∈ (import_single_scene s0 f hex8 idx false).layers.map (fun l => l.name)
    rw [hfinlayers]
    have hmem : l0 ∈ (((s0.layers ++ [R]) ++ (A.map g).map rni ++ Z) ++ C) :=
      List.mem_append_left _ (List.mem_append_left _ (List.mem_append_left _
        (List.mem_append_left _ hl0)))
    refine List.mem_map.mpr ⟨visfn l0, List.mem_map_of_mem _ hmem, ?_⟩
    rw [hvisname l0, hl0n]
  · -- rootsEq
    show rootNamesOf (import_single_scene s0 f hex8 idx false) = done ++ [dn]
    unfold rootNamesOf
    rw [hfinlayers]
    rw [rootNames_map_pres _ visfn hvisname hvispar]
    have hys : List.filter isRootLayer ((A.map g).map rni) = [] := by
      rw [List.filter_eq_nil_iff]
      intro y hy
      rw [hyroot y hy]
      exact Bool.noConfusion
    have hzs : List.filter isRootLayer Z = [] := by
      rw [List.filter_eq_nil_iff]
      intro z hz
      rw [hzroot z hz]
      exact Bool.noConfusion
    have hcs : List.filter isRootLayer C = [] := by
      rw [List.filter_eq_nil_iff]
      intro c hc
      rw [hcroot c hc]
      exact Bool.noConfusion
    rw [List.filter_append, List.filter_append, List.filter_append, List.filter_append,
      hys, hzs, hcs, List.append_nil, List.append_nil, List.append_nil, List.map_append]
    refine congrArg₂ _ ?_ ?_
    · exact hinv.rootsEq
    · simp [List.filter_cons, hRroot, hR]
  · -- shape
    intro l hl
    rw [hfinlayers] at hl
    rcases List.mem_map.mp hl with ⟨m, hm, rfl⟩
    rw [hvisname m, hvispar m]
    rcases List.mem_append.mp hm with hm1 | hmC
    · rcases List.mem_append.mp hm1 with hm2 | hmZ
      · rcases List.mem_append.mp hm2 with hmX | hmY
        · rcases List.mem_append.mp hmX with hms0 | hmR
          · rcases hinv.shape m hms0 with h | h | ⟨⟨d, hd, he⟩, hp⟩
            · exact Or.inl h
            · exact Or.inr (Or.inl (List.mem_append_left _ h))
            · exact Or.inr (Or.inr ⟨⟨d, List.mem_append_left _ hd, he⟩, hp⟩)
          · have hmr : m = R := by simpa using hmR
            rw [hmr]
            exact Or.inr (Or.inl (List.mem_append_right _ (List.mem_singleton.mpr rfl)))
        · rcases List.mem_map.mp hmY with ⟨x, hx, rfl⟩
          rcases List.mem_map.mp hx with ⟨a, ha, rfl⟩
          have hmem : (g a).id ∈ A.map (fun x => x.id) := by
            rw [hgid]
            exact List.mem_map_of_mem _ ha
          refine Or.inr (Or.inr ⟨⟨dn, List.mem_append_right _ (List.mem_singleton.mpr rfl), ?_⟩, ?_⟩)
          · simp only [hrni]
            rw [if_pos hmem]
            show strEndsWith ((g a).name ++ sfxOf dn) (sfxOf dn) = true
            exact strEndsWith_append _ _
          · simp only [hrni]
            rw [if_pos hmem]
            show (renameLayerPure (sfxOf dn) s0.nextLayerId (A.map (fun x => x.id)) (g a)).parent ≠ none
            unfold renameLayerPure
            cases (g a).parent with
            | none => simp
            | some pid =>
              dsimp only
              by_cases hp : pid ∈ A.map (fun x => x.id)
              · rw [if_pos hp]
                simp
              · rw [if_neg hp]
                simp
      · refine Or.inr (Or.inr ⟨⟨dn, List.mem_append_right _ (List.mem_singleton.mpr rfl), ?_⟩, ?_⟩)
        · rw [(hZprops m hmZ).1, hlay0]
          exact strEndsWith_append _ _
        · rw [(hZprops m hmZ).2]
          simp
    · obtain ⟨⟨u, hu⟩, hp⟩ := hCprops m hmC
      refine Or.inr (Or.inr ⟨⟨dn, List.mem_append_right _ (List.mem_singleton.mpr rfl), ?_⟩, ?_⟩)
      · rw [hu]
        exact strEndsWith_append _ _
      · rw [hp]
        simp



/-! ### C1: `merge_all_scenes` root-layer bookkeeping -/

theorem rootsInv_freshScene : RootsInv freshScene [] :=
  ⟨by decide, by decide, by decide⟩

theorem visupd_name (i : Nat) (v : Bool) (l : LayerRec) :
    (if l.id = i then ({ l with visible := v } : LayerRec) else l).name = l.name := by
  by_cases hx : l.id = i
  · rw [if_pos hx]
  · rw [if_neg hx]

theorem visupd_parent (i : Nat) (v : Bool) (l : LayerRec) :
    (if l.id = i then ({ l with visible := v } : LayerRec) else l).parent = l.parent := by
  by_cases hx : l.id = i
  · rw [if_pos hx]
  · rw [if_neg hx]

theorem visflip_roots (s : Scene) (i : Nat) (v : Bool) :
    rootNamesOf (setLayerVisible s i v) = rootNamesOf s := by
  unfold rootNamesOf
  rw [show (setLayerVisible s i v).layers
      = s.layers.map (fun l => if l.id = i then { l with visible := v } else l) from rfl]
  exact rootNames_map_pres s.layers _ (fun l => visupd_name i v l)
    (fun l => visupd_parent i v l)

theorem visflip_names (s : Scene) (i : Nat) (v : Bool) :
    (setLayerVisible s i v).layers.map (fun l => l.name)
      = s.layers.map (fun l => l.name) := by
  rw [show (setLayerVisible s i v).layers
      = s.layers.map (fun l => if l.id = i then { l with visible := v } else l) from rfl,
    List.map_map]
  exact List.map_congr_left (fun l _ => visupd_name i v l)

/-- One pass of the switch loop changes only visibility, the current mark and
the selection: root names, the name list and well-formedness all survive. -/
theorem switchStep_pres (target : Str) (s : Scene) (nm : Str) :
    rootNamesOf (switchStep target s nm) = rootNamesOf s
    ∧ (switchStep target s nm).layers.map (fun l => l.name)
        = s.layers.map (fun l => l.name)
    ∧ (SceneWF s → SceneWF (switchStep target s nm)) := by
  unfold switchStep
  cases hf : findLayerByName s nm with
  | none => exact ⟨rfl, rfl, fun h => h⟩
  | some l =>
    dsimp only
    by_cases ht : nm = target
    · rw [if_pos ht]
      refine ⟨?_, ?_, ?_⟩
      · have h1 : rootNamesOf (setCurrentLayer (setLayerVisible s l.id true) l.id)
            = rootNamesOf (setLayerVisible s l.id true) := rfl
        rw [h1, visflip_roots]
      · have h1 : (setCurrentLayer (setLayerVisible s l.id true) l.id).layers
            = (setLayerVisible s l.id true).layers := rfl
        rw [h1, visflip_names]
      · intro h
        exact sceneWF_setCurrentLayer _ _ (sceneWF_setLayerVisible _ _ _ h)
    · rw [if_neg ht]
      exact ⟨visflip_roots s l.id false, visflip_names s l.id false,
        fun h => sceneWF_setLayerVisible _ _ _ h⟩

theorem switch_fold_pres (target : Str) (entries : List Str) :
    ∀ s : Scene,
    rootNamesOf (entries.foldl (switchStep target) s) = rootNamesOf s
    ∧ (entries.foldl (switchStep target) s).layers.map (fun l => l.name)
        = s.layers.map (fun l => l.name)
    ∧ (SceneWF s → SceneWF (entries.foldl (switchStep target) s)) := by
  induction entries with
  | nil =>
    intro s
    exact ⟨rfl, rfl, fun h => h⟩
  | cons nm rest ih =>
    intro s
    rw [List.foldl_cons]
    obtain ⟨h1, h2, h3⟩ := ih (switchStep target s nm)
    obtain ⟨g1, g2, g3⟩ := switchStep_pres target s nm
    exact ⟨h1.trans g1, h2.trans g2, fun h => h3 (g3 h)⟩

/-- `_perform_scene_switch` never touches layer names, parents or the layer
list itself — only visibility, current mark and selection. -/
theorem perform_scene_switch_pres (s : Scene) (entries : List Str) (target : Str) :
    rootNamesOf (perform_scene_switch s entries target) = rootNamesOf s
    ∧ (perform_scene_switch s entries target).layers.map (fun l => l.name)
        = s.layers.map (fun l => l.name)
    ∧ (SceneWF s → SceneWF (perform_scene_switch s entries target)) := by
  unfold perform_scene_switch
  obtain ⟨h1, h2, h3⟩ := switch_fold_pres target entries (clearSelection s)
  have hr : rootNamesOf (clearSelection s) = rootNamesOf s := rfl
  have hn : (clearSelection s).layers.map (fun l => l.name)
      = s.layers.map (fun l => l.name) := rfl
  exact ⟨h1.trans hr, h2.trans hn, fun h => h3 (sceneWF_clearSelection s h)⟩

/-- The import fold of `merge_all_scenes` keeps the loop invariant, appending
one root per processed file. -/
theorem import_fold_inv (hexes : Nat → Str) :
    ∀ (files : List MaxFile) (k : Nat) (s : Scene) (done : List Str),
    SceneWF s → RootsInv s done → (∀ d ∈ done, GoodName d) →
    (∀ f ∈ files, GoodName f.baseName) →
    (done ++ files.map (fun f => f.baseName)).Nodup →
    (∀ f ∈ files, ∀ fl ∈ f.layers, strContains fl.fname spaceParen = false) →
    SceneWF ((files.enumFrom k).foldl
      (fun s p => import_single_scene s p.2 (hexes p.1) p.1 false) s)
    ∧ RootsInv ((files.enumFrom k).foldl
        (fun s p => import_single_scene s p.2 (hexes p.1) p.1 false) s)
        (done ++ files.map (fun f => f.baseName)) := by
  intro files
  induction files with
  | nil =>
    intro k s done hwf hinv _ _ _ _
    rw [List.map_nil, List.append_nil]
    exact ⟨hwf, hinv⟩
  | cons f fs ih =>
    intro k s done hwf hinv hdone hgood hnodup hclean
    have hnodup2 : (done ++ f.baseName :: fs.map (fun f => f.baseName)).Nodup := hnodup
    have hnotin : f.baseName ∉ done := fun hc =>
      (List.nodup_append.mp hnodup2).2.2 hc (List.mem_cons_self _ _)
    have hstep := import_single_scene_spec s f (hexes k) k done hwf hinv hdone
      (hgood f (List.mem_cons_self _ _)) hnotin (hclean f (List.mem_cons_self _ _))
    have hdone' : ∀ d ∈ done ++ [f.baseName], GoodName d := by
      intro d hd
      rcases List.mem_append.mp hd with h | h
      · exact hdone d h
      · rw [List.mem_singleton.mp h]
        exact hgood f (List.mem_cons_self _ _)
    have hgood' : ∀ x ∈ fs, GoodName x.baseName :=
      fun x hx => hgood x (List.mem_cons_of_mem _ hx)
    have hclean' : ∀ x ∈ fs, ∀ fl ∈ x.layers, strContains fl.fname spaceParen = false :=
      fun x hx => hclean x (List.mem_cons_of_mem _ hx)
    have hnodup' : ((done ++ [f.baseName]) ++ fs.map (fun f => f.baseName)).Nodup := by
      rw [List.append_assoc, List.singleton_append]
      exact hnodup2
    have hres := ih (k + 1) (import_single_scene s f (hexes k) k false)
      (done ++ [f.baseName]) hstep.1 hstep.2 hdone' hgood' hnodup' hclean'
    rw [show List.enumFrom k (f :: fs) = (k, f) :: List.enumFrom (k + 1) fs from rfl,
      List.foldl_cons]
    refine ⟨hres.1, ?_⟩
    have h2 := hres.2
    rw [List.append_assoc, List.singleton_append] at h2
    exact h2

/-- C1: merging N origin files with pairwise-distinct clean base names (and
layer names free of the suffix pattern) leaves exactly the N root layers,
named by the base names in order, and all layer names distinct.  (The spec
states this for arbitrary origin lists; with duplicate base names it fails —
see the counterexample — so the distinctness hypotheses are required.) -/
theorem claim_C1 (s : Scene) (files : List MaxFile) (hexes : Nat → Str)
    (hne : files ≠ [])
    (hgood : ∀ f ∈ files, GoodName f.baseName)
    (hnodup : (files.map (fun f => f.baseName)).Nodup)
    (hclean : ∀ f ∈ files, ∀ fl ∈ f.layers, strContains fl.fname spaceParen = false) :
    rootNamesOf (merge_all_scenes s files hexes) = files.map (fun f => f.baseName)
    ∧ ((merge_all_scenes s files hexes).layers.map (fun l => l.name)).Nodup := by
  cases files with
  | nil => exact absurd rfl hne
  | cons f0 fs =>
    obtain ⟨hwf1, hinv1⟩ := import_fold_inv hexes (f0 :: fs) 0 freshScene []
      sceneWF_freshScene rootsInv_freshScene
      (fun d hd => absurd hd (List.not_mem_nil d))
      hgood (by rw [List.nil_append]; exact hnodup) hclean
    have hms : merge_all_scenes s (f0 :: fs) hexes
        = perform_scene_switch
            (clean_up_material_names (clearSelection
              (((f0 :: fs).enumFrom 0).foldl
                (fun s p => import_single_scene s p.2 (hexes p.1) p.1 false) freshScene)))
            ((f0 :: fs).map (fun f => f.baseName)) f0.baseName := rfl
    obtain ⟨hp1, hp2, _⟩ := perform_scene_switch_pres
      (clean_up_material_names (clearSelection
        (((f0 :: fs).enumFrom 0).foldl
          (fun s p => import_single_scene s p.2 (hexes p.1) p.1 false) freshScene)))
      ((f0 :: fs).map (fun f => f.baseName)) f0.baseName
    constructor
    · rw [hms, hp1]
      have hcl : rootNamesOf (clean_up_material_names (clearSelection
            (((f0 :: fs).enumFrom 0).foldl
              (fun s p => import_single_scene s p.2 (hexes p.1) p.1 false) freshScene)))
          = rootNamesOf (((f0 :: fs).enumFrom 0).foldl
              (fun s p => import_single_scene s p.2 (hexes p.1) p.1 false) freshScene) := rfl
      rw [hcl]
      have h2 := hinv1.rootsEq
      rw [List.nil_append] at h2
      exact h2
    · rw [hms, hp2]
      have hcl : (clean_up_material_names (clearSelection
            (((f0 :: fs).enumFrom 0).foldl
              (fun s p => import_single_scene s p.2 (hexes p.1) p.1 false) freshScene))).layers
          = (((f0 :: fs).enumFrom 0).foldl
              (fun s p => import_single_scene s p.2 (hexes p.1) p.1 false) freshScene).layers := rfl
      rw [hcl]
      exact hwf1.namesNodup

/-- Concrete instance of the amended C1: merging the two clean files `"A"` and
`"B"` yields exactly the roots `"A"`, `"B"` and a duplicate-free name list. -/
theorem claim_C1_witness :
    wlC1 ≠ [] ∧ (∀ f ∈ wlC1, GoodName f.baseName)
    ∧ (wlC1.map (fun f => f.baseName)).Nodup
    ∧ (∀ f ∈ wlC1, ∀ fl ∈ f.layers, strContains fl.fname spaceParen = false)
    ∧ (rootNamesOf (merge_all_scenes freshScene wlC1 (fun _ => []))
        = wlC1.map (fun f => f.baseName)
      ∧ ((merge_all_scenes freshScene wlC1 (fun _ => [])).layers.map
          (fun l => l.name)).Nodup) :=
  ⟨by decide, by decide, by decide, by decide,
   claim_C1 freshScene wlC1 (fun _ => []) (by decide) (by decide) (by decide) (by decide)⟩

/-- C1 as stated fails for arbitrary origin lists: two files with the same
base name `"A"` end with one root layer, not two. -/
theorem claim_C1_counterexample :
    (rootNamesOf (merge_all_scenes freshScene clC1 (fun _ => []))).length
      ≠ clC1.length := by
  decide

end QSS
